import Mathlib

/-!
Verification of the VOLE-in-the-head zero-knowledge prover core.

This file embeds the field linear-algebra layer (src/lib.rs), the RAAA
linear code and subspace-VOLE layer (src/subspacevole/mod.rs), the seed
commitment scheme (src/vecccom/mod.rs) and the prover/verifier actors
(src/actors.rs) as executable Lean definitions over an arbitrary
commutative ring of field elements, and proves the stated properties of
the specification about them.

Conventions: a `FVec` is a `List F`; a `FMatrix` is a `List (List F)`
in row-major order.  Byte strings are `List Nat`.  The BLAKE3 hash and
the ChaCha-based seed expansion are external collaborators of the
crate, so they appear as explicit function arguments of the
definitions that use them; both parties are given the same functions,
which is all the honest-run statements need.
-/

set_option maxHeartbeats 1600000
set_option linter.unusedSectionVars false

section LinAlgebra

variable {F : Type} [CommRing F] [DecidableEq F]

/-- Pointwise sum of two field vectors (impl Add for FVec, src/lib.rs): zips,
truncating to the shorter length. -/
def fAdd (a b : List F) : List F := List.zipWith (· + ·) a b

/-- Pointwise difference of two field vectors (impl Sub for FVec, src/lib.rs). -/
def fSub (a b : List F) : List F := List.zipWith (fun x y => x - y) a b

/-- Pointwise product of two field vectors (impl Mul for FVec, src/lib.rs). -/
def fMul (a b : List F) : List F := List.zipWith (· * ·) a b

/-- Pointwise negation (impl Neg for FVec, src/lib.rs). -/
def fNeg (a : List F) : List F := a.map (fun x => -x)

/-- FVec::scalar_mul (src/lib.rs). -/
def scalar_mul (a : List F) (c : F) : List F := a.map (· * c)

/-- FVec::zero_pad (src/lib.rs): appends `len` zeroes. -/
def zero_pad (a : List F) (len : Nat) : List F := a ++ List.replicate len 0

/-- DotProduct::dot for FVec (src/lib.rs): zip, multiply, sum. -/
def dot (a b : List F) : F := (List.zipWith (· * ·) a b).sum

/-- DotProduct::sparse_dot for FVec against a SparseVec (src/lib.rs). -/
def sparse_dot (a : List F) (r : List (Nat × F)) : F :=
  r.foldl (fun acc p => acc + a.getD p.1 0 * p.2) 0

/-- impl Mul(&FMatrix) for &FVec (src/lib.rs): the vector dotted with every
row of the matrix. -/
def vec_times_matrix (v : List F) (m : List (List F)) : List F :=
  m.map (fun row => dot v row)

/-- impl Mul(&SparseFMatrix) for &FVec (src/lib.rs). -/
def vec_times_sparse_matrix (v : List F) (m : List (List (Nat × F))) : List F :=
  m.map (fun row => sparse_dot v row)

/-- FMatrix::transpose (src/lib.rs): row i of the result collects entry i of
every row; the width is taken from the first row. -/
def transposeM (m : List (List F)) : List (List F) :=
  (List.range (m.headD []).length).map (fun i => m.map (fun row => row.getD i 0))

/-- FMatrix::scalar_mul (src/lib.rs). -/
def mat_scalar_mul (m : List (List F)) (c : F) : List (List F) :=
  m.map (fun row => scalar_mul row c)

/-- impl Add for &FMatrix (src/lib.rs): row-wise pointwise sum. -/
def mat_add (a b : List (List F)) : List (List F) := List.zipWith fAdd a b

/-- impl Sub for &FMatrix (src/lib.rs): row-wise pointwise difference. -/
def mat_sub (a b : List (List F)) : List (List F) := List.zipWith fSub a b

/-- impl PartialEq for FVec (src/lib.rs): zips the two vectors and compares
the overlapping entries only. -/
def fvec_eq (a b : List F) : Bool := (a.zip b).all (fun p => decide (p.1 = p.2))

/-- impl PartialEq for FMatrix (src/lib.rs): zips the rows and compares each
pair with the FVec equality. -/
def fmatrix_eq (a b : List (List F)) : Bool :=
  (a.zip b).all (fun p => fvec_eq p.1 p.2)

/-- SparseVec::to_fvec (src/lib.rs). -/
def sparse_to_fvec (r : List (Nat × F)) (len : Nat) : List F :=
  r.foldl (fun v p => v.set p.1 p.2) (List.replicate len 0)

end LinAlgebra

section RAAA

/-- The RAAA linear code (src/subspacevole/mod.rs): three (forward, inverse)
interleave permutations and the repetition factor q. -/
structure RAAACode where
  permutations : List (List Nat × List Nat)
  q : Nat

/-- RAAACode block length n: the length of the first permutation. -/
def RAAACode.n (c : RAAACode) : Nat := (c.permutations.getD 0 ([], [])).1.length

/-- RAAACode dimension k = n / q. -/
def RAAACode.k (c : RAAACode) : Nat := c.n / c.q

variable {F : Type} [CommRing F] [DecidableEq F]

/-- RAAACode::repeat (src/subspacevole/mod.rs): concatenate q copies. -/
def repeatN (input : List F) (num_repeats : Nat) : List F :=
  List.flatten (List.replicate num_repeats input)

/-- RAAACode::repeat_extended (src/subspacevole/mod.rs): clone the zeroth
length-(len/q) section; each later section is the zeroth section plus the
corresponding input section. -/
def repeat_extended (input : List F) (q : Nat) : List F :=
  let sl := input.length / q
  let z := input.take sl
  z ++ List.flatten ((List.range (q - 1)).map
    (fun i => List.zipWith (· + ·) z ((input.drop (sl * (i + 1))).take sl)))

/-- RAAACode::repeat_extended_inverse (src/subspacevole/mod.rs): each later
section has the zeroth section subtracted. -/
def repeat_extended_inverse (input : List F) (q : Nat) : List F :=
  let sl := input.length / q
  let z := input.take sl
  z ++ List.flatten ((List.range (q - 1)).map
    (fun i => List.zipWith (fun a b => a - b) ((input.drop (sl * (i + 1))).take sl) z))

/-- The write loop of RAAACode::interleave: out[p.1] = p.2 for the
(destination, value) pairs in order. -/
def write_pairs (ps : List (Nat × F)) (init : List F) : List F :=
  ps.foldl (fun out p => out.set p.1 p.2) init

/-- RAAACode::interleave (src/subspacevole/mod.rs): out[permutation[i]] =
input[i], written sequentially into a zero-filled buffer. -/
def interleave (input : List F) (permutation : List Nat) : List F :=
  write_pairs (permutation.zip input) (List.replicate input.length 0)

/-- Helper of `accumulate`: running prefix sums with carried accumulator. -/
def accumulate_aux (acc : F) : List F → List F
  | [] => []
  | x :: rest => (acc + x) :: accumulate_aux (acc + x) rest

/-- RAAACode::accumulate (src/subspacevole/mod.rs): running prefix sums. -/
def accumulate (input : List F) : List F := accumulate_aux 0 input

/-- Helper of `accumulate_inverse`: successive differences with carried
previous entry. -/
def accumulate_inverse_aux (prev : F) : List F → List F
  | [] => []
  | x :: rest => (x - prev) :: accumulate_inverse_aux x rest

/-- RAAACode::accumulate_inverse (src/subspacevole/mod.rs): successive
differences. -/
def accumulate_inverse (input : List F) : List F := accumulate_inverse_aux 0 input

/-- LinearCode::encode for RAAACode (src/subspacevole/mod.rs): repeat, then
three interleave-accumulate stages. -/
def encode (c : RAAACode) (vec : List F) : List F :=
  let repeated := repeatN vec c.q
  let in0 := interleave repeated (c.permutations.getD 0 ([], [])).1
  let acc0 := accumulate in0
  let in1 := interleave acc0 (c.permutations.getD 1 ([], [])).1
  let acc1 := accumulate in1
  let in2 := interleave acc1 (c.permutations.getD 2 ([], [])).1
  accumulate in2

/-- LinearCode::encode_extended for RAAACode (src/subspacevole/mod.rs):
multiply by the invertible extended generator Tc. -/
def encode_extended (c : RAAACode) (vec : List F) : List F :=
  let repeated := repeat_extended vec c.q
  let in0 := interleave repeated (c.permutations.getD 0 ([], [])).1
  let acc0 := accumulate in0
  let in1 := interleave acc0 (c.permutations.getD 1 ([], [])).1
  let acc1 := accumulate in1
  let in2 := interleave acc1 (c.permutations.getD 2 ([], [])).1
  accumulate in2

/-- LinearCode::mul_vec_by_extended_inverse for RAAACode
(src/subspacevole/mod.rs): multiply by Tc⁻¹, inverting the six stages. -/
def mul_vec_by_extended_inverse (c : RAAACode) (u : List F) : List F :=
  let acc2_inv := accumulate_inverse u
  let in2_inv := interleave acc2_inv (c.permutations.getD 2 ([], [])).2
  let acc1_inv := accumulate_inverse in2_inv
  let in1_inv := interleave acc1_inv (c.permutations.getD 1 ([], [])).2
  let acc0_inv := accumulate_inverse in1_inv
  let in0_inv := interleave acc0_inv (c.permutations.getD 0 ([], [])).2
  repeat_extended_inverse in0_inv c.q

/-- LinearCode::check_parity for RAAACode (src/subspacevole/mod.rs): invert
the three accumulate-interleave stages and check the q sections agree with
the zeroth. -/
def check_parity (c : RAAACode) (putative_codeword : List F) : Bool :=
  let acc2_inv := accumulate_inverse putative_codeword
  let in2_inv := interleave acc2_inv (c.permutations.getD 2 ([], [])).2
  let acc1_inv := accumulate_inverse in2_inv
  let in1_inv := interleave acc1_inv (c.permutations.getD 1 ([], [])).2
  let acc0_inv := accumulate_inverse in1_inv
  let s := interleave acc0_inv (c.permutations.getD 0 ([], [])).2
  let sl := s.length / c.q
  (List.range (c.q - 1)).all
    (fun i => decide ((s.drop (sl * (i + 1))).take sl = s.take sl))

/-- LinearCode::batch_encode (src/subspacevole/mod.rs). -/
def batch_encode (c : RAAACode) (m : List (List F)) : List (List F) :=
  m.map (encode c)

/-- LinearCode::batch_encode_extended (src/subspacevole/mod.rs). -/
def batch_encode_extended (c : RAAACode) (m : List (List F)) : List (List F) :=
  m.map (encode_extended c)

/-- LinearCode::mul_matrix_by_extended_inverse (src/subspacevole/mod.rs). -/
def mul_matrix_by_extended_inverse (c : RAAACode) (old_us : List (List F)) :
    List (List F) :=
  old_us.map (mul_vec_by_extended_inverse c)

/-- LinearCode::get_prover_correction (src/subspacevole/mod.rs): multiply U
row-wise by Tc⁻¹ and split each row at k. -/
def get_prover_correction (c : RAAACode) (old_us : List (List F)) :
    List (List F) × List (List F) :=
  let full_size := mul_matrix_by_extended_inverse c old_us
  (full_size.map (fun u => u.take c.k), full_size.map (fun u => u.drop c.k))

/-- LinearCode::correct_verifier_qs (src/subspacevole/mod.rs): subtract
encode_extended(0^k ‖ C_row) · diag(Δ) from each Q row. -/
def correct_verifier_qs (c : RAAACode) (old_qs : List (List F))
    (deltas : List F) (correction : List (List F)) : List (List F) :=
  let l := (old_qs.headD []).length
  let correction_len := (correction.headD []).length
  let zero_len := l - correction_len
  let zeroes_cons_c := (List.range old_qs.length).map
    (fun i => List.replicate zero_len (0 : F) ++ correction.getD i [])
  let times_extended_generator := batch_encode_extended c zeroes_cons_c
  let times_deltas := times_extended_generator.map (fun x => fMul x deltas)
  List.zipWith fSub old_qs times_deltas

/-- calc_consistency_check (src/subspacevole/mod.rs): (h·U_cols, h·V_cols). -/
def calc_consistency_check (challenge_hash : List F) (u_cols v_cols : List (List F)) :
    List F × List F :=
  (vec_times_matrix challenge_hash u_cols, vec_times_matrix challenge_hash v_cols)

/-- LinearCode::verify_consistency_check (src/subspacevole/mod.rs), as the
boolean outcome: v_hash must equal h·Q_cols − encode(u_hash)·diag(Δ) under
the FVec zip-equality. -/
def verify_consistency_check (c : RAAACode) (challenge_hash : List F)
    (consistency_check : List F × List F) (deltas : List F)
    (q_cols : List (List F)) : Bool :=
  let u_hash := consistency_check.1
  let v_hash := consistency_check.2
  let q_hash := vec_times_matrix challenge_hash q_cols
  fvec_eq v_hash (fSub q_hash (fMul (encode c u_hash) deltas))

/-- The forward permutation of stage j of an RAAACode. -/
def perm_f (c : RAAACode) (j : Nat) : List Nat := (c.permutations.getD j ([], [])).1

/-- The backward permutation of stage j of an RAAACode. -/
def perm_b (c : RAAACode) (j : Nat) : List Nat := (c.permutations.getD j ([], [])).2

/-- Section i of length sl of a vector: entries [sl·i, sl·(i+1)). -/
def sectionOf (y : List F) (sl i : Nat) : List F := (y.drop (sl * i)).take sl

/-- The three inverted accumulate-interleave stages shared by check_parity
and mul_vec_by_extended_inverse (src/subspacevole/mod.rs). -/
def invert_stages (c : RAAACode) (y : List F) : List F :=
  interleave (accumulate_inverse (interleave (accumulate_inverse
    (interleave (accumulate_inverse y) (perm_b c 2))) (perm_b c 1))) (perm_b c 0)

/-- The linear combination Σ_t ch_t · rows_t of the rows of a matrix, padded
to the given width. -/
def lin_comb (ch : List F) (rows : List (List F)) (width : Nat) : List F :=
  (List.zipWith (fun c row => scalar_mul row c) ch rows).foldr fAdd
    (List.replicate width 0)

/-- A (forward, backward) pair is a well-formed mutually inverse pair of
permutations of {0, …, n−1}. -/
@[reducible] def PermPair (f b : List Nat) (n : Nat) : Prop :=
  f.length = n ∧ b.length = n ∧
  (∀ i, i < n → f.getD i 0 < n) ∧ (∀ i, i < n → b.getD i 0 < n) ∧
  (∀ i, i < n → b.getD (f.getD i 0) 0 = i) ∧
  (∀ i, i < n → f.getD (b.getD i 0) 0 = i)

/-- Well-formedness of an RAAACode value as built by the constructors in the
source: three inverse permutation pairs over {0, …, n−1}, q ≥ 1 dividing n. -/
@[reducible] def CodeWF (c : RAAACode) : Prop :=
  c.permutations.length = 3 ∧ 1 ≤ c.q ∧ c.n % c.q = 0 ∧
  (∀ j, j < 3 →
    PermPair (c.permutations.getD j ([], [])).1 (c.permutations.getD j ([], [])).2 c.n)

end RAAA

section Vecccom

/-- Byte strings (the source uses [u8; 32] values and BLAKE3 digests). -/
abbrev Bytes := List Nat

/-- commit_seeds (src/vecccom/mod.rs): H(H(s₀) ‖ H(s₁)); the BLAKE3 hash is
the explicit argument `H`. -/
def commit_seeds (H : Bytes → Bytes) (seed0 seed1 : Bytes) : Bytes :=
  H (H seed0 ++ H seed1)

/-- commit_seed_commitments (src/vecccom/mod.rs): one hash over the
concatenation of all commitments. -/
def commit_seed_commitments (H : Bytes → Bytes) (comms : List Bytes) : Bytes :=
  H (List.flatten comms)

/-- proof_for_revealed_seed (src/vecccom/mod.rs): hash of the hidden seed. -/
def proof_for_revealed_seed (H : Bytes → Bytes) (other_seed : Bytes) : Bytes :=
  H other_seed

/-- reconstruct_commitment (src/vecccom/mod.rs): hash of H(revealed) and the
proof concatenated in the order dictated by the revealed index. -/
def reconstruct_commitment (H : Bytes → Bytes) (revealed_seed : Bytes)
    (revealed_seed_idx : Bool) (proof : Bytes) : Bytes :=
  let digest_of_revealed := H revealed_seed
  let preimage :=
    if revealed_seed_idx then proof ++ digest_of_revealed
    else digest_of_revealed ++ proof
  H preimage

/-- verify_proof_of_revealed_seed (src/vecccom/mod.rs): recompute the
commitment and compare. -/
def verify_proof_of_revealed_seed (H : Bytes → Bytes) (commitment : Bytes)
    (revealed_seed : Bytes) (revealed_seed_idx : Bool) (proof : Bytes) : Bool :=
  decide (reconstruct_commitment H revealed_seed revealed_seed_idx proof = commitment)

end Vecccom

section MissingModules

variable {F : Type} [CommRing F] [DecidableEq F]

/-- Modelled from the spec: the `SparseR1CS` carried by `R1CSWithMetadata` of
the missing src/zkp module (§3, §6: a triple of sparse matrices A, B, C whose
rows are (column index, value) pairs). -/
structure SparseR1CS (F : Type) where
  a_rows : List (List (Nat × F))
  b_rows : List (List (Nat × F))
  c_rows : List (List (Nat × F))

/-- Modelled from the spec: `R1CSWithMetadata` of the missing src/zkp module
(§3 and the field list visible in src/circom/r1cs.rs `to_crate_format`). -/
structure R1CSWithMetadata (F : Type) where
  r1cs : SparseR1CS F
  public_inputs_indices : List Nat
  public_outputs_indices : List Nat
  unpadded_wtns_len : Nat

/-- Modelled from the spec: the padding parameters returned by
`calc_padding_needed` of the missing src/zkp module, as consumed in
src/actors.rs. -/
structure PaddingParams where
  pad_len : Nat
  num_padded_wtns_rows : Nat

/-- Modelled from the spec: `R1CSWithMetadata::calc_padding_needed` of the
missing src/zkp module.  Per the doc of
`Prover::from_witness_and_circuit_unpadded`, a witness of length w is padded
to the least multiple of the code dimension k; the row count is that
multiple divided by k. -/
def R1CSWithMetadata.calc_padding_needed (circ : R1CSWithMetadata F) (k : Nat) :
    PaddingParams :=
  let rows := (circ.unpadded_wtns_len + k - 1) / k
  { pad_len := rows * k - circ.unpadded_wtns_len, num_padded_wtns_rows := rows }

/-- Modelled from the spec: `R1CS::zero_pad` of the missing src/zkp module.
Padding appends zero wires; on the sparse representation (explicit column
indices) the constraint rows are unchanged, so the sparse data is the
identity image. -/
def SparseR1CS.zero_pad_r1cs (cs : SparseR1CS F) (_pad_len : Nat) : SparseR1CS F := cs

/-- Modelled from the spec: the prover's small-VOLE outputs of the missing
src/smallvole module (§4.3). -/
structure ProverSmallVOLEOutputs (F : Type) where
  u : List F
  v : List F

/-- Modelled from the spec: the verifier's small-VOLE outputs of the missing
src/smallvole module (§4.3). -/
structure VerifierSmallVOLEOutputs (F : Type) where
  delta : F
  q : List F

/-- Modelled from the spec: `VOLE::prover_outputs` of the missing
src/smallvole module (§4.3).  The seed expansion (`expand_seed_to_field_vec`,
a ChaCha PRNG) is the abstract argument `expand`.  §4.3 sets u = r₀ + r₁ and
v = r₀ up to convention (its own note and §9 flag the sign conventions); the
sign of u is fixed to −(r₀ + r₁) so that the correlation invariant of §8,
u·Δ_b + v = q with q = r_b if Δ_b = 0 else −r_b for the revealed seed
s_{Δ_b}, holds as stated. -/
def vole_prover_outputs (expand : Bytes → Nat → List F) (seed0 seed1 : Bytes)
    (len : Nat) : ProverSmallVOLEOutputs F :=
  let r0 := expand seed0 len
  let r1 := expand seed1 len
  { u := fNeg (fAdd r0 r1), v := r0 }

/-- Modelled from the spec: `VOLE::verifier_outputs` of the missing
src/smallvole module (§4.3): q = r_b if Δ_b = 0 else −r_b, Δ the bit as a
field element.  The boolean argument mirrors the call site in
src/actors.rs (`delta_choices[i] == 0`). -/
def vole_verifier_outputs (expand : Bytes → Nat → List F) (seed : Bytes)
    (delta_is_zero : Bool) (len : Nat) : VerifierSmallVOLEOutputs F :=
  if delta_is_zero then { delta := 0, q := expand seed len }
  else { delta := 1, q := fNeg (expand seed len) }

/-- Modelled from the spec: the `ZKP` struct of the missing src/zkp module:
two field elements (A, B) (§6). -/
structure ZKP (F : Type) where
  a : F
  b : F

/-- PublicOpenings (src/actors.rs): (value, mac) pairs for the public input
and output wires. -/
structure PublicOpenings (F : Type) where
  public_inputs : List (F × F)
  public_outputs : List (F × F)

/-- PublicUOpenings (src/actors.rs). -/
structure PublicUOpenings (F : Type) where
  public_inputs : List F
  public_outputs : List F

/-- PublicOpenings::u_values (src/actors.rs). -/
def PublicOpenings.u_values (po : PublicOpenings F) : PublicUOpenings F :=
  { public_inputs := po.public_inputs.map (fun p => p.1),
    public_outputs := po.public_outputs.map (fun p => p.1) }

/-- Modelled from the spec: the challenge bundle returned by
`calc_other_challenges` of the missing src/challenges module (§4.7): the
VitH scalar Δ′, the S-challenge χ, and the per-VOLE Δ bit vector. -/
structure TranscriptChallenges (F : Type) where
  vith_delta : F
  s_challenge : List F
  delta_choices : List Nat

/-- The external collaborators of the actors: the BLAKE3 hash, the ChaCha
seed expansion, and the Fiat–Shamir challenge derivations of the missing
src/challenges module (§4.7).  Prover and verifier share one value of this
structure, exactly as they share one implementation of those functions. -/
structure Collaborators (F : Type) where
  H : Bytes → Bytes
  expand : Bytes → Nat → List F
  challenge_from_seed : Bytes → Bytes → Nat → List F
  calc_quicksilver_challenge : Bytes → List (List F) → F
  calc_other_challenges : Bytes → List (List F) → ZKP F → Nat → Nat →
    PublicOpenings F → TranscriptChallenges F

/-- The byte string of the domain separator "vole_consistency_check"
(src/actors.rs passes it as UTF-8 bytes). -/
def domain_vole_consistency : Bytes := "vole_consistency_check".data.map Char.toNat

/-- Well-formedness of the collaborator functions: the challenge and seed
expansions honour their requested lengths and the Δ choices are a length-N
bit vector (§4.7). -/
def CollabWF (col : @Collaborators F) : Prop :=
  (∀ s m, (col.expand s m).length = m) ∧
  (∀ s d m, (col.challenge_from_seed s d m).length = m) ∧
  (∀ sc wc z vl nv po,
    (col.calc_other_challenges sc wc z vl nv po).delta_choices.length = nv ∧
    ∀ d ∈ (col.calc_other_challenges sc wc z vl nv po).delta_choices, d ≤ 1)

/-- Modelled from the spec: the per-constraint (A_j, B_j) pairs of the
Quicksilver prover of the missing src/zkp module (§4.6): the zero- and
first-order coefficients in Δ′ of ⟨a_j,q⟩·⟨b_j,q⟩ − Δ′·⟨c_j,q⟩ for the
MAC-ed witness, A_j = ⟨a,x⟩⟨b,m⟩ + ⟨b,x⟩⟨a,m⟩ − ⟨c,m⟩ and B_j = ⟨a,m⟩⟨b,m⟩. -/
def qs_terms (x m : List F) (cs : SparseR1CS F) : List (F × F) :=
  (List.range cs.a_rows.length).map (fun j =>
    let aj := cs.a_rows.getD j []
    let bj := cs.b_rows.getD j []
    let cj := cs.c_rows.getD j []
    let ax := sparse_dot x aj
    let bx := sparse_dot x bj
    let am := sparse_dot m aj
    let bm := sparse_dot m bj
    let cm := sparse_dot m cj
    (ax * bm + bx * am - cm, am * bm))

/-- Σ_j γ^j · l_j, the γ-power aggregation of §4.6. -/
def geom_weighted (gamma : F) (l : List F) : F :=
  (List.zipWith (fun t j => gamma ^ j * t) l (List.range l.length)).sum

/-- Modelled from the spec: `quicksilver::Prover::prove` of the missing
src/zkp module (§4.6): the γ-weighted sums (A, B) = Σ_j γ^j·(A_j, B_j) over
the witness values x and their MACs m = u₂. -/
def qs_prove (witness u2 : List (List F)) (cs : SparseR1CS F) (challenge : F) :
    ZKP F :=
  let ts := qs_terms witness.flatten u2.flatten cs
  { a := geom_weighted challenge (ts.map (fun p => p.1)),
    b := geom_weighted challenge (ts.map (fun p => p.2)) }

/-- Modelled from the spec: `quicksilver::Prover::open_public` of the missing
src/zkp module (§4.6): reveal the (value, MAC) pair of each public wire. -/
def qs_open_public (x m : List F) (indices : List Nat) : List (F × F) :=
  indices.map (fun i => (x.getD i 0, m.getD i 0))

/-- Modelled from the spec: the per-wire tags the Quicksilver verifier holds
(missing src/zkp module, §4.6): it knows S = Δ′·u₁ + u₂ and the witness
commitment W − u₁, so wire i's tag x_i·Δ′ + m_i is Δ′·(W−u₁) + S read off
row by row. -/
def qs_verifier_tags (s_matrix : List (List F)) (vith_delta : F)
    (witness_comm : List (List F)) : List F :=
  (List.zipWith (fun wc s => fAdd (scalar_mul wc vith_delta) s)
    witness_comm s_matrix).flatten

/-- Modelled from the spec: `quicksilver::Verifier::verify` of the missing
src/zkp module (§4.6): recompute the γ-weighted aggregate of
⟨a_j,q⟩·⟨b_j,q⟩ − Δ′·⟨c_j,q⟩ and compare with A·Δ′ + B. -/
def qs_verify (qtags : List F) (vith_delta : F) (cs : SparseR1CS F)
    (challenge : F) (zkp : ZKP F) : Bool :=
  let checks := (List.range cs.a_rows.length).map (fun j =>
    let aq := sparse_dot qtags (cs.a_rows.getD j [])
    let bq := sparse_dot qtags (cs.b_rows.getD j [])
    let cq := sparse_dot qtags (cs.c_rows.getD j [])
    aq * bq - vith_delta * cq)
  decide (geom_weighted challenge checks = zkp.a * vith_delta + zkp.b)

/-- Modelled from the spec: `quicksilver::Verifier::verify_public` of the
missing src/zkp module (§4.6): each opened (x, m) must satisfy
x·Δ′ + m = tag at its public wire index. -/
def qs_verify_public (qtags : List F) (vith_delta : F)
    (circuit : R1CSWithMetadata F) (po : PublicOpenings F) : Bool :=
  ((circuit.public_inputs_indices.zip po.public_inputs).all
    (fun p => decide (p.2.1 * vith_delta + p.2.2 = qtags.getD p.1 0))) &&
  ((circuit.public_outputs_indices.zip po.public_outputs).all
    (fun p => decide (p.2.1 * vith_delta + p.2.2 = qtags.getD p.1 0)))

end MissingModules

section Actors

variable {F : Type} [CommRing F] [DecidableEq F]

/-- SubspaceVOLESecrets (src/actors.rs): the N seed pairs and the four
half-matrices u₁, u₂, v₁, v₂. -/
structure SubspaceVOLESecrets (F : Type) where
  seeds : List (Bytes × Bytes)
  u1 : List (List F)
  u2 : List (List F)
  v1 : List (List F)
  v2 : List (List F)

/-- Prover (src/actors.rs). -/
structure Prover (F : Type) where
  code : RAAACode
  vole_length : Nat
  num_voles : Nat
  witness : List (List F)
  witness_comm : Option (List (List F))
  circuit : R1CSWithMetadata F
  subspace_vole_secrets : Option (SubspaceVOLESecrets F)
  seed_commitment : Option Bytes

/-- Verifier (src/actors.rs). -/
structure Verifier (F : Type) where
  circuit : R1CSWithMetadata F
  code : RAAACode
  num_voles : Nat
  vole_length : Nat
  subspace_vole_deltas : Option (List F)
  vith_delta : Option F

/-- ProverCommitment (src/actors.rs). -/
structure ProverCommitment (F : Type) where
  seed_comm : Bytes
  witness_comm : List (List F)
  subspace_vole_correction : List (List F)
  consistency_check : List F × List F

/-- SubspaceVOLEOpening (src/actors.rs). -/
structure SubspaceVOLEOpening where
  seed_opens : List Bytes
  seed_proofs : List Bytes

/-- Proof (src/actors.rs). -/
structure ZKProof (F : Type) where
  zkp : ZKP F
  seed_openings : SubspaceVOLEOpening
  public_openings : PublicOpenings F
  s_matrix : List (List F)
  s_consistency_check : List F

/-- CommitAndProof (src/actors.rs). -/
structure CommitAndProof (F : Type) where
  commitment : ProverCommitment F
  proof : ZKProof F

/-- Indexing a two-element seed array `[seed; 2]` by a usize that the
challenge derivation guarantees to be 0 or 1 (src/actors.rs uses
`seeds[i][delta_choices[i]]`). -/
def pair_get (p : Bytes × Bytes) (i : Nat) : Bytes := if i = 0 then p.1 else p.2

/-- Prover::from_witness_and_circuit_unpadded (src/actors.rs): pad the
witness and circuit to the code dimension, chunk the witness into rows of
length k, and build the fresh prover.  `code` stands for the
`RAAACode::rand_default()` call (its BLAKE3-seeded permutations are shared
by both parties). -/
def Prover.from_witness_and_circuit_unpadded (code : RAAACode) (witness : List F)
    (circuit : R1CSWithMetadata F) : Prover F :=
  let k := code.k
  let pp := circuit.calc_padding_needed k
  let witness_p := zero_pad witness pp.pad_len
  let circuit_p : R1CSWithMetadata F :=
    { circuit with r1cs := circuit.r1cs.zero_pad_r1cs pp.pad_len }
  let witness_rows := (List.range pp.num_padded_wtns_rows).map
    (fun i => (witness_p.drop (k * i)).take k)
  { num_voles := code.n,
    vole_length := 2 * (pp.num_padded_wtns_rows + 1),
    code := code,
    circuit := circuit_p,
    witness := witness_rows,
    seed_commitment := none,
    subspace_vole_secrets := none,
    witness_comm := none }

/-- Prover::mkvole (src/actors.rs).  The fresh random seed pairs drawn from
the thread RNG are the explicit argument `seeds`; the collaborator bundle
supplies the hash, the seed expansion and the Fiat–Shamir challenges.
Returns the commitment together with the mutated prover. -/
def Prover.mkvole (col : Collaborators F) (p : Prover F)
    (seeds : List (Bytes × Bytes)) :
    Except String (ProverCommitment F × Prover F) :=
  let seed_commitments := seeds.map (fun s => commit_seeds col.H s.1 s.2)
  let vole_outputs := seeds.map
    (fun s => vole_prover_outputs (F := F) col.expand s.1 s.2 p.vole_length)
  let seed_comm := commit_seed_commitments col.H seed_commitments
  let u_prime_cols := vole_outputs.map (fun o => o.u)
  let v_cols := vole_outputs.map (fun o => o.v)
  let u_prime_rows := transposeM u_prime_cols
  let v_rows := transposeM v_cols
  let nc := get_prover_correction p.code u_prime_rows
  let new_u_rows := nc.1
  let correction := nc.2
  let witness_comm := mat_sub p.witness (new_u_rows.take p.witness.length)
  if p.num_voles % p.code.q ≠ 0 then Except.error "invalid num_voles param" else
  let challenge_hash :=
    col.challenge_from_seed seed_comm domain_vole_consistency p.vole_length
  let consistency_check :=
    calc_consistency_check challenge_hash (transposeM new_u_rows) v_cols
  let u_len := new_u_rows.length
  let v_len := v_rows.length
  if u_len % 2 ≠ 0 then Except.error "Number of u rows must be even" else
  if v_len % 2 ≠ 0 then Except.error "Number of v rows must be even" else
  let half_u_len := u_len / 2
  let half_v_len := v_len / 2
  let u1 := new_u_rows.take half_u_len
  let u2 := (new_u_rows.take u_len).drop half_u_len
  let v1 := v_rows.take half_v_len
  let v2 := (v_rows.take v_len).drop half_v_len
  Except.ok
    ({ seed_comm := seed_comm, witness_comm := witness_comm,
       consistency_check := consistency_check,
       subspace_vole_correction := correction },
     { p with
        seed_commitment := some seed_comm,
        witness_comm := some witness_comm,
        subspace_vole_secrets := some
          { seeds := seeds, u1 := u1, u2 := u2, v1 := v1, v2 := v2 } })

/-- Prover::s_matrix_with_consistency_proof (src/actors.rs):
(Δ′·u₁ + u₂, χ·(Δ′·v₁ + v₂)ᵀ). -/
def Prover.s_matrix_with_consistency_proof (p : Prover F) (vith_delta : F)
    (challenge : List F) : Except String (List (List F) × List F) :=
  match p.subspace_vole_secrets with
  | none => Except.error "VOLE must be completed before this step"
  | some svs =>
    Except.ok
      (mat_add (mat_scalar_mul svs.u1 vith_delta) svs.u2,
       vec_times_matrix challenge
         (transposeM (mat_add (mat_scalar_mul svs.v1 vith_delta) svs.v2)))

/-- Prover::prove (src/actors.rs).  The body only reads the prover state, so
the state after the call is the argument itself. -/
def Prover.prove (col : Collaborators F) (p : Prover F) :
    Except String (ZKProof F) :=
  match p.subspace_vole_secrets with
  | none => Except.error "VOLE must be completed before this step"
  | some svs =>
    match p.seed_commitment with
    | none => Except.error "VOLE must be completed before this step"
    | some seed_comm =>
      match p.witness_comm with
      | none => Except.error "VOLE must be completed before this step"
      | some witness_comm =>
        let challenge := col.calc_quicksilver_challenge seed_comm witness_comm
        let zkp := qs_prove p.witness svs.u2 p.circuit.r1cs challenge
        let public_openings : PublicOpenings F :=
          { public_inputs := qs_open_public p.witness.flatten svs.u2.flatten
              p.circuit.public_inputs_indices,
            public_outputs := qs_open_public p.witness.flatten svs.u2.flatten
              p.circuit.public_outputs_indices }
        let challenges := col.calc_other_challenges seed_comm witness_comm zkp
          p.vole_length p.num_voles public_openings
        match p.s_matrix_with_consistency_proof challenges.vith_delta
            challenges.s_challenge with
        | Except.error e => Except.error e
        | Except.ok sm =>
          let openings := (List.range svs.seeds.length).map
            (fun i => pair_get (svs.seeds.getD i ([], []))
              (challenges.delta_choices.getD i 0))
          let opening_proofs := (List.range svs.seeds.length).map
            (fun i => proof_for_revealed_seed col.H
              (pair_get (svs.seeds.getD i ([], []))
                (1 - challenges.delta_choices.getD i 0)))
          Except.ok
            { zkp := zkp, s_matrix := sm.1, s_consistency_check := sm.2,
              public_openings := public_openings,
              seed_openings :=
                { seed_opens := openings, seed_proofs := opening_proofs } }

/-- Prover::commit_and_prove (src/actors.rs): mkvole then prove; returns the
commit-and-proof together with the final prover state. -/
def Prover.commit_and_prove (col : Collaborators F) (p : Prover F)
    (seeds : List (Bytes × Bytes)) :
    Except String (CommitAndProof F × Prover F) :=
  match Prover.mkvole col p seeds with
  | Except.error e => Except.error e
  | Except.ok (commitment, p2) =>
    match Prover.prove col p2 with
    | Except.error e => Except.error e
    | Except.ok proof =>
      Except.ok ({ commitment := commitment, proof := proof }, p2)

/-- Verifier::from_circuit (src/actors.rs); `code` stands for the shared
`RAAACode::rand_default()`. -/
def Verifier.from_circuit (code : RAAACode) (circuit : R1CSWithMetadata F) :
    Verifier F :=
  let pp := circuit.calc_padding_needed code.k
  { circuit := { circuit with r1cs := circuit.r1cs.zero_pad_r1cs pp.pad_len },
    num_voles := code.n,
    vole_length := 2 * (pp.num_padded_wtns_rows + 1),
    code := code,
    subspace_vole_deltas := none,
    vith_delta := none }

/-- The Fiat–Shamir challenge bundle recomputed at the top of
Verifier::verify. -/
def verify_challenges (col : Collaborators F) (v : Verifier F)
    (cnp : CommitAndProof F) : TranscriptChallenges F :=
  col.calc_other_challenges cnp.commitment.seed_comm cnp.commitment.witness_comm
    cnp.proof.zkp v.vole_length v.num_voles cnp.proof.public_openings

/-- The per-VOLE reconstructed seed commitments of Verifier::verify. -/
def verify_recs (col : Collaborators F) (v : Verifier F)
    (cnp : CommitAndProof F) : List Bytes :=
  (List.range v.num_voles).map (fun i =>
    reconstruct_commitment col.H (cnp.proof.seed_openings.seed_opens.getD i [])
      (decide ((verify_challenges col v cnp).delta_choices.getD i 0 ≠ 0))
      (cnp.proof.seed_openings.seed_proofs.getD i []))

/-- The small-VOLE outputs recomputed by Verifier::verify. -/
def verify_vole_outs (col : Collaborators F) (v : Verifier F)
    (cnp : CommitAndProof F) : List (VerifierSmallVOLEOutputs F) :=
  (List.range v.num_voles).map (fun i =>
    vole_verifier_outputs (F := F) col.expand
      (cnp.proof.seed_openings.seed_opens.getD i [])
      (decide ((verify_challenges col v cnp).delta_choices.getD i 0 = 0))
      v.vole_length)

/-- The Δ vector assembled by Verifier::verify. -/
def verify_deltas (col : Collaborators F) (v : Verifier F)
    (cnp : CommitAndProof F) : List F :=
  (verify_vole_outs col v cnp).map (fun o => o.delta)

/-- The Q columns assembled by Verifier::verify. -/
def verify_q_cols (col : Collaborators F) (v : Verifier F)
    (cnp : CommitAndProof F) : List (List F) :=
  (verify_vole_outs col v cnp).map (fun o => o.q)

/-- The corrected Q rows computed by Verifier::verify. -/
def verify_new_q_rows (col : Collaborators F) (v : Verifier F)
    (cnp : CommitAndProof F) : List (List F) :=
  correct_verifier_qs v.code (transposeM (verify_q_cols col v cnp))
    (verify_deltas col v cnp) cnp.commitment.subspace_vole_correction

/-- Left side of the S-matrix check in Verifier::verify. -/
def verify_lhs (col : Collaborators F) (v : Verifier F)
    (cnp : CommitAndProof F) : List F :=
  vec_times_matrix (verify_challenges col v cnp).s_challenge
    (transposeM (mat_add
      (mat_scalar_mul ((verify_new_q_rows col v cnp).take (v.vole_length / 2))
        (verify_challenges col v cnp).vith_delta)
      (((verify_new_q_rows col v cnp).take v.vole_length).drop
        (v.vole_length / 2))))

/-- Right side of the S-matrix check in Verifier::verify. -/
def verify_rhs (col : Collaborators F) (v : Verifier F)
    (cnp : CommitAndProof F) : List F :=
  fAdd cnp.proof.s_consistency_check
    (vec_times_matrix (verify_challenges col v cnp).s_challenge
      (transposeM ((batch_encode v.code cnp.proof.s_matrix).map
        (fun row => fMul row (verify_deltas col v cnp)))))

/-- The per-wire Quicksilver tags computed by Verifier::verify. -/
def verify_qtags (col : Collaborators F) (v : Verifier F)
    (cnp : CommitAndProof F) : List F :=
  qs_verifier_tags cnp.proof.s_matrix (verify_challenges col v cnp).vith_delta
    cnp.commitment.witness_comm

/-- Verifier::verify (src/actors.rs).  The let-bound intermediates of the
source (the challenge bundle, the reconstructed commitments, the small-VOLE
outputs, the corrected Q rows and the two sides of the S check) are the
`verify_*` definitions above. -/
def Verifier.verify (col : Collaborators F) (v : Verifier F)
    (cnp : CommitAndProof F) : Except String (PublicUOpenings F) :=
  if commit_seed_commitments col.H (verify_recs col v cnp) ≠
      cnp.commitment.seed_comm then
    Except.error "Seed commitment is not a commitment to the seeds" else
  if ¬ verify_consistency_check v.code
      (col.challenge_from_seed cnp.commitment.seed_comm domain_vole_consistency
        v.vole_length)
      cnp.commitment.consistency_check (verify_deltas col v cnp)
      (transposeM (verify_new_q_rows col v cnp)) then
    Except.error "Consistency check fail!" else
  if ¬ fvec_eq (verify_lhs col v cnp) (verify_rhs col v cnp) then
    Except.error "failed to verify S matrix" else
  if ¬ qs_verify (verify_qtags col v cnp)
      (verify_challenges col v cnp).vith_delta v.circuit.r1cs
      (col.calc_quicksilver_challenge cnp.commitment.seed_comm
        cnp.commitment.witness_comm) cnp.proof.zkp then
    Except.error "quicksilver verification failed" else
  if ¬ qs_verify_public (verify_qtags col v cnp)
      (verify_challenges col v cnp).vith_delta v.circuit
      cnp.proof.public_openings then
    Except.error "public opening verification failed" else
  Except.ok (PublicOpenings.u_values cnp.proof.public_openings)

end Actors

section ActorSpecs

variable {F : Type} [CommRing F] [DecidableEq F]

/-- The small-VOLE u columns drawn in Prover::mkvole. -/
def mkvole_u_cols (col : Collaborators F) (p : Prover F)
    (seeds : List (Bytes × Bytes)) : List (List F) :=
  (seeds.map (fun s => vole_prover_outputs (F := F) col.expand s.1 s.2 p.vole_length)).map
    (fun o => o.u)

/-- The small-VOLE v columns drawn in Prover::mkvole. -/
def mkvole_v_cols (col : Collaborators F) (p : Prover F)
    (seeds : List (Bytes × Bytes)) : List (List F) :=
  (seeds.map (fun s => vole_prover_outputs (F := F) col.expand s.1 s.2 p.vole_length)).map
    (fun o => o.v)

/-- The corrected U rows computed in Prover::mkvole. -/
def mkvole_u_rows (col : Collaborators F) (p : Prover F)
    (seeds : List (Bytes × Bytes)) : List (List F) :=
  (get_prover_correction p.code (transposeM (mkvole_u_cols col p seeds))).1

/-- The correction matrix computed in Prover::mkvole. -/
def mkvole_correction (col : Collaborators F) (p : Prover F)
    (seeds : List (Bytes × Bytes)) : List (List F) :=
  (get_prover_correction p.code (transposeM (mkvole_u_cols col p seeds))).2

/-- The v rows computed in Prover::mkvole. -/
def mkvole_v_rows (col : Collaborators F) (p : Prover F)
    (seeds : List (Bytes × Bytes)) : List (List F) :=
  transposeM (mkvole_v_cols col p seeds)

/-- The batch seed commitment computed in Prover::mkvole. -/
def mkvole_seed_comm {F : Type} [CommRing F] [DecidableEq F]
    (col : Collaborators F) (seeds : List (Bytes × Bytes)) : Bytes :=
  commit_seed_commitments col.H (seeds.map (fun s => commit_seeds col.H s.1 s.2))

/-- The witness commitment computed in Prover::mkvole. -/
def mkvole_witness_comm (col : Collaborators F) (p : Prover F)
    (seeds : List (Bytes × Bytes)) : List (List F) :=
  mat_sub p.witness ((mkvole_u_rows col p seeds).take p.witness.length)

/-- The commitment emitted by a successful Prover::mkvole. -/
def mkvole_commitment (col : Collaborators F) (p : Prover F)
    (seeds : List (Bytes × Bytes)) : ProverCommitment F :=
  { seed_comm := mkvole_seed_comm col seeds,
    witness_comm := mkvole_witness_comm col p seeds,
    consistency_check := calc_consistency_check
      (col.challenge_from_seed (mkvole_seed_comm col seeds)
        domain_vole_consistency p.vole_length)
      (transposeM (mkvole_u_rows col p seeds)) (mkvole_v_cols col p seeds),
    subspace_vole_correction := mkvole_correction col p seeds }

/-- The secrets stored by a successful Prover::mkvole. -/
def mkvole_secrets (col : Collaborators F) (p : Prover F)
    (seeds : List (Bytes × Bytes)) : SubspaceVOLESecrets F :=
  { seeds := seeds,
    u1 := (mkvole_u_rows col p seeds).take ((mkvole_u_rows col p seeds).length / 2),
    u2 := ((mkvole_u_rows col p seeds).take (mkvole_u_rows col p seeds).length).drop
      ((mkvole_u_rows col p seeds).length / 2),
    v1 := (mkvole_v_rows col p seeds).take ((mkvole_v_rows col p seeds).length / 2),
    v2 := ((mkvole_v_rows col p seeds).take (mkvole_v_rows col p seeds).length).drop
      ((mkvole_v_rows col p seeds).length / 2) }

/-- The prover state after a successful Prover::mkvole. -/
def mkvole_state (col : Collaborators F) (p : Prover F)
    (seeds : List (Bytes × Bytes)) : Prover F :=
  { p with
      seed_commitment := some (mkvole_seed_comm col seeds),
      witness_comm := some (mkvole_witness_comm col p seeds),
      subspace_vole_secrets := some (mkvole_secrets col p seeds) }

/-- The proof emitted by a successful Prover::prove from a state holding
secrets svs, seed commitment sc and witness commitment wc. -/
def prove_result (col : Collaborators F) (p : Prover F)
    (svs : SubspaceVOLESecrets F) (sc : Bytes) (wc : List (List F)) : ZKProof F :=
  let challenge := col.calc_quicksilver_challenge sc wc
  let zkp := qs_prove p.witness svs.u2 p.circuit.r1cs challenge
  let public_openings : PublicOpenings F :=
    { public_inputs := qs_open_public p.witness.flatten svs.u2.flatten
        p.circuit.public_inputs_indices,
      public_outputs := qs_open_public p.witness.flatten svs.u2.flatten
        p.circuit.public_outputs_indices }
  let challenges := col.calc_other_challenges sc wc zkp p.vole_length
    p.num_voles public_openings
  { zkp := zkp,
    s_matrix := mat_add (mat_scalar_mul svs.u1 challenges.vith_delta) svs.u2,
    s_consistency_check := vec_times_matrix challenges.s_challenge
      (transposeM (mat_add (mat_scalar_mul svs.v1 challenges.vith_delta) svs.v2)),
    public_openings := public_openings,
    seed_openings :=
      { seed_opens := (List.range svs.seeds.length).map
          (fun i => pair_get (svs.seeds.getD i ([], []))
            (challenges.delta_choices.getD i 0)),
        seed_proofs := (List.range svs.seeds.length).map
          (fun i => proof_for_revealed_seed col.H
            (pair_get (svs.seeds.getD i ([], []))
              (1 - challenges.delta_choices.getD i 0))) } }

end ActorSpecs

section VerifierSpecs

variable {F : Type} [CommRing F] [DecidableEq F]

/-- The commit-and-proof emitted by an honest commit_and_prove run. -/
def honest_cnp (col : Collaborators F) (code : RAAACode) (witness : List F)
    (circuit : R1CSWithMetadata F) (seeds : List (Bytes × Bytes)) :
    CommitAndProof F :=
  { commitment := mkvole_commitment col
      (Prover.from_witness_and_circuit_unpadded code witness circuit) seeds,
    proof := prove_result col
      (mkvole_state col
        (Prover.from_witness_and_circuit_unpadded code witness circuit) seeds)
      (mkvole_secrets col
        (Prover.from_witness_and_circuit_unpadded code witness circuit) seeds)
      (mkvole_seed_comm col seeds)
      (mkvole_witness_comm col
        (Prover.from_witness_and_circuit_unpadded code witness circuit) seeds) }

end VerifierSpecs

section WitnessData

/-- Concrete field for witness instances: the integers mod 101. -/
abbrev Fw : Type := ZMod 101

/-- A tiny well-formed RAAACode (n = 2, q = 2, identity interleaves) used by
witness instantiations. -/
def wcode : RAAACode :=
  { permutations := [([0, 1], [0, 1]), ([0, 1], [0, 1]), ([0, 1], [0, 1])], q := 2 }

/-- A well-formed RAAACode with n = 4, q = 2 whose permutations are chosen so
that the code has a codeword of Hamming weight one; used to refute the
single-entry tampering half of the parity-check claim. -/
def c5code : RAAACode :=
  { permutations := [([0, 1, 3, 2], [0, 1, 3, 2]), ([0, 2, 1, 3], [0, 2, 1, 3]),
      ([3, 0, 1, 2], [1, 2, 3, 0])], q := 2 }

/-- Concrete collaborator functions over Fw for witness instantiations: an
injective-by-construction stand-in hash and deterministic expansions. -/
def wcol : Collaborators Fw :=
  { H := fun b => 7 :: b,
    expand := fun s m => (List.range m).map (fun i => ((i + 7 * s.headD 0 : Nat) : Fw)),
    challenge_from_seed := fun _ _ m => (List.range m).map (fun i => ((i * i + 3 : Nat) : Fw)),
    calc_quicksilver_challenge := fun _ _ => (5 : Fw),
    calc_other_challenges := fun _ _ _ vl nv _ =>
      { vith_delta := 9,
        s_challenge := (List.range (vl / 2)).map (fun i => ((i + 2 : Nat) : Fw)),
        delta_choices := (List.range nv).map (fun i => i % 2) } }

/-- A one-constraint circuit x·x = x with one public input wire, used by
witness instantiations. -/
def wcirc : R1CSWithMetadata Fw :=
  { r1cs := { a_rows := [[(0, 1)]], b_rows := [[(0, 1)]], c_rows := [[(0, 1)]] },
    public_inputs_indices := [0], public_outputs_indices := [],
    unpadded_wtns_len := 1 }

/-- The satisfying witness of `wcirc`. -/
def wwit : List Fw := [1]

/-- Concrete seed pairs for the two VOLE columns of `wcode`. -/
def wseeds : List (Bytes × Bytes) := [([1], [2]), ([3], [4])]

/-- The freshly constructed prover over the witness data. -/
def wpro : Prover Fw := Prover.from_witness_and_circuit_unpadded wcode wwit wcirc

/-- Concrete secrets record for witness instantiations. -/
def wsvs : SubspaceVOLESecrets Fw :=
  { seeds := wseeds, u1 := [[1]], u2 := [[2]], v1 := [[3]], v2 := [[4]] }

/-- A concrete prover state holding `wsvs`, for witness instantiations. -/
def wprover : Prover Fw :=
  { code := wcode, vole_length := 4, num_voles := 2, witness := [[1]],
    witness_comm := none, circuit := wcirc,
    subspace_vole_secrets := some wsvs, seed_commitment := none }

end WitnessData

/-! ### Lemma layer -/

section BasicLemmas

variable {F : Type} [CommRing F] [DecidableEq F]

theorem length_fAdd (a b : List F) : (fAdd a b).length = min a.length b.length :=
  List.length_zipWith _ _ _

theorem length_fSub (a b : List F) : (fSub a b).length = min a.length b.length :=
  List.length_zipWith _ _ _

theorem length_fMul (a b : List F) : (fMul a b).length = min a.length b.length :=
  List.length_zipWith _ _ _

theorem length_scalar_mul (a : List F) (c : F) : (scalar_mul a c).length = a.length :=
  List.length_map _ _

theorem dot_nil_left (b : List F) : dot [] b = 0 := by
  cases b <;> simp [dot]

theorem dot_fAdd_right (a b c : List F) (h : b.length = c.length) :
    dot a (fAdd b c) = dot a b + dot a c := by
  induction b generalizing a c with
  | nil =>
    cases c with
    | nil => cases a <;> simp [dot, fAdd]
    | cons _ _ => simp at h
  | cons x xs ih =>
    cases c with
    | nil => simp at h
    | cons y ys =>
      cases a with
      | nil => simp [dot, fAdd]
      | cons z zs =>
        simp only [fAdd, List.zipWith_cons_cons, dot, List.sum_cons] at *
        have := ih zs ys (by simpa using h)
        simp only [dot, fAdd] at this
        rw [this]; ring

theorem dot_fSub_right (a b c : List F) (h : b.length = c.length) :
    dot a (fSub b c) = dot a b - dot a c := by
  induction b generalizing a c with
  | nil =>
    cases c with
    | nil => cases a <;> simp [dot, fSub]
    | cons _ _ => simp at h
  | cons x xs ih =>
    cases c with
    | nil => simp at h
    | cons y ys =>
      cases a with
      | nil => simp [dot, fSub]
      | cons z zs =>
        simp only [fSub, List.zipWith_cons_cons, dot, List.sum_cons] at *
        have := ih zs ys (by simpa using h)
        simp only [dot, fSub] at this
        rw [this]; ring

theorem dot_scalar_mul_right (a b : List F) (c : F) :
    dot a (scalar_mul b c) = dot a b * c := by
  induction b generalizing a with
  | nil => cases a <;> simp [dot, scalar_mul]
  | cons x xs ih =>
    cases a with
    | nil => simp [dot, scalar_mul]
    | cons z zs =>
      simp only [scalar_mul, List.map_cons, dot, List.zipWith_cons_cons,
        List.sum_cons] at *
      rw [ih zs]; ring

theorem fvec_eq_of_eq (a b : List F) (h : a = b) : fvec_eq a b = true := by
  subst h
  simp [fvec_eq, List.all_eq_true]
  intro x y hm
  have : x = y := by
    induction a with
    | nil => simp at hm
    | cons z zs ih =>
      simp only [List.zip_cons_cons, List.mem_cons, Prod.mk.injEq] at hm
      rcases hm with ⟨h1, h2⟩ | h2
      · rw [h1, h2]
      · exact ih h2
  exact this

end BasicLemmas

section WritePairsLemmas

variable {F : Type} [CommRing F] [DecidableEq F]

theorem write_pairs_nil (init : List F) : write_pairs [] init = init := rfl

theorem write_pairs_cons (p : Nat × F) (ps : List (Nat × F)) (init : List F) :
    write_pairs (p :: ps) init = write_pairs ps (init.set p.1 p.2) := rfl

theorem length_write_pairs (ps : List (Nat × F)) (init : List F) :
    (write_pairs ps init).length = init.length := by
  induction ps generalizing init with
  | nil => rfl
  | cons p ps ih => rw [write_pairs_cons, ih, List.length_set]

theorem getElem?_write_pairs_not_mem (ps : List (Nat × F)) (init : List F)
    (j : Nat) (h : ∀ p ∈ ps, p.1 ≠ j) :
    (write_pairs ps init)[j]? = init[j]? := by
  induction ps generalizing init with
  | nil => rfl
  | cons p ps ih =>
    rw [write_pairs_cons, ih _ (fun x hx => h x (List.mem_cons_of_mem _ hx))]
    rw [List.getElem?_set]
    simp only [if_neg (h p (List.mem_cons_self _ _))]

theorem getElem?_write_pairs_mem (ps : List (Nat × F)) (init : List F)
    (j : Nat) (v : F) (hnd : (ps.map Prod.fst).Nodup) (hmem : (j, v) ∈ ps)
    (hj : j < init.length) : (write_pairs ps init)[j]? = some v := by
  induction ps generalizing init with
  | nil => simp at hmem
  | cons p ps ih =>
    simp only [List.map_cons, List.nodup_cons] at hnd
    rcases List.mem_cons.mp hmem with heq | hmem2
    · subst heq
      rw [write_pairs_cons]
      have hnot : ∀ x ∈ ps, x.1 ≠ j := by
        intro x hx hcon
        apply hnd.1
        have hx2 : x.1 ∈ ps.map Prod.fst := List.mem_map_of_mem Prod.fst hx
        simpa [hcon] using hx2
      rw [getElem?_write_pairs_not_mem _ _ _ hnot]
      rw [List.getElem?_set]
      simp [hj]
    · rw [write_pairs_cons]
      exact ih _ hnd.2 hmem2 (by simpa using hj)

theorem length_interleave (input : List F) (perm : List Nat) :
    (interleave input perm).length = input.length := by
  rw [interleave, length_write_pairs, List.length_replicate]

theorem getElem?_interleave_of_nodup (input : List F) (perm : List Nat)
    (hlen : perm.length = input.length) (hnd : perm.Nodup) (i : Nat)
    (hi : i < perm.length) (hb : perm.getD i 0 < input.length) :
    (interleave input perm)[perm.getD i 0]? = some (input.getD i 0) := by
  have hi2 : i < input.length := hlen ▸ hi
  have hzi : i < (perm.zip input).length := by
    rw [List.length_zip]; exact lt_min hi hi2
  have hmem : (perm.getD i 0, input.getD i 0) ∈ perm.zip input := by
    rw [List.getD_eq_getElem _ _ hi, List.getD_eq_getElem _ _ hi2]
    have hz := @List.getElem_zip Nat F perm input i hzi
    rw [← hz]
    exact List.getElem_mem hzi
  have hkeys : (perm.zip input).map Prod.fst = perm :=
    List.map_fst_zip _ _ (le_of_eq hlen)
  rw [interleave]
  rw [getElem?_write_pairs_mem _ _ _ _ (by rw [hkeys]; exact hnd) hmem
    (by rw [List.length_replicate]; exact hb)]

theorem permPair_symm {f b : List Nat} {n : Nat} (h : PermPair f b n) :
    PermPair b f n := by
  obtain ⟨h1, h2, h3, h4, h5, h6⟩ := h
  exact ⟨h2, h1, h4, h3, h6, h5⟩

theorem permPair_nodup {f b : List Nat} {n : Nat} (h : PermPair f b n) :
    f.Nodup := by
  obtain ⟨h1, h2, h3, h4, h5, h6⟩ := h
  rw [List.nodup_iff_injective_get]
  intro i j hij
  have hi := h5 i.1 (h1 ▸ i.2)
  have hj := h5 j.1 (h1 ▸ j.2)
  apply Fin.ext
  rw [← hi, ← hj]
  congr 1
  rw [List.getD_eq_getElem _ _ i.2, List.getD_eq_getElem _ _ j.2]
  simp only [List.get_eq_getElem] at hij
  rw [hij]

theorem getElem?_interleave (input : List F) {f b : List Nat} {n : Nat}
    (hp : PermPair f b n) (hlen : input.length = n) (j : Nat) (hj : j < n) :
    (interleave input f)[j]? = some (input.getD (b.getD j 0) 0) := by
  obtain ⟨h1, h2, h3, h4, h5, h6⟩ := hp
  have hi : b.getD j 0 < n := h4 j hj
  have hfi : f.getD (b.getD j 0) 0 = j := h6 j hj
  have := getElem?_interleave_of_nodup input f (by rw [h1, hlen])
    (permPair_nodup ⟨h1, h2, h3, h4, h5, h6⟩) (b.getD j 0) (h1 ▸ hi)
    (by rw [hfi, hlen]; exact hj)
  rw [hfi] at this
  exact this

theorem getElem?_interleave_ge (input : List F) (perm : List Nat) (j : Nat)
    (hj : input.length ≤ j) : (interleave input perm)[j]? = none := by
  rw [List.getElem?_eq_none]
  rw [length_interleave]; exact hj

end WritePairsLemmas

section InterleaveComposition

variable {F : Type} [CommRing F] [DecidableEq F]

theorem list_ext_opt {a b : List F} (h : ∀ j : Nat, a[j]? = b[j]?) : a = b :=
  List.ext_getElem? h

theorem getElem?_of_lt_length {a : List F} {j : Nat} (h : j < a.length) :
    a[j]? = some (a.getD j 0) := by
  rw [List.getElem?_eq_getElem h, List.getD_eq_getElem _ _ h]

theorem list_ext_getD {a b : List F} (hl : a.length = b.length)
    (h : ∀ j, j < a.length → a.getD j 0 = b.getD j 0) : a = b := by
  apply List.ext_getElem hl
  intro n h1 h2
  have hx := h n h1
  rw [List.getD_eq_getElem _ _ h1, List.getD_eq_getElem _ _ h2] at hx
  exact hx

theorem getD_fAdd (a b : List F) (j : Nat) (hja : j < a.length)
    (hjb : j < b.length) :
    (fAdd a b).getD j 0 = a.getD j 0 + b.getD j 0 := by
  have hj : j < (fAdd a b).length := by rw [length_fAdd]; exact lt_min hja hjb
  rw [List.getD_eq_getElem _ _ hj, List.getD_eq_getElem _ _ hja,
    List.getD_eq_getElem _ _ hjb]
  simp [fAdd, List.getElem_zipWith]

theorem getD_fSub (a b : List F) (j : Nat) (hja : j < a.length)
    (hjb : j < b.length) :
    (fSub a b).getD j 0 = a.getD j 0 - b.getD j 0 := by
  have hj : j < (fSub a b).length := by rw [length_fSub]; exact lt_min hja hjb
  rw [List.getD_eq_getElem _ _ hj, List.getD_eq_getElem _ _ hja,
    List.getD_eq_getElem _ _ hjb]
  simp [fSub, List.getElem_zipWith]

theorem getD_fMul (a b : List F) (j : Nat) (hja : j < a.length)
    (hjb : j < b.length) :
    (fMul a b).getD j 0 = a.getD j 0 * b.getD j 0 := by
  have hj : j < (fMul a b).length := by rw [length_fMul]; exact lt_min hja hjb
  rw [List.getD_eq_getElem _ _ hj, List.getD_eq_getElem _ _ hja,
    List.getD_eq_getElem _ _ hjb]
  simp [fMul, List.getElem_zipWith]

theorem getD_scalar_mul (a : List F) (c : F) (j : Nat) (hja : j < a.length) :
    (scalar_mul a c).getD j 0 = a.getD j 0 * c := by
  have hj : j < (scalar_mul a c).length := by rw [length_scalar_mul]; exact hja
  rw [List.getD_eq_getElem _ _ hj, List.getD_eq_getElem _ _ hja]
  simp [scalar_mul, List.getElem_map]

theorem getD_replicate_zero (m j : Nat) (hj : j < m) :
    (List.replicate m (0 : F)).getD j 0 = 0 := by
  rw [List.getD_eq_getElem _ _ (by rw [List.length_replicate]; exact hj)]
  exact List.getElem_replicate _ _

theorem getD_interleave {f b : List Nat} {n : Nat} (hp : PermPair f b n)
    (x : List F) (hx : x.length = n) (j : Nat) (hj : j < n) :
    (interleave x f).getD j 0 = x.getD (b.getD j 0) 0 := by
  have h := getElem?_interleave x hp hx j hj
  rw [getElem?_of_lt_length (by rw [length_interleave, hx]; exact hj)] at h
  exact Option.some.inj h

theorem interleave_interleave {f b : List Nat} {n : Nat} (hp : PermPair f b n)
    (x : List F) (hx : x.length = n) :
    interleave (interleave x f) b = x := by
  apply list_ext_getD
  · rw [length_interleave, length_interleave]
  · intro j hj
    rw [length_interleave, length_interleave, hx] at hj
    have hy : (interleave x f).length = n := by rw [length_interleave, hx]
    rw [getD_interleave (permPair_symm hp) (interleave x f) hy j hj]
    rw [getD_interleave hp x hx (f.getD j 0) (hp.2.2.1 j hj)]
    rw [hp.2.2.2.2.1 j hj]

theorem interleave_fAdd {f b : List Nat} {n : Nat} (hp : PermPair f b n)
    (x y : List F) (hx : x.length = n) (hy : y.length = n) :
    interleave (fAdd x y) f = fAdd (interleave x f) (interleave y f) := by
  have hxy : (fAdd x y).length = n := by rw [length_fAdd, hx, hy, min_self]
  apply list_ext_getD
  · simp [length_interleave, length_fAdd, hx, hy]
  · intro j hj
    rw [length_interleave, hxy] at hj
    have hb : b.getD j 0 < n := hp.2.2.2.1 j hj
    rw [getD_interleave hp (fAdd x y) hxy j hj]
    rw [getD_fAdd x y _ (by omega) (by omega)]
    rw [getD_fAdd _ _ j (by rw [length_interleave, hx]; exact hj)
      (by rw [length_interleave, hy]; exact hj)]
    rw [getD_interleave hp x hx j hj, getD_interleave hp y hy j hj]

theorem interleave_scalar_mul {f b : List Nat} {n : Nat} (hp : PermPair f b n)
    (x : List F) (c : F) (hx : x.length = n) :
    interleave (scalar_mul x c) f = scalar_mul (interleave x f) c := by
  have hxc : (scalar_mul x c).length = n := by rw [length_scalar_mul, hx]
  apply list_ext_getD
  · simp [length_interleave, length_scalar_mul, hx]
  · intro j hj
    rw [length_interleave, hxc] at hj
    have hb : b.getD j 0 < n := hp.2.2.2.1 j hj
    rw [getD_interleave hp (scalar_mul x c) hxc j hj]
    rw [getD_scalar_mul x c _ (by omega)]
    rw [getD_scalar_mul _ c j (by rw [length_interleave, hx]; exact hj)]
    rw [getD_interleave hp x hx j hj]

theorem interleave_replicate_zero {f b : List Nat} {n : Nat}
    (hp : PermPair f b n) :
    interleave (List.replicate n (0 : F)) f = List.replicate n 0 := by
  apply list_ext_getD
  · simp [length_interleave]
  · intro j hj
    rw [length_interleave, List.length_replicate] at hj
    have hb : b.getD j 0 < n := hp.2.2.2.1 j hj
    rw [getD_interleave hp _ (List.length_replicate _ _) j hj]
    rw [getD_replicate_zero n _ hb, getD_replicate_zero n j hj]

end InterleaveComposition

section AccumulateLemmas

variable {F : Type} [CommRing F] [DecidableEq F]

theorem length_accumulate_aux (l : List F) (a : F) :
    (accumulate_aux a l).length = l.length := by
  induction l generalizing a with
  | nil => rfl
  | cons x xs ih => simp [accumulate_aux, ih]

theorem length_accumulate (l : List F) : (accumulate l).length = l.length :=
  length_accumulate_aux l 0

theorem length_accumulate_inverse_aux (l : List F) (a : F) :
    (accumulate_inverse_aux a l).length = l.length := by
  induction l generalizing a with
  | nil => rfl
  | cons x xs ih => simp [accumulate_inverse_aux, ih]

theorem length_accumulate_inverse (l : List F) :
    (accumulate_inverse l).length = l.length :=
  length_accumulate_inverse_aux l 0

theorem accumulate_inverse_aux_accumulate_aux (l : List F) (a : F) :
    accumulate_inverse_aux a (accumulate_aux a l) = l := by
  induction l generalizing a with
  | nil => rfl
  | cons x xs ih =>
    simp only [accumulate_aux, accumulate_inverse_aux]
    rw [show a + x - a = x by ring, ih (a + x)]

theorem accumulate_aux_accumulate_inverse_aux (l : List F) (a : F) :
    accumulate_aux a (accumulate_inverse_aux a l) = l := by
  induction l generalizing a with
  | nil => rfl
  | cons x xs ih =>
    simp only [accumulate_aux, accumulate_inverse_aux]
    rw [show a + (x - a) = x by ring, ih x]

theorem accumulate_inverse_accumulate (l : List F) :
    accumulate_inverse (accumulate l) = l :=
  accumulate_inverse_aux_accumulate_aux l 0

theorem accumulate_accumulate_inverse (l : List F) :
    accumulate (accumulate_inverse l) = l :=
  accumulate_aux_accumulate_inverse_aux l 0

theorem accumulate_aux_fAdd (l1 l2 : List F) (a1 a2 : F)
    (h : l1.length = l2.length) :
    accumulate_aux (a1 + a2) (fAdd l1 l2) =
      fAdd (accumulate_aux a1 l1) (accumulate_aux a2 l2) := by
  induction l1 generalizing l2 a1 a2 with
  | nil =>
    cases l2 with
    | nil => rfl
    | cons _ _ => simp at h
  | cons x xs ih =>
    cases l2 with
    | nil => simp at h
    | cons y ys =>
      simp only [fAdd, List.zipWith_cons_cons, accumulate_aux]
      rw [show a1 + a2 + (x + y) = (a1 + x) + (a2 + y) by ring]
      have := ih ys (a1 + x) (a2 + y) (by simpa using h)
      simp only [fAdd] at this
      rw [this]

theorem accumulate_fAdd (l1 l2 : List F) (h : l1.length = l2.length) :
    accumulate (fAdd l1 l2) = fAdd (accumulate l1) (accumulate l2) := by
  have h2 := accumulate_aux_fAdd l1 l2 0 0 h
  rw [zero_add] at h2
  exact h2

theorem accumulate_aux_scalar_mul (l : List F) (a c : F) :
    accumulate_aux (a * c) (scalar_mul l c) = scalar_mul (accumulate_aux a l) c := by
  induction l generalizing a with
  | nil => rfl
  | cons x xs ih =>
    simp only [scalar_mul, List.map_cons, accumulate_aux]
    rw [show a * c + x * c = (a + x) * c by ring]
    have := ih (a + x)
    simp only [scalar_mul] at this
    rw [this]

theorem accumulate_scalar_mul (l : List F) (c : F) :
    accumulate (scalar_mul l c) = scalar_mul (accumulate l) c := by
  have h2 := accumulate_aux_scalar_mul l 0 c
  rw [zero_mul] at h2
  exact h2

end AccumulateLemmas

section SectionsLemmas

variable {F : Type} [CommRing F] [DecidableEq F]

theorem repeat_extended_def (input : List F) (q : Nat) :
    repeat_extended input q =
      input.take (input.length / q) ++
        List.flatten ((List.range (q - 1)).map
          (fun i => List.zipWith (· + ·) (input.take (input.length / q))
            ((input.drop ((input.length / q) * (i + 1))).take (input.length / q)))) := rfl

theorem repeat_extended_inverse_def (input : List F) (q : Nat) :
    repeat_extended_inverse input q =
      input.take (input.length / q) ++
        List.flatten ((List.range (q - 1)).map
          (fun i => List.zipWith (fun a b => a - b)
            ((input.drop ((input.length / q) * (i + 1))).take (input.length / q))
            (input.take (input.length / q)))) := rfl

theorem length_sectionOf_of_le (y : List F) (sl i : Nat)
    (h : sl * i + sl ≤ y.length) : (sectionOf y sl i).length = sl := by
  rw [sectionOf, List.length_take, List.length_drop]
  omega

theorem sectionOf_zero (y : List F) (sl : Nat) : sectionOf y sl 0 = y.take sl := by
  rw [sectionOf, Nat.mul_zero, List.drop_zero]

theorem sectionOf_succ_drop (y : List F) (sl i : Nat) :
    sectionOf y sl (i + 1) = sectionOf (y.drop sl) sl i := by
  rw [sectionOf, sectionOf, List.drop_drop, Nat.mul_succ, Nat.add_comm]

theorem flatten_sections (y : List F) (q sl : Nat) (h : y.length = q * sl) :
    ((List.range q).map (sectionOf y sl)).flatten = y := by
  induction q generalizing y with
  | zero =>
    simp only [Nat.zero_mul] at h
    simp [List.eq_nil_of_length_eq_zero h]
  | succ qq ih =>
    rw [List.range_succ_eq_map, List.map_cons, List.flatten_cons, List.map_map]
    have hcomp :
        (sectionOf y sl ∘ Nat.succ) = (fun i => sectionOf (y.drop sl) sl i) := by
      funext i
      exact sectionOf_succ_drop y sl i
    rw [hcomp]
    rw [ih (y.drop sl) (by rw [List.length_drop, h, Nat.succ_mul]; omega)]
    rw [sectionOf_zero]
    exact List.take_append_drop sl y

theorem sections_flatten (B : List (List F)) (sl : Nat)
    (h : ∀ l ∈ B, l.length = sl) (i : Nat) (hi : i < B.length) :
    sectionOf B.flatten sl i = B.getD i [] := by
  induction B generalizing i with
  | nil => simp at hi
  | cons x xs ih =>
    cases i with
    | zero =>
      rw [sectionOf_zero, List.flatten_cons,
        List.take_left' (h x (List.mem_cons_self _ _))]
      rfl
    | succ j =>
      rw [sectionOf_succ_drop, List.flatten_cons,
        List.drop_left' (h x (List.mem_cons_self _ _)), List.getD_cons_succ]
      exact ih (fun l hl => h l (List.mem_cons_of_mem _ hl)) j (by simpa using hi)

theorem repeatN_eq_flatten (x : List F) (q : Nat) :
    repeatN x q = ((List.range q).map (fun _ => x)).flatten := by
  have hmap : (List.range q).map (fun _ => x) = List.replicate q x := by
    rw [show (fun _ : Nat => x) = Function.const Nat x from rfl, List.map_const,
      List.length_range]
  rw [repeatN, hmap]

theorem length_repeatN (x : List F) (q : Nat) :
    (repeatN x q).length = q * x.length := by
  induction q with
  | zero => simp [repeatN]
  | succ qq ih =>
    rw [repeatN, List.replicate_succ, List.flatten_cons, List.length_append,
      ← repeatN, ih, Nat.succ_mul]
    omega

theorem repeat_extended_eq_flatten (input : List F) (q : Nat) (h1 : 1 ≤ q) :
    repeat_extended input q =
      ((List.range q).map (fun i =>
        if i = 0 then input.take (input.length / q)
        else List.zipWith (· + ·) (input.take (input.length / q))
          (sectionOf input (input.length / q) i))).flatten := by
  obtain ⟨qq, rfl⟩ : ∃ qq, q = qq + 1 := ⟨q - 1, by omega⟩
  rw [repeat_extended_def, List.range_succ_eq_map, List.map_cons,
    List.flatten_cons]
  congr 1
  rw [List.map_map, Nat.succ_sub_one]
  congr 1

theorem repeat_extended_inverse_eq_flatten (input : List F) (q : Nat)
    (h1 : 1 ≤ q) :
    repeat_extended_inverse input q =
      ((List.range q).map (fun i =>
        if i = 0 then input.take (input.length / q)
        else List.zipWith (fun a b => a - b) (sectionOf input (input.length / q) i)
          (input.take (input.length / q)))).flatten := by
  obtain ⟨qq, rfl⟩ : ∃ qq, q = qq + 1 := ⟨q - 1, by omega⟩
  rw [repeat_extended_inverse_def, List.range_succ_eq_map, List.map_cons,
    List.flatten_cons]
  congr 1
  rw [List.map_map, Nat.succ_sub_one]
  congr 1

end SectionsLemmas

section RepeatRoundTrips

variable {F : Type} [CommRing F] [DecidableEq F]

theorem fSub_fAdd_cancel (z s : List F) (h : z.length = s.length) :
    fSub (fAdd z s) z = s := by
  induction z generalizing s with
  | nil =>
    cases s with
    | nil => rfl
    | cons _ _ => simp at h
  | cons x xs ih =>
    cases s with
    | nil => simp at h
    | cons y ys =>
      simp only [fAdd, fSub, List.zipWith_cons_cons]
      rw [show x + y - x = y by ring]
      have := ih ys (by simpa using h)
      simp only [fAdd, fSub] at this
      rw [this]

theorem fAdd_fSub_cancel (z s : List F) (h : z.length = s.length) :
    fAdd z (fSub s z) = s := by
  induction z generalizing s with
  | nil =>
    cases s with
    | nil => rfl
    | cons _ _ => simp at h
  | cons x xs ih =>
    cases s with
    | nil => simp at h
    | cons y ys =>
      simp only [fAdd, fSub, List.zipWith_cons_cons]
      rw [show x + (y - x) = y by ring]
      have := ih ys (by simpa using h)
      simp only [fAdd, fSub] at this
      rw [this]

theorem fAdd_replicate_zero_right (x : List F) (m : Nat) (h : x.length ≤ m) :
    fAdd x (List.replicate m 0) = x := by
  induction x generalizing m with
  | nil => simp [fAdd]
  | cons a xs ih =>
    cases m with
    | zero => simp at h
    | succ mm =>
      simp only [List.replicate_succ, fAdd, List.zipWith_cons_cons, add_zero]
      have := ih mm (by simpa using h)
      simp only [fAdd] at this
      rw [this]

theorem getD_map_range {α : Type} (f : Nat → α) (q i : Nat) (hi : i < q)
    (d : α) : (((List.range q).map f).getD i d) = f i := by
  rw [List.getD_eq_getElem _ _ (by simpa using hi), List.getElem_map]
  congr 1
  exact List.getElem_range _ _

theorem repeat_extended_inverse_repeat_extended (input : List F) (q : Nat)
    (h1 : 1 ≤ q) (hdvd : q ∣ input.length) :
    repeat_extended_inverse (repeat_extended input q) q = input := by
  have hchar := repeat_extended_eq_flatten input q h1
  set sl := input.length / q with hsldef
  have hlen : input.length = q * sl := (Nat.mul_div_cancel' hdvd).symm
  have hslle : ∀ i, i < q → sl * i + sl ≤ input.length := by
    intro i hi
    rw [hlen]
    calc sl * i + sl = sl * (i + 1) := by rw [Nat.mul_succ]
    _ ≤ sl * q := Nat.mul_le_mul_left sl hi
    _ = q * sl := Nat.mul_comm sl q
  have hz : (input.take sl).length = sl := by
    rw [List.length_take]
    have : sl ≤ input.length := Nat.div_le_self _ _
    omega
  have hblen : ∀ l ∈ (List.range q).map (fun i =>
      if i = 0 then input.take sl
      else List.zipWith (· + ·) (input.take sl) (sectionOf input sl i)),
      l.length = sl := by
    intro l hl
    rw [List.mem_map] at hl
    obtain ⟨i, hi, rfl⟩ := hl
    rw [List.mem_range] at hi
    by_cases h0 : i = 0
    · rw [if_pos h0]; exact hz
    · rw [if_neg h0, List.length_zipWith, hz,
        length_sectionOf_of_le _ _ _ (hslle i hi), min_self]
  have hBlen : ((List.range q).map (fun i =>
      if i = 0 then input.take sl
      else List.zipWith (· + ·) (input.take sl) (sectionOf input sl i))).length = q := by
    rw [List.length_map, List.length_range]
  have hylen : (repeat_extended input q).length = q * sl := by
    rw [hchar, List.length_flatten]
    have hrep : ((List.range q).map (fun i =>
        if i = 0 then input.take sl
        else List.zipWith (· + ·) (input.take sl) (sectionOf input sl i))).map
          List.length = List.replicate q sl := by
      apply List.eq_replicate_iff.mpr
      constructor
      · rw [List.length_map, hBlen]
      · intro b hb
        rw [List.mem_map] at hb
        obtain ⟨l, hl, rfl⟩ := hb
        exact hblen l hl
    rw [hrep, List.sum_replicate, smul_eq_mul]
  have hq0 : 0 < q := h1
  have hsl2 : (repeat_extended input q).length / q = sl := by
    rw [hylen, Nat.mul_div_cancel_left _ hq0]
  have hsec : ∀ i, i < q → sectionOf (repeat_extended input q) sl i =
      (if i = 0 then input.take sl
       else List.zipWith (· + ·) (input.take sl) (sectionOf input sl i)) := by
    intro i hi
    rw [hchar, sections_flatten _ sl hblen i (by rw [hBlen]; exact hi)]
    exact getD_map_range _ q i hi []
  rw [repeat_extended_inverse_eq_flatten _ q h1, hsl2]
  have htake : (repeat_extended input q).take sl = input.take sl := by
    have h0 := hsec 0 hq0
    rw [sectionOf_zero, if_pos rfl] at h0
    exact h0
  have hmap : (List.range q).map (fun i =>
      if i = 0 then (repeat_extended input q).take sl
      else List.zipWith (fun a b => a - b)
        (sectionOf (repeat_extended input q) sl i)
        ((repeat_extended input q).take sl)) =
      (List.range q).map (sectionOf input sl) := by
    apply List.map_congr_left
    intro i hi
    rw [List.mem_range] at hi
    by_cases h0 : i = 0
    · rw [if_pos h0, htake, h0, sectionOf_zero]
    · rw [if_neg h0, htake, hsec i hi, if_neg h0]
      exact fSub_fAdd_cancel (input.take sl) (sectionOf input sl i)
        (by rw [hz, length_sectionOf_of_le _ _ _ (hslle i hi)])
  rw [hmap, flatten_sections input q sl hlen]

end RepeatRoundTrips

section RepeatRoundTrips2

variable {F : Type} [CommRing F] [DecidableEq F]

theorem repeat_extended_repeat_extended_inverse (input : List F) (q : Nat)
    (h1 : 1 ≤ q) (hdvd : q ∣ input.length) :
    repeat_extended (repeat_extended_inverse input q) q = input := by
  have hchar := repeat_extended_inverse_eq_flatten input q h1
  set sl := input.length / q with hsldef
  have hlen : input.length = q * sl := (Nat.mul_div_cancel' hdvd).symm
  have hslle : ∀ i, i < q → sl * i + sl ≤ input.length := by
    intro i hi
    rw [hlen]
    calc sl * i + sl = sl * (i + 1) := by rw [Nat.mul_succ]
    _ ≤ sl * q := Nat.mul_le_mul_left sl hi
    _ = q * sl := Nat.mul_comm sl q
  have hz : (input.take sl).length = sl := by
    rw [List.length_take]
    have : sl ≤ input.length := Nat.div_le_self _ _
    omega
  have hblen : ∀ l ∈ (List.range q).map (fun i =>
      if i = 0 then input.take sl
      else List.zipWith (fun a b => a - b) (sectionOf input sl i) (input.take sl)),
      l.length = sl := by
    intro l hl
    rw [List.mem_map] at hl
    obtain ⟨i, hi, rfl⟩ := hl
    rw [List.mem_range] at hi
    by_cases h0 : i = 0
    · rw [if_pos h0]; exact hz
    · rw [if_neg h0, List.length_zipWith, hz,
        length_sectionOf_of_le _ _ _ (hslle i hi), min_self]
  have hBlen : ((List.range q).map (fun i =>
      if i = 0 then input.take sl
      else List.zipWith (fun a b => a - b) (sectionOf input sl i)
        (input.take sl))).length = q := by
    rw [List.length_map, List.length_range]
  have hylen : (repeat_extended_inverse input q).length = q * sl := by
    rw [hchar, List.length_flatten]
    have hrep : ((List.range q).map (fun i =>
        if i = 0 then input.take sl
        else List.zipWith (fun a b => a - b) (sectionOf input sl i)
          (input.take sl))).map List.length = List.replicate q sl := by
      apply List.eq_replicate_iff.mpr
      constructor
      · rw [List.length_map, hBlen]
      · intro b hb
        rw [List.mem_map] at hb
        obtain ⟨l, hl, rfl⟩ := hb
        exact hblen l hl
    rw [hrep, List.sum_replicate, smul_eq_mul]
  have hq0 : 0 < q := h1
  have hsl2 : (repeat_extended_inverse input q).length / q = sl := by
    rw [hylen, Nat.mul_div_cancel_left _ hq0]
  have hsec : ∀ i, i < q → sectionOf (repeat_extended_inverse input q) sl i =
      (if i = 0 then input.take sl
       else List.zipWith (fun a b => a - b) (sectionOf input sl i)
        (input.take sl)) := by
    intro i hi
    rw [hchar, sections_flatten _ sl hblen i (by rw [hBlen]; exact hi)]
    exact getD_map_range _ q i hi []
  rw [repeat_extended_eq_flatten _ q h1, hsl2]
  have htake : (repeat_extended_inverse input q).take sl = input.take sl := by
    have h0 := hsec 0 hq0
    rw [sectionOf_zero, if_pos rfl] at h0
    exact h0
  have hmap : (List.range q).map (fun i =>
      if i = 0 then (repeat_extended_inverse input q).take sl
      else List.zipWith (· + ·) ((repeat_extended_inverse input q).take sl)
        (sectionOf (repeat_extended_inverse input q) sl i)) =
      (List.range q).map (sectionOf input sl) := by
    apply List.map_congr_left
    intro i hi
    rw [List.mem_range] at hi
    by_cases h0 : i = 0
    · rw [if_pos h0, htake, h0, sectionOf_zero]
    · rw [if_neg h0, htake, hsec i hi, if_neg h0]
      exact fAdd_fSub_cancel (input.take sl) (sectionOf input sl i)
        (by rw [hz, length_sectionOf_of_le _ _ _ (hslle i hi)])
  rw [hmap, flatten_sections input q sl hlen]

theorem repeat_extended_pad (x : List F) (q sl : Nat) (hx : x.length = sl)
    (h1 : 1 ≤ q) :
    repeat_extended (x ++ List.replicate ((q - 1) * sl) 0) q = repeatN x q := by
  have hlen : (x ++ List.replicate ((q - 1) * sl) 0).length = q * sl := by
    rw [List.length_append, List.length_replicate, hx]
    have : 1 ≤ q := h1
    calc sl + (q - 1) * sl = (1 + (q - 1)) * sl := by rw [Nat.add_mul, Nat.one_mul]
    _ = q * sl := by congr 1; omega
  have hq0 : 0 < q := h1
  have hsl2 : (x ++ List.replicate ((q - 1) * sl) 0).length / q = sl := by
    rw [hlen, Nat.mul_div_cancel_left _ hq0]
  have htake : (x ++ List.replicate ((q - 1) * sl) 0).take sl = x :=
    List.take_left' hx
  have hsec : ∀ i, i < q → i ≠ 0 →
      sectionOf (x ++ List.replicate ((q - 1) * sl) 0) sl i =
        List.replicate sl 0 := by
    intro i hi h0
    rw [sectionOf]
    have hdrop : (x ++ List.replicate ((q - 1) * sl) 0).drop (sl * i) =
        List.replicate ((q - 1) * sl - (sl * i - sl)) 0 := by
      have hxle : x.length ≤ sl * i := by
        rw [hx]
        have : 1 ≤ i := Nat.one_le_iff_ne_zero.mpr h0
        calc sl = sl * 1 := (Nat.mul_one sl).symm
        _ ≤ sl * i := Nat.mul_le_mul_left sl this
      rw [List.drop_append_eq_append_drop]
      rw [List.drop_of_length_le hxle, List.nil_append, List.drop_replicate]
      rw [hx]
    rw [hdrop, List.take_replicate]
    congr 1
    have h1i : 1 ≤ i := Nat.one_le_iff_ne_zero.mpr h0
    have hiq : i + 1 ≤ q := hi
    have : sl * i + sl ≤ q * sl := by
      calc sl * i + sl = sl * (i + 1) := by rw [Nat.mul_succ]
      _ ≤ sl * q := Nat.mul_le_mul_left sl hiq
      _ = q * sl := Nat.mul_comm sl q
    have hd : sl ≤ sl * i := by
      calc sl = sl * 1 := (Nat.mul_one sl).symm
      _ ≤ sl * i := Nat.mul_le_mul_left sl h1i
    have h2 : sl ≤ (q - 1) * sl - (sl * i - sl) := by
      have e1 : (q - 1) * sl = q * sl - sl := by
        rw [Nat.sub_mul, Nat.one_mul]
      rw [e1]
      omega
    omega
  rw [repeat_extended_eq_flatten _ q h1, hsl2, repeatN_eq_flatten]
  congr 1
  apply List.map_congr_left
  intro i hi
  rw [List.mem_range] at hi
  by_cases h0 : i = 0
  · rw [if_pos h0, htake]
  · rw [if_neg h0, htake, hsec i hi h0]
    exact fAdd_replicate_zero_right x sl (le_of_eq hx)

end RepeatRoundTrips2

section RepeatLinearity

variable {F : Type} [CommRing F] [DecidableEq F]

theorem fAdd_interchange (a b c d : List F) :
    fAdd (fAdd a b) (fAdd c d) = fAdd (fAdd a c) (fAdd b d) := by
  induction a generalizing b c d with
  | nil => cases b <;> cases c <;> cases d <;> simp [fAdd]
  | cons x xs ih =>
    cases b with
    | nil => cases c <;> cases d <;> simp [fAdd]
    | cons y ys =>
      cases c with
      | nil => simp [fAdd]
      | cons z zs =>
        cases d with
        | nil => simp [fAdd]
        | cons w ws =>
          simp only [fAdd, List.zipWith_cons_cons]
          rw [show x + y + (z + w) = x + z + (y + w) by ring]
          have := ih ys zs ws
          simp only [fAdd] at this
          rw [this]

theorem fAdd_append (a b c d : List F) (h : a.length = c.length) :
    fAdd (a ++ b) (c ++ d) = fAdd a c ++ fAdd b d := by
  simp only [fAdd]
  exact List.zipWith_append _ _ _ _ _ h

theorem flatten_fAdd (B1 B2 : List (List F)) (hlen : B1.length = B2.length)
    (h : ∀ p ∈ B1.zip B2, p.1.length = p.2.length) :
    fAdd B1.flatten B2.flatten = (List.zipWith fAdd B1 B2).flatten := by
  induction B1 generalizing B2 with
  | nil =>
    cases B2 with
    | nil => rfl
    | cons _ _ => simp at hlen
  | cons x xs ih =>
    cases B2 with
    | nil => simp at hlen
    | cons y ys =>
      simp only [List.flatten_cons, List.zipWith_cons_cons]
      have hxy : x.length = y.length := h (x, y) (by simp)
      rw [fAdd_append x xs.flatten y ys.flatten hxy]
      rw [ih ys (by simpa using hlen)
        (fun p hp => h p (List.mem_cons_of_mem _ hp))]

theorem repeatN_fAdd (a b : List F) (q : Nat) (hab : a.length = b.length) :
    repeatN (fAdd a b) q = fAdd (repeatN a q) (repeatN b q) := by
  induction q with
  | zero => rfl
  | succ qq ih =>
    show fAdd a b ++ repeatN (fAdd a b) qq =
      fAdd (a ++ repeatN a qq) (b ++ repeatN b qq)
    rw [ih, fAdd_append a (repeatN a qq) b (repeatN b qq) hab]

theorem repeatN_scalar_mul (a : List F) (c : F) (q : Nat) :
    repeatN (scalar_mul a c) q = scalar_mul (repeatN a q) c := by
  simp only [repeatN, scalar_mul, List.map_flatten, List.map_replicate]

theorem repeatN_replicate_zero (k q : Nat) :
    repeatN (List.replicate k (0 : F)) q = List.replicate (q * k) 0 := by
  induction q with
  | zero => simp [repeatN]
  | succ qq ih =>
    show List.replicate k (0 : F) ++ repeatN (List.replicate k (0 : F)) qq =
      List.replicate ((qq + 1) * k) 0
    rw [ih, ← List.replicate_add]
    congr 1
    rw [Nat.succ_mul]
    omega

theorem sectionOf_fAdd (a b : List F) (sl i : Nat) :
    sectionOf (fAdd a b) sl i = fAdd (sectionOf a sl i) (sectionOf b sl i) := by
  simp only [sectionOf, fAdd, List.drop_zipWith, List.take_zipWith]

theorem take_fAdd (a b : List F) (m : Nat) :
    (fAdd a b).take m = fAdd (a.take m) (b.take m) := by
  simp only [fAdd, List.take_zipWith]

theorem repeat_extended_fAdd (a b : List F) (q : Nat) (h1 : 1 ≤ q)
    (hab : a.length = b.length) :
    repeat_extended (fAdd a b) q = fAdd (repeat_extended a q) (repeat_extended b q) := by
  have habl : (fAdd a b).length = a.length := by
    rw [length_fAdd, hab, min_self]
  have hsl : (fAdd a b).length / q = a.length / q := by rw [habl]
  have hslb : b.length / q = a.length / q := by rw [hab]
  rw [repeat_extended_eq_flatten _ q h1, repeat_extended_eq_flatten _ q h1,
    repeat_extended_eq_flatten _ q h1, hsl, hslb]
  rw [flatten_fAdd _ _ (by rw [List.length_map, List.length_map]) ?pairlen]
  case pairlen =>
    intro p hp
    rw [List.zip_map'] at hp
    rw [List.mem_map] at hp
    obtain ⟨i, hi, rfl⟩ := hp
    by_cases h0 : i = 0
    · simp only [if_pos h0]
      rw [List.length_take, List.length_take, hab]
    · simp only [if_neg h0]
      rw [List.length_zipWith, List.length_zipWith, List.length_take,
        List.length_take, hab]
      simp only [sectionOf, List.length_take, List.length_drop, hab]
  congr 1
  rw [List.zipWith_map, List.zipWith_same]
  apply List.map_congr_left
  intro i hi
  by_cases h0 : i = 0
  · simp only [if_pos h0]
    exact take_fAdd a b _
  · simp only [if_neg h0]
    rw [take_fAdd, sectionOf_fAdd]
    exact fAdd_interchange _ _ _ _

end RepeatLinearity

section EncodeLemmas

variable {F : Type} [CommRing F] [DecidableEq F]

theorem encode_def (c : RAAACode) (v : List F) :
    encode c v =
      accumulate (interleave (accumulate (interleave (accumulate
        (interleave (repeatN v c.q) (perm_f c 0))) (perm_f c 1))) (perm_f c 2)) := rfl

theorem encode_extended_def (c : RAAACode) (v : List F) :
    encode_extended c v =
      accumulate (interleave (accumulate (interleave (accumulate
        (interleave (repeat_extended v c.q) (perm_f c 0))) (perm_f c 1)))
        (perm_f c 2)) := rfl

theorem mul_vec_by_extended_inverse_def (c : RAAACode) (u : List F) :
    mul_vec_by_extended_inverse c u =
      repeat_extended_inverse
        (interleave (accumulate_inverse (interleave (accumulate_inverse
          (interleave (accumulate_inverse u) (perm_b c 2))) (perm_b c 1)))
          (perm_b c 0)) c.q := rfl

theorem codeWF_pp (c : RAAACode) (hc : CodeWF c) (j : Nat) (hj : j < 3) :
    PermPair (perm_f c j) (perm_b c j) c.n := hc.2.2.2 j hj

theorem codeWF_qpos (c : RAAACode) (hc : CodeWF c) : 1 ≤ c.q := hc.2.1

theorem codeWF_dvd (c : RAAACode) (hc : CodeWF c) : c.q ∣ c.n :=
  Nat.dvd_of_mod_eq_zero hc.2.2.1

theorem codeWF_qk (c : RAAACode) (hc : CodeWF c) : c.q * c.k = c.n :=
  Nat.mul_div_cancel' (codeWF_dvd c hc)

theorem length_repeat_extended (input : List F) (q : Nat) (h1 : 1 ≤ q)
    (hdvd : q ∣ input.length) :
    (repeat_extended input q).length = input.length := by
  have hlen : input.length = q * (input.length / q) :=
    (Nat.mul_div_cancel' hdvd).symm
  have hsl_le : input.length / q ≤ input.length := Nat.div_le_self _ _
  rw [repeat_extended_def, List.length_append, List.length_flatten, List.map_map]
  have hmap : (List.range (q - 1)).map (List.length ∘ fun i =>
      List.zipWith (· + ·) (input.take (input.length / q))
        ((input.drop ((input.length / q) * (i + 1))).take (input.length / q))) =
      List.replicate (q - 1) (input.length / q) := by
    apply List.eq_replicate_iff.mpr
    refine ⟨by rw [List.length_map, List.length_range], ?_⟩
    intro b hb
    rw [List.mem_map] at hb
    obtain ⟨i, hi, rfl⟩ := hb
    rw [List.mem_range] at hi
    simp only [Function.comp_apply, List.length_zipWith, List.length_take,
      List.length_drop]
    have hbound : (input.length / q) * (i + 1) + input.length / q ≤ input.length := by
      calc (input.length / q) * (i + 1) + input.length / q
          = (input.length / q) * (i + 2) := (Nat.mul_succ _ _).symm
      _ ≤ (input.length / q) * q := Nat.mul_le_mul_left _ (by omega)
      _ = q * (input.length / q) := Nat.mul_comm _ _
      _ = input.length := hlen.symm
    omega
  rw [hmap, List.sum_replicate, smul_eq_mul, List.length_take]
  have e1 : (q - 1) * (input.length / q) = q * (input.length / q) - input.length / q := by
    rw [Nat.sub_mul, Nat.one_mul]
  omega

theorem length_repeat_extended_inverse (input : List F) (q : Nat) (h1 : 1 ≤ q)
    (hdvd : q ∣ input.length) :
    (repeat_extended_inverse input q).length = input.length := by
  have hlen : input.length = q * (input.length / q) :=
    (Nat.mul_div_cancel' hdvd).symm
  have hsl_le : input.length / q ≤ input.length := Nat.div_le_self _ _
  rw [repeat_extended_inverse_def, List.length_append, List.length_flatten,
    List.map_map]
  have hmap : (List.range (q - 1)).map (List.length ∘ fun i =>
      List.zipWith (fun a b => a - b)
        ((input.drop ((input.length / q) * (i + 1))).take (input.length / q))
        (input.take (input.length / q))) =
      List.replicate (q - 1) (input.length / q) := by
    apply List.eq_replicate_iff.mpr
    refine ⟨by rw [List.length_map, List.length_range], ?_⟩
    intro b hb
    rw [List.mem_map] at hb
    obtain ⟨i, hi, rfl⟩ := hb
    rw [List.mem_range] at hi
    simp only [Function.comp_apply, List.length_zipWith, List.length_take,
      List.length_drop]
    have hbound : (input.length / q) * (i + 1) + input.length / q ≤ input.length := by
      calc (input.length / q) * (i + 1) + input.length / q
          = (input.length / q) * (i + 2) := (Nat.mul_succ _ _).symm
      _ ≤ (input.length / q) * q := Nat.mul_le_mul_left _ (by omega)
      _ = q * (input.length / q) := Nat.mul_comm _ _
      _ = input.length := hlen.symm
    omega
  rw [hmap, List.sum_replicate, smul_eq_mul, List.length_take]
  have e1 : (q - 1) * (input.length / q) = q * (input.length / q) - input.length / q := by
    rw [Nat.sub_mul, Nat.one_mul]
  omega

theorem length_encode (c : RAAACode) (hc : CodeWF c) (v : List F)
    (hv : v.length = c.k) : (encode c v).length = c.n := by
  rw [encode_def, length_accumulate, length_interleave, length_accumulate,
    length_interleave, length_accumulate, length_interleave, length_repeatN,
    hv, codeWF_qk c hc]

theorem length_encode_extended (c : RAAACode) (hc : CodeWF c) (v : List F)
    (hv : v.length = c.n) : (encode_extended c v).length = c.n := by
  rw [encode_extended_def, length_accumulate, length_interleave,
    length_accumulate, length_interleave, length_accumulate, length_interleave,
    length_repeat_extended v c.q (codeWF_qpos c hc) (by rw [hv]; exact codeWF_dvd c hc),
    hv]

theorem length_mul_vec_by_extended_inverse (c : RAAACode) (hc : CodeWF c)
    (u : List F) (hu : u.length = c.n) :
    (mul_vec_by_extended_inverse c u).length = c.n := by
  have hinner : (interleave (accumulate_inverse (interleave (accumulate_inverse
      (interleave (accumulate_inverse u) (perm_b c 2))) (perm_b c 1)))
      (perm_b c 0)).length = c.n := by
    rw [length_interleave, length_accumulate_inverse, length_interleave,
      length_accumulate_inverse, length_interleave, length_accumulate_inverse, hu]
  rw [mul_vec_by_extended_inverse_def,
    length_repeat_extended_inverse _ c.q (codeWF_qpos c hc)
      (by rw [hinner]; exact codeWF_dvd c hc), hinner]

theorem tc_inverse_tc (c : RAAACode) (hc : CodeWF c) (x : List F)
    (hx : x.length = c.n) :
    mul_vec_by_extended_inverse c (encode_extended c x) = x := by
  have pp0 := codeWF_pp c hc 0 (by omega)
  have pp1 := codeWF_pp c hc 1 (by omega)
  have pp2 := codeWF_pp c hc 2 (by omega)
  have hq := codeWF_qpos c hc
  have hdvd := codeWF_dvd c hc
  have h1 : (repeat_extended x c.q).length = c.n := by
    rw [length_repeat_extended x c.q hq (by rw [hx]; exact hdvd), hx]
  have h3 : (accumulate (interleave (repeat_extended x c.q) (perm_f c 0))).length = c.n := by
    rw [length_accumulate, length_interleave, h1]
  have h5 : (accumulate (interleave (accumulate (interleave (repeat_extended x c.q)
      (perm_f c 0))) (perm_f c 1))).length = c.n := by
    rw [length_accumulate, length_interleave, h3]
  rw [encode_extended_def, mul_vec_by_extended_inverse_def,
    accumulate_inverse_accumulate,
    interleave_interleave pp2 _ h5,
    accumulate_inverse_accumulate,
    interleave_interleave pp1 _ h3,
    accumulate_inverse_accumulate,
    interleave_interleave pp0 _ h1]
  exact repeat_extended_inverse_repeat_extended x c.q hq (by rw [hx]; exact hdvd)

theorem tc_tc_inverse (c : RAAACode) (hc : CodeWF c) (x : List F)
    (hx : x.length = c.n) :
    encode_extended c (mul_vec_by_extended_inverse c x) = x := by
  have pp0 := codeWF_pp c hc 0 (by omega)
  have pp1 := codeWF_pp c hc 1 (by omega)
  have pp2 := codeWF_pp c hc 2 (by omega)
  have hq := codeWF_qpos c hc
  have hdvd := codeWF_dvd c hc
  have h1 : (interleave (accumulate_inverse (interleave (accumulate_inverse
      (interleave (accumulate_inverse x) (perm_b c 2))) (perm_b c 1)))
      (perm_b c 0)).length = c.n := by
    rw [length_interleave, length_accumulate_inverse, length_interleave,
      length_accumulate_inverse, length_interleave, length_accumulate_inverse, hx]
  have h3 : (accumulate_inverse (interleave (accumulate_inverse
      (interleave (accumulate_inverse x) (perm_b c 2))) (perm_b c 1))).length = c.n := by
    rw [length_accumulate_inverse, length_interleave, length_accumulate_inverse,
      length_interleave, length_accumulate_inverse, hx]
  have h5 : (accumulate_inverse (interleave (accumulate_inverse x)
      (perm_b c 2))).length = c.n := by
    rw [length_accumulate_inverse, length_interleave, length_accumulate_inverse, hx]
  have h7 : (accumulate_inverse x).length = c.n := by
    rw [length_accumulate_inverse, hx]
  rw [mul_vec_by_extended_inverse_def, encode_extended_def,
    repeat_extended_repeat_extended_inverse _ c.q hq (by rw [h1]; exact hdvd),
    interleave_interleave (permPair_symm pp0) _ h3,
    accumulate_accumulate_inverse,
    interleave_interleave (permPair_symm pp1) _ h5,
    accumulate_accumulate_inverse,
    interleave_interleave (permPair_symm pp2) _ h7,
    accumulate_accumulate_inverse]

end EncodeLemmas

section EncodeLinearity

variable {F : Type} [CommRing F] [DecidableEq F]

theorem accumulate_aux_replicate_zero (m : Nat) (a : F) :
    accumulate_aux a (List.replicate m 0) = List.replicate m a := by
  induction m generalizing a with
  | zero => rfl
  | succ mm ih =>
    simp only [List.replicate_succ, accumulate_aux, add_zero]
    rw [ih]

theorem accumulate_replicate_zero (m : Nat) :
    accumulate (List.replicate m (0 : F)) = List.replicate m 0 :=
  accumulate_aux_replicate_zero m 0

theorem encode_eq_encode_extended_pad (c : RAAACode) (hc : CodeWF c)
    (x : List F) (hx : x.length = c.k) :
    encode c x = encode_extended c (x ++ List.replicate (c.n - c.k) 0) := by
  have hrw : c.n - c.k = (c.q - 1) * c.k := by
    rw [Nat.sub_mul, Nat.one_mul, codeWF_qk c hc]
  rw [encode_def, encode_extended_def, hrw,
    repeat_extended_pad x c.q c.k hx (codeWF_qpos c hc)]

theorem encode_extended_fAdd (c : RAAACode) (hc : CodeWF c) (a b : List F)
    (ha : a.length = c.n) (hb : b.length = c.n) :
    encode_extended c (fAdd a b) = fAdd (encode_extended c a) (encode_extended c b) := by
  have pp0 := codeWF_pp c hc 0 (by omega)
  have pp1 := codeWF_pp c hc 1 (by omega)
  have pp2 := codeWF_pp c hc 2 (by omega)
  have hq := codeWF_qpos c hc
  have hra : (repeat_extended a c.q).length = c.n := by
    rw [length_repeat_extended a c.q hq (by rw [ha]; exact codeWF_dvd c hc), ha]
  have hrb : (repeat_extended b c.q).length = c.n := by
    rw [length_repeat_extended b c.q hq (by rw [hb]; exact codeWF_dvd c hc), hb]
  have h2a : (accumulate (interleave (repeat_extended a c.q) (perm_f c 0))).length = c.n := by
    rw [length_accumulate, length_interleave, hra]
  have h2b : (accumulate (interleave (repeat_extended b c.q) (perm_f c 0))).length = c.n := by
    rw [length_accumulate, length_interleave, hrb]
  have h3a : (accumulate (interleave (accumulate (interleave (repeat_extended a c.q)
      (perm_f c 0))) (perm_f c 1))).length = c.n := by
    rw [length_accumulate, length_interleave, h2a]
  have h3b : (accumulate (interleave (accumulate (interleave (repeat_extended b c.q)
      (perm_f c 0))) (perm_f c 1))).length = c.n := by
    rw [length_accumulate, length_interleave, h2b]
  rw [encode_extended_def, encode_extended_def, encode_extended_def,
    repeat_extended_fAdd a b c.q hq (by rw [ha, hb]),
    interleave_fAdd pp0 _ _ hra hrb,
    accumulate_fAdd _ _ (by rw [length_interleave, length_interleave, hra, hrb]),
    interleave_fAdd pp1 _ _ h2a h2b,
    accumulate_fAdd _ _ (by rw [length_interleave, length_interleave, h2a, h2b]),
    interleave_fAdd pp2 _ _ h3a h3b,
    accumulate_fAdd _ _ (by rw [length_interleave, length_interleave, h3a, h3b])]

theorem encode_fAdd (c : RAAACode) (hc : CodeWF c) (a b : List F)
    (ha : a.length = c.k) (hb : b.length = c.k) :
    encode c (fAdd a b) = fAdd (encode c a) (encode c b) := by
  have pp0 := codeWF_pp c hc 0 (by omega)
  have pp1 := codeWF_pp c hc 1 (by omega)
  have pp2 := codeWF_pp c hc 2 (by omega)
  have hra : (repeatN a c.q).length = c.n := by
    rw [length_repeatN, ha, codeWF_qk c hc]
  have hrb : (repeatN b c.q).length = c.n := by
    rw [length_repeatN, hb, codeWF_qk c hc]
  have h2a : (accumulate (interleave (repeatN a c.q) (perm_f c 0))).length = c.n := by
    rw [length_accumulate, length_interleave, hra]
  have h2b : (accumulate (interleave (repeatN b c.q) (perm_f c 0))).length = c.n := by
    rw [length_accumulate, length_interleave, hrb]
  have h3a : (accumulate (interleave (accumulate (interleave (repeatN a c.q)
      (perm_f c 0))) (perm_f c 1))).length = c.n := by
    rw [length_accumulate, length_interleave, h2a]
  have h3b : (accumulate (interleave (accumulate (interleave (repeatN b c.q)
      (perm_f c 0))) (perm_f c 1))).length = c.n := by
    rw [length_accumulate, length_interleave, h2b]
  rw [encode_def, encode_def, encode_def,
    repeatN_fAdd a b c.q (by rw [ha, hb]),
    interleave_fAdd pp0 _ _ hra hrb,
    accumulate_fAdd _ _ (by rw [length_interleave, length_interleave, hra, hrb]),
    interleave_fAdd pp1 _ _ h2a h2b,
    accumulate_fAdd _ _ (by rw [length_interleave, length_interleave, h2a, h2b]),
    interleave_fAdd pp2 _ _ h3a h3b,
    accumulate_fAdd _ _ (by rw [length_interleave, length_interleave, h3a, h3b])]

theorem encode_scalar_mul (c : RAAACode) (hc : CodeWF c) (a : List F) (t : F)
    (ha : a.length = c.k) :
    encode c (scalar_mul a t) = scalar_mul (encode c a) t := by
  have pp0 := codeWF_pp c hc 0 (by omega)
  have pp1 := codeWF_pp c hc 1 (by omega)
  have pp2 := codeWF_pp c hc 2 (by omega)
  have hra : (repeatN a c.q).length = c.n := by
    rw [length_repeatN, ha, codeWF_qk c hc]
  have h2a : (accumulate (interleave (repeatN a c.q) (perm_f c 0))).length = c.n := by
    rw [length_accumulate, length_interleave, hra]
  have h3a : (accumulate (interleave (accumulate (interleave (repeatN a c.q)
      (perm_f c 0))) (perm_f c 1))).length = c.n := by
    rw [length_accumulate, length_interleave, h2a]
  rw [encode_def, encode_def,
    repeatN_scalar_mul a t c.q,
    interleave_scalar_mul pp0 _ t hra,
    accumulate_scalar_mul,
    interleave_scalar_mul pp1 _ t h2a,
    accumulate_scalar_mul,
    interleave_scalar_mul pp2 _ t h3a,
    accumulate_scalar_mul]

theorem encode_replicate_zero (c : RAAACode) (hc : CodeWF c) :
    encode c (List.replicate c.k (0 : F)) = List.replicate c.n 0 := by
  have pp0 := codeWF_pp c hc 0 (by omega)
  have pp1 := codeWF_pp c hc 1 (by omega)
  have pp2 := codeWF_pp c hc 2 (by omega)
  rw [encode_def, repeatN_replicate_zero, codeWF_qk c hc,
    interleave_replicate_zero pp0, accumulate_replicate_zero,
    interleave_replicate_zero pp1, accumulate_replicate_zero,
    interleave_replicate_zero pp2, accumulate_replicate_zero]

theorem length_lin_comb (ch : List F) (rows : List (List F)) (w : Nat)
    (hw : ∀ r ∈ rows, r.length = w) :
    (lin_comb ch rows w).length = w := by
  induction ch generalizing rows with
  | nil => simp [lin_comb]
  | cons c0 ch ih =>
    cases rows with
    | nil => simp [lin_comb]
    | cons r rows =>
      show (fAdd (scalar_mul r c0) (lin_comb ch rows w)).length = w
      rw [length_fAdd, length_scalar_mul, hw r (List.mem_cons_self _ _),
        ih rows (fun x hx => hw x (List.mem_cons_of_mem _ hx)), min_self]

theorem lin_comb_nil_left (rows : List (List F)) (w : Nat) :
    lin_comb [] rows w = List.replicate w 0 := by
  simp [lin_comb]

theorem lin_comb_nil_right (ch : List F) (w : Nat) :
    lin_comb ch [] w = List.replicate w 0 := by
  simp [lin_comb]

theorem lin_comb_cons (c0 : F) (ch : List F) (r : List F) (rows : List (List F))
    (w : Nat) :
    lin_comb (c0 :: ch) (r :: rows) w =
      fAdd (scalar_mul r c0) (lin_comb ch rows w) := rfl

theorem encode_lin_comb (c : RAAACode) (hc : CodeWF c) (ch : List F)
    (rows : List (List F)) (hw : ∀ r ∈ rows, r.length = c.k) :
    encode c (lin_comb ch rows c.k) = lin_comb ch (rows.map (encode c)) c.n := by
  induction ch generalizing rows with
  | nil => rw [lin_comb_nil_left, lin_comb_nil_left, encode_replicate_zero c hc]
  | cons c0 ch ih =>
    cases rows with
    | nil => rw [lin_comb_nil_right, List.map_nil, lin_comb_nil_right, encode_replicate_zero c hc]
    | cons r rows =>
      rw [lin_comb_cons, List.map_cons, lin_comb_cons]
      have hr : r.length = c.k := hw r (List.mem_cons_self _ _)
      have hrest : ∀ x ∈ rows, x.length = c.k :=
        fun x hx => hw x (List.mem_cons_of_mem _ hx)
      rw [encode_fAdd c hc _ _ (by rw [length_scalar_mul, hr])
        (length_lin_comb ch rows c.k hrest)]
      rw [encode_scalar_mul c hc r c0 hr, ih rows hrest]

theorem getD_lin_comb (ch : List F) (rows : List (List F)) (w j : Nat)
    (hw : ∀ r ∈ rows, r.length = w) (hj : j < w) :
    (lin_comb ch rows w).getD j 0 =
      dot ch (rows.map (fun row => row.getD j 0)) := by
  induction ch generalizing rows with
  | nil => rw [lin_comb_nil_left, getD_replicate_zero w j hj]; simp [dot]
  | cons c0 ch ih =>
    cases rows with
    | nil =>
      rw [lin_comb_nil_right, getD_replicate_zero w j hj]
      simp [dot]
    | cons r rows =>
      have hr : r.length = w := hw r (List.mem_cons_self _ _)
      have hrest : ∀ x ∈ rows, x.length = w :=
        fun x hx => hw x (List.mem_cons_of_mem _ hx)
      rw [lin_comb_cons,
        getD_fAdd _ _ j (by rw [length_scalar_mul, hr]; exact hj)
          (by rw [length_lin_comb ch rows w hrest]; exact hj),
        getD_scalar_mul r c0 j (by rw [hr]; exact hj), ih rows hrest]
      simp only [List.map_cons, dot, List.zipWith_cons_cons, List.sum_cons]
      ring

end EncodeLinearity

section GetDHelpers

variable {F : Type} [CommRing F] [DecidableEq F]

theorem getD_map_lt {α β : Type} (f : α → β) (L : List α) (i : Nat)
    (hi : i < L.length) (d : β) (d2 : α) :
    (L.map f).getD i d = f (L.getD i d2) := by
  rw [List.getD_eq_getElem _ _ (by simpa using hi), List.getElem_map,
    List.getD_eq_getElem _ _ hi]

theorem getD_zipWith_lt {α β γ : Type} (f : α → β → γ) (A : List α)
    (B : List β) (i : Nat) (hA : i < A.length) (hB : i < B.length) (d : γ)
    (da : α) (db : β) :
    (List.zipWith f A B).getD i d = f (A.getD i da) (B.getD i db) := by
  have hz : i < (List.zipWith f A B).length := by
    rw [List.length_zipWith]; exact lt_min hA hB
  rw [List.getD_eq_getElem _ _ hz, List.getD_eq_getElem _ _ hA,
    List.getD_eq_getElem _ _ hB]
  exact List.getElem_zipWith

theorem fAdd_replicate_zero_left (x : List F) (m : Nat) (h : x.length ≤ m) :
    fAdd (List.replicate m 0) x = x := by
  induction x generalizing m with
  | nil => simp [fAdd]
  | cons a xs ih =>
    cases m with
    | zero => simp at h
    | succ mm =>
      simp only [List.replicate_succ, fAdd, List.zipWith_cons_cons, zero_add]
      have := ih mm (by simpa using h)
      simp only [fAdd] at this
      rw [this]

theorem fMul_fAdd_left (a b d : List F) (hab : a.length = b.length) :
    fMul (fAdd a b) d = fAdd (fMul a d) (fMul b d) := by
  induction a generalizing b d with
  | nil =>
    cases b with
    | nil => cases d <;> simp [fMul, fAdd]
    | cons _ _ => simp at hab
  | cons x xs ih =>
    cases b with
    | nil => simp at hab
    | cons y ys =>
      cases d with
      | nil => simp [fMul, fAdd]
      | cons z zs =>
        simp only [fMul, fAdd, List.zipWith_cons_cons]
        rw [show (x + y) * z = x * z + y * z by ring]
        have := ih ys zs (by simpa using hab)
        simp only [fMul, fAdd] at this
        rw [this]

theorem fSub_fAdd_fAdd_cancel (X Y V : List F) (hXY : X.length = Y.length)
    (hXV : X.length = V.length) :
    fSub (fAdd (fAdd X Y) V) Y = fAdd X V := by
  induction X generalizing Y V with
  | nil =>
    cases Y with
    | nil =>
      cases V with
      | nil => rfl
      | cons _ _ => simp at hXV
    | cons _ _ => simp at hXY
  | cons x xs ih =>
    cases Y with
    | nil => simp at hXY
    | cons y ys =>
      cases V with
      | nil => simp at hXV
      | cons v vs =>
        simp only [fAdd, fSub, List.zipWith_cons_cons]
        rw [show x + y + v - y = x + v by ring]
        have := ih ys vs (by simpa using hXY) (by simpa using hXV)
        simp only [fAdd, fSub] at this
        rw [this]

end GetDHelpers

section ClaimC3C2

variable {F : Type} [CommRing F] [DecidableEq F]

/-- Claim C3: the extended encoder is invertible: for every well-formed RAAA
code and every vector x of length n, mul_vec_by_extended_inverse ∘
encode_extended and encode_extended ∘ mul_vec_by_extended_inverse are both
the identity on x. -/
theorem extended_encoder_invertible (c : RAAACode) (hc : CodeWF c)
    (x : List F) (hx : x.length = c.n) :
    mul_vec_by_extended_inverse c (encode_extended c x) = x ∧
    encode_extended c (mul_vec_by_extended_inverse c x) = x :=
  ⟨tc_inverse_tc c hc x hx, tc_tc_inverse c hc x hx⟩

theorem extended_encoder_invertible_witness :
    CodeWF wcode ∧ ([3, 5] : List Fw).length = wcode.n ∧
    (mul_vec_by_extended_inverse wcode (encode_extended wcode ([3, 5] : List Fw)) =
      [3, 5] ∧
     encode_extended wcode (mul_vec_by_extended_inverse wcode ([3, 5] : List Fw)) =
      [3, 5]) :=
  ⟨by decide, by decide,
   extended_encoder_invertible wcode (by decide) [3, 5] (by decide)⟩

theorem get_prover_correction_fst_getD (c : RAAACode) (U : List (List F))
    (i : Nat) (hi : i < U.length) :
    (get_prover_correction c U).1.getD i [] =
      (mul_vec_by_extended_inverse c (U.getD i [])).take c.k := by
  show ((U.map (mul_vec_by_extended_inverse c)).map (fun u => u.take c.k)).getD i [] = _
  rw [getD_map_lt _ _ i (by simpa using hi) [] [],
    getD_map_lt _ _ i hi [] []]

theorem get_prover_correction_snd_getD (c : RAAACode) (U : List (List F))
    (i : Nat) (hi : i < U.length) :
    (get_prover_correction c U).2.getD i [] =
      (mul_vec_by_extended_inverse c (U.getD i [])).drop c.k := by
  show ((U.map (mul_vec_by_extended_inverse c)).map (fun u => u.drop c.k)).getD i [] = _
  rw [getD_map_lt _ _ i (by simpa using hi) [] [],
    getD_map_lt _ _ i hi [] []]

theorem correct_verifier_qs_getD (c : RAAACode) (Q : List (List F))
    (deltas : List F) (C : List (List F)) (i : Nat) (hi : i < Q.length) :
    (correct_verifier_qs c Q deltas C).getD i [] =
      fSub (Q.getD i [])
        (fMul (encode_extended c
          (List.replicate ((Q.headD []).length - (C.headD []).length) 0 ++
            C.getD i [])) deltas) := by
  show (List.zipWith fSub Q ((((List.range Q.length).map
    (fun i => List.replicate ((Q.headD []).length - (C.headD []).length) (0 : F) ++
      C.getD i [])).map (encode_extended c)).map (fun x => fMul x deltas))).getD i [] = _
  rw [getD_zipWith_lt fSub _ _ i hi
    (by simp only [List.length_map, List.length_range]; exact hi) [] [] []]
  congr 1
  rw [getD_map_lt _ _ i (by simp only [List.length_map, List.length_range]; exact hi) [] [],
    getD_map_lt _ _ i (by simp only [List.length_map, List.length_range]; exact hi) [] [],
    getD_map_range _ _ i hi]

theorem headD_eq_getD {α : Type} (l : List α) (d : α) : l.headD d = l.getD 0 d := by
  cases l <;> rfl

/-- Shared correlation-preservation lemma: when Q = U·diag(Δ) + V row-wise,
after (U', C) = get_prover_correction(U) and Q' = correct_verifier_qs(Q, Δ, C),
every row satisfies encode(U'ᵢ)·diag(Δ) + Vᵢ = Q'ᵢ. -/
theorem correlation_after_corrections (c : RAAACode) (hc : CodeWF c)
    (U V Q : List (List F)) (deltas : List F)
    (hUV : U.length = V.length) (hUQ : U.length = Q.length)
    (hUw : ∀ r ∈ U, r.length = c.n) (hVw : ∀ r ∈ V, r.length = c.n)
    (hd : deltas.length = c.n)
    (hQrel : ∀ i, i < U.length →
      Q.getD i [] = fAdd (fMul (U.getD i []) deltas) (V.getD i [])) :
    ∀ i, i < U.length →
      (correct_verifier_qs c Q deltas (get_prover_correction c U).2).getD i [] =
        fAdd (fMul (encode c ((get_prover_correction c U).1.getD i [])) deltas)
          (V.getD i []) := by
  intro i hi
  have hkn : c.k ≤ c.n := by
    rw [RAAACode.k]
    exact Nat.div_le_self _ _
  have hU0 : 0 < U.length := lt_of_le_of_lt (Nat.zero_le i) hi
  have hrowU : ∀ j, j < U.length → (U.getD j []).length = c.n := by
    intro j hj
    apply hUw
    rw [List.getD_eq_getElem _ _ hj]
    exact List.getElem_mem hj
  have hrowV : ∀ j, j < U.length → (V.getD j []).length = c.n := by
    intro j hj
    apply hVw
    rw [List.getD_eq_getElem _ _ (hUV ▸ hj)]
    exact List.getElem_mem _
  have hUi := hrowU i hi
  have hVi := hrowV i hi
  -- the full-length row and its split
  have hz : (mul_vec_by_extended_inverse c (U.getD i [])).length = c.n :=
    length_mul_vec_by_extended_inverse c hc _ hUi
  have hz0 : (mul_vec_by_extended_inverse c (U.getD 0 [])).length = c.n :=
    length_mul_vec_by_extended_inverse c hc _ (hrowU 0 hU0)
  -- head lengths feeding the zero padding width
  have hQhead : (Q.headD []).length = c.n := by
    rw [headD_eq_getD, hQrel 0 hU0, length_fAdd, length_fMul,
      hrowU 0 hU0, hrowV 0 hU0, hd]
    simp
  have hChead : (((get_prover_correction c U).2).headD []).length = c.n - c.k := by
    rw [headD_eq_getD, get_prover_correction_snd_getD c U 0 hU0,
      List.length_drop, hz0]
  have hzerolen : (Q.headD []).length -
      (((get_prover_correction c U).2).headD []).length = c.k := by
    rw [hQhead, hChead]
    omega
  rw [correct_verifier_qs_getD c Q deltas _ i (hUQ ▸ hi), hzerolen,
    get_prover_correction_snd_getD c U i hi,
    get_prover_correction_fst_getD c U i hi]
  -- the key encoding identity: encode(take) + encode_extended(0^k ++ drop) = U row
  have htklen : ((mul_vec_by_extended_inverse c (U.getD i [])).take c.k).length = c.k := by
    rw [List.length_take, hz]
    omega
  have hdrlen : ((mul_vec_by_extended_inverse c (U.getD i [])).drop c.k).length =
      c.n - c.k := by
    rw [List.length_drop, hz]
  have hkey : fAdd (encode c ((mul_vec_by_extended_inverse c (U.getD i [])).take c.k))
      (encode_extended c (List.replicate c.k 0 ++
        (mul_vec_by_extended_inverse c (U.getD i [])).drop c.k)) = U.getD i [] := by
    rw [encode_eq_encode_extended_pad c hc _ htklen]
    rw [← encode_extended_fAdd c hc _ _
      (by rw [List.length_append, List.length_replicate, htklen]; omega)
      (by rw [List.length_append, List.length_replicate, hdrlen]; omega)]
    rw [fAdd_append _ _ _ _ (by rw [htklen, List.length_replicate])]
    rw [fAdd_replicate_zero_right _ _ (le_of_eq htklen),
      fAdd_replicate_zero_left _ _ (le_of_eq hdrlen),
      List.take_append_drop]
    exact tc_tc_inverse c hc _ hUi
  have hencklen : (encode c ((mul_vec_by_extended_inverse c (U.getD i [])).take c.k)).length = c.n :=
    length_encode c hc _ htklen
  have hencextlen : (encode_extended c (List.replicate c.k 0 ++
      (mul_vec_by_extended_inverse c (U.getD i [])).drop c.k)).length = c.n := by
    apply length_encode_extended c hc
    rw [List.length_append, List.length_replicate, hdrlen]
    omega
  have hUiAB : fMul (U.getD i []) deltas =
      fAdd (fMul (encode c ((mul_vec_by_extended_inverse c (U.getD i [])).take c.k)) deltas)
        (fMul (encode_extended c (List.replicate c.k 0 ++
          (mul_vec_by_extended_inverse c (U.getD i [])).drop c.k)) deltas) := by
    conv_lhs => rw [← hkey]
    exact fMul_fAdd_left _ _ deltas (by rw [hencklen, hencextlen])
  rw [hQrel i hi, hUiAB]
  apply fSub_fAdd_fAdd_cancel
  · rw [length_fMul, length_fMul, hencklen, hencextlen]
  · rw [length_fMul, hencklen, hd, min_self, hVi]

/-- Claim C2: the prover and verifier corrections preserve the VOLE
correlation inside the code subspace: when Q = U·diag(Δ) + V row-wise, after
(U', C) = get_prover_correction(U) and Q' = correct_verifier_qs(Q, Δ, C),
every row satisfies encode(U'ᵢ)·diag(Δ) + Vᵢ = Q'ᵢ. -/
theorem corrections_preserve_correlation (c : RAAACode) (hc : CodeWF c)
    (U V Q : List (List F)) (deltas : List F)
    (hUV : U.length = V.length) (hUQ : U.length = Q.length)
    (hUw : ∀ r ∈ U, r.length = c.n) (hVw : ∀ r ∈ V, r.length = c.n)
    (hd : deltas.length = c.n)
    (hQrel : ∀ i, i < U.length →
      Q.getD i [] = fAdd (fMul (U.getD i []) deltas) (V.getD i [])) :
    ∀ i, i < U.length →
      (correct_verifier_qs c Q deltas (get_prover_correction c U).2).getD i [] =
        fAdd (fMul (encode c ((get_prover_correction c U).1.getD i [])) deltas)
          (V.getD i []) :=
  correlation_after_corrections c hc U V Q deltas hUV hUQ hUw hVw hd hQrel

theorem corrections_preserve_correlation_witness :
    CodeWF wcode ∧
    (([[3, 4], [5, 6]] : List (List Fw)).length = ([[1, 2], [7, 8]] : List (List Fw)).length) ∧
    (([[3, 4], [5, 6]] : List (List Fw)).length = ([[7, 14], [17, 26]] : List (List Fw)).length) ∧
    (∀ r ∈ ([[3, 4], [5, 6]] : List (List Fw)), r.length = wcode.n) ∧
    (∀ r ∈ ([[1, 2], [7, 8]] : List (List Fw)), r.length = wcode.n) ∧
    ([2, 3] : List Fw).length = wcode.n ∧
    (∀ i, i < ([[3, 4], [5, 6]] : List (List Fw)).length →
      ([[7, 14], [17, 26]] : List (List Fw)).getD i [] =
        fAdd (fMul (([[3, 4], [5, 6]] : List (List Fw)).getD i []) [2, 3])
          (([[1, 2], [7, 8]] : List (List Fw)).getD i [])) ∧
    ((correct_verifier_qs wcode ([[7, 14], [17, 26]] : List (List Fw)) [2, 3]
        (get_prover_correction wcode ([[3, 4], [5, 6]] : List (List Fw))).2).getD 0 [] =
      fAdd (fMul (encode wcode
          ((get_prover_correction wcode ([[3, 4], [5, 6]] : List (List Fw))).1.getD 0 []))
          [2, 3])
        (([[1, 2], [7, 8]] : List (List Fw)).getD 0 [])) :=
  ⟨by decide, by decide, by decide, by decide, by decide, by decide, by decide,
   corrections_preserve_correlation wcode (by decide) [[3, 4], [5, 6]]
     [[1, 2], [7, 8]] [[7, 14], [17, 26]] [2, 3] (by decide) (by decide)
     (by decide) (by decide) (by decide) (by decide) 0 (by decide)⟩

end ClaimC3C2

section ClaimC5

variable {F : Type} [CommRing F] [DecidableEq F]

theorem check_parity_def (c : RAAACode) (y : List F) :
    check_parity c y = (List.range (c.q - 1)).all (fun i =>
      decide (((invert_stages c y).drop
          ((invert_stages c y).length / c.q * (i + 1))).take
          ((invert_stages c y).length / c.q) =
        (invert_stages c y).take ((invert_stages c y).length / c.q))) := rfl

theorem length_invert_stages (c : RAAACode) (y : List F) :
    (invert_stages c y).length = y.length := by
  rw [invert_stages, length_interleave, length_accumulate_inverse,
    length_interleave, length_accumulate_inverse, length_interleave,
    length_accumulate_inverse]

theorem invert_stages_encode (c : RAAACode) (hc : CodeWF c) (x : List F)
    (hx : x.length = c.k) :
    invert_stages c (encode c x) = repeatN x c.q := by
  have pp0 := codeWF_pp c hc 0 (by omega)
  have pp1 := codeWF_pp c hc 1 (by omega)
  have pp2 := codeWF_pp c hc 2 (by omega)
  have h1 : (repeatN x c.q).length = c.n := by
    rw [length_repeatN, hx, codeWF_qk c hc]
  have h3 : (accumulate (interleave (repeatN x c.q) (perm_f c 0))).length = c.n := by
    rw [length_accumulate, length_interleave, h1]
  have h5 : (accumulate (interleave (accumulate (interleave (repeatN x c.q)
      (perm_f c 0))) (perm_f c 1))).length = c.n := by
    rw [length_accumulate, length_interleave, h3]
  rw [encode_def, invert_stages,
    accumulate_inverse_accumulate,
    interleave_interleave pp2 _ h5,
    accumulate_inverse_accumulate,
    interleave_interleave pp1 _ h3,
    accumulate_inverse_accumulate,
    interleave_interleave pp0 _ h1]

theorem invert_stages_inverse (c : RAAACode) (hc : CodeWF c) (y : List F)
    (hy : y.length = c.n) :
    accumulate (interleave (accumulate (interleave (accumulate
      (interleave (invert_stages c y) (perm_f c 0))) (perm_f c 1)))
      (perm_f c 2)) = y := by
  have pp0 := codeWF_pp c hc 0 (by omega)
  have pp1 := codeWF_pp c hc 1 (by omega)
  have pp2 := codeWF_pp c hc 2 (by omega)
  have h3 : (accumulate_inverse (interleave (accumulate_inverse
      (interleave (accumulate_inverse y) (perm_b c 2))) (perm_b c 1))).length = c.n := by
    rw [length_accumulate_inverse, length_interleave, length_accumulate_inverse,
      length_interleave, length_accumulate_inverse, hy]
  have h5 : (accumulate_inverse (interleave (accumulate_inverse y)
      (perm_b c 2))).length = c.n := by
    rw [length_accumulate_inverse, length_interleave, length_accumulate_inverse, hy]
  have h7 : (accumulate_inverse y).length = c.n := by
    rw [length_accumulate_inverse, hy]
  rw [invert_stages,
    interleave_interleave (permPair_symm pp0) _ h3,
    accumulate_accumulate_inverse,
    interleave_interleave (permPair_symm pp1) _ h5,
    accumulate_accumulate_inverse,
    interleave_interleave (permPair_symm pp2) _ h7,
    accumulate_accumulate_inverse]

theorem eq_repeatN_of_sections (s : List F) (q sl : Nat)
    (hlen : s.length = q * sl)
    (hsec : ∀ i, i < q → sectionOf s sl i = s.take sl) :
    s = repeatN (s.take sl) q := by
  conv_lhs => rw [← flatten_sections s q sl hlen]
  rw [repeatN_eq_flatten]
  congr 1
  apply List.map_congr_left
  intro i hi
  rw [List.mem_range] at hi
  exact hsec i hi

theorem sectionOf_repeatN (x : List F) (q i : Nat) (hi : i < q) :
    sectionOf (repeatN x q) x.length i = x := by
  rw [repeatN_eq_flatten]
  rw [sections_flatten _ x.length (by
      intro l hl
      rw [List.mem_map] at hl
      obtain ⟨j, hj, rfl⟩ := hl
      rfl) i (by simpa using hi)]
  exact getD_map_range _ q i hi []

theorem take_repeatN (x : List F) (q : Nat) (h1 : 1 ≤ q) :
    (repeatN x q).take x.length = x := by
  obtain ⟨qq, rfl⟩ : ∃ qq, q = qq + 1 := ⟨q - 1, by omega⟩
  show (x ++ repeatN x qq).take x.length = x
  exact List.take_left' rfl

theorem check_parity_eq_true_iff (c : RAAACode) (hc : CodeWF c)
    (hq2 : 2 ≤ c.q) (y : List F) (hy : y.length = c.n) :
    check_parity c y = true ↔ ∃ x : List F, x.length = c.k ∧ y = encode c x := by
  have hq1 : 1 ≤ c.q := by omega
  have hq0 : 0 < c.q := hq1
  have hs_len : (invert_stages c y).length = c.n := by
    rw [length_invert_stages, hy]
  have hsl : (invert_stages c y).length / c.q = c.k := by
    rw [hs_len]; rfl
  have hkn : c.k ≤ c.n := Nat.div_le_self _ _
  constructor
  · intro hcp
    rw [check_parity_def, List.all_eq_true] at hcp
    have hall : ∀ i, i < c.q →
        sectionOf (invert_stages c y) c.k i = (invert_stages c y).take c.k := by
      intro i hi
      cases i with
      | zero => exact sectionOf_zero _ _
      | succ j =>
        have hj : j ∈ List.range (c.q - 1) := List.mem_range.mpr (by omega)
        have := hcp j hj
        rw [hsl] at this
        exact of_decide_eq_true this
    have hrep : invert_stages c y = repeatN ((invert_stages c y).take c.k) c.q :=
      eq_repeatN_of_sections _ c.q c.k
        (by rw [hs_len, ← codeWF_qk c hc]) hall
    refine ⟨(invert_stages c y).take c.k, ?_, ?_⟩
    · rw [List.length_take, hs_len]
      omega
    · have hfwd := invert_stages_inverse c hc y hy
      rw [hrep] at hfwd
      rw [encode_def]
      exact hfwd.symm
  · rintro ⟨x, hxlen, rfl⟩
    rw [check_parity_def, List.all_eq_true]
    intro i hi
    rw [List.mem_range] at hi
    apply decide_eq_true
    rw [invert_stages_encode c hc x hxlen]
    have hrlen : (repeatN x c.q).length / c.q = x.length := by
      rw [length_repeatN, Nat.mul_div_cancel_left _ hq0]
    rw [hrlen]
    have h1 : (repeatN x c.q).drop (x.length * (i + 1)) ++ [] =
        (repeatN x c.q).drop (x.length * (i + 1)) := List.append_nil _
    show ((repeatN x c.q).drop (x.length * (i + 1))).take x.length =
      (repeatN x c.q).take x.length
    have hs := sectionOf_repeatN x c.q (i + 1) (by omega)
    rw [sectionOf] at hs
    rw [hs, take_repeatN x c.q hq1]

/-- Counterexample to claim C5 as stated: for the well-formed RAAA code
`c5code` (n = 4, q = 2), the all-zero vector is the codeword of the zero
message, yet changing exactly its last entry to the different field element 1
leaves check_parity true (the changed vector is again a codeword). -/
theorem parity_single_change_counterexample :
    CodeWF c5code ∧ 2 ≤ c5code.q ∧
    encode c5code (([0, 0] : List Fw)) = [0, 0, 0, 0] ∧
    ((1 : Fw) ≠ ([0, 0, 0, 0] : List Fw).getD 3 0) ∧
    check_parity c5code (([0, 0, 0, 0] : List Fw).set 3 1) = true := by decide

/-- Claim C5, amended: for every well-formed RAAA code with q ≥ 2 and every
input x of dimension k, check_parity accepts encode(x); and changing exactly
one entry of the codeword to a different field element makes check_parity
return false unless the modified vector is itself a codeword — it stays true
exactly when the modified vector is in the image of encode. -/
theorem check_parity_encode_and_single_change (c : RAAACode) (hc : CodeWF c)
    (hq2 : 2 ≤ c.q) (x : List F) (hx : x.length = c.k) :
    check_parity c (encode c x) = true ∧
    (∀ p : Nat, ∀ a : F, p < c.n → a ≠ (encode c x).getD p 0 →
      (check_parity c ((encode c x).set p a) = true ↔
        ∃ z : List F, z.length = c.k ∧ (encode c x).set p a = encode c z)) := by
  constructor
  · exact (check_parity_eq_true_iff c hc hq2 _ (length_encode c hc x hx)).mpr
      ⟨x, hx, rfl⟩
  · intro p a hp ha
    exact check_parity_eq_true_iff c hc hq2 _
      (by rw [List.length_set, length_encode c hc x hx])

theorem check_parity_encode_and_single_change_witness :
    CodeWF wcode ∧ 2 ≤ wcode.q ∧ ([7] : List Fw).length = wcode.k ∧
    check_parity wcode (encode wcode ([7] : List Fw)) = true ∧
    (0 < wcode.n ∧ (3 : Fw) ≠ (encode wcode ([7] : List Fw)).getD 0 0) ∧
    (check_parity wcode ((encode wcode ([7] : List Fw)).set 0 3) = true ↔
      ∃ z : List Fw, z.length = wcode.k ∧
        (encode wcode ([7] : List Fw)).set 0 3 = encode wcode z) :=
  ⟨by decide, by decide, by decide,
   (check_parity_encode_and_single_change wcode (by decide) (by decide) [7]
     (by decide)).1,
   ⟨by decide, by decide⟩,
   (check_parity_encode_and_single_change wcode (by decide) (by decide) [7]
     (by decide)).2 0 3 (by decide) (by decide)⟩

end ClaimC5

section EasyClaims

variable {F : Type} [CommRing F] [DecidableEq F]

/-- Claim C4: seed-commitment opening verifies exactly as specified: for
every hash function, seed pair and bit b, the honest opening (s_b, b,
H(s_{1−b})) verifies against commit_seeds(s₀, s₁); and verification returns
false whenever the recomputed commitment differs from the given one. -/
theorem seed_commitment_opening (H : Bytes → Bytes) (s0 s1 : Bytes) (b : Bool) :
    verify_proof_of_revealed_seed H (commit_seeds H s0 s1)
      (if b then s1 else s0) b (proof_for_revealed_seed H (if b then s0 else s1)) = true ∧
    (∀ commitment revealed : Bytes, ∀ idx : Bool, ∀ proof : Bytes,
      reconstruct_commitment H revealed idx proof ≠ commitment →
      verify_proof_of_revealed_seed H commitment revealed idx proof = false) := by
  constructor
  · cases b <;>
      simp [verify_proof_of_revealed_seed, reconstruct_commitment, commit_seeds,
        proof_for_revealed_seed]
  · intro commitment revealed idx proof h
    simp [verify_proof_of_revealed_seed, h]

theorem seed_commitment_opening_witness :
    (verify_proof_of_revealed_seed (fun x => 7 :: x)
      (commit_seeds (fun x => 7 :: x) [1] [2]) [2] true
      (proof_for_revealed_seed (fun x => 7 :: x) [1]) = true) ∧
    (reconstruct_commitment (fun x => 7 :: x) [9] false [3] ≠
      commit_seeds (fun x => 7 :: x) [1] [2]) ∧
    (verify_proof_of_revealed_seed (fun x => 7 :: x)
      (commit_seeds (fun x => 7 :: x) [1] [2]) [9] false [3] = false) :=
  ⟨(seed_commitment_opening (fun x => 7 :: x) [1] [2] true).1,
   by decide,
   (seed_commitment_opening (fun x => 7 :: x) [1] [2] true).2
     (commit_seeds (fun x => 7 :: x) [1] [2]) [9] false [3] (by decide)⟩

/-- Claim C7: for every prover whose subspace-VOLE secrets are set,
s_matrix_with_consistency_proof(Δ′, χ) returns exactly
(Δ′·u₁ + u₂, χ·(Δ′·v₁ + v₂)ᵀ). -/
theorem s_matrix_with_consistency_proof_formula (p : Prover F)
    (svs : SubspaceVOLESecrets F) (h : p.subspace_vole_secrets = some svs)
    (vith_delta : F) (challenge : List F) :
    p.s_matrix_with_consistency_proof vith_delta challenge =
      Except.ok (mat_add (mat_scalar_mul svs.u1 vith_delta) svs.u2,
        vec_times_matrix challenge
          (transposeM (mat_add (mat_scalar_mul svs.v1 vith_delta) svs.v2))) := by
  simp only [Prover.s_matrix_with_consistency_proof, h]

theorem s_matrix_with_consistency_proof_formula_witness :
    wprover.subspace_vole_secrets = some wsvs ∧
    wprover.s_matrix_with_consistency_proof (9 : Fw) [2] =
      Except.ok (mat_add (mat_scalar_mul wsvs.u1 9) wsvs.u2,
        vec_times_matrix [2]
          (transposeM (mat_add (mat_scalar_mul wsvs.v1 9) wsvs.v2))) :=
  ⟨rfl, s_matrix_with_consistency_proof_formula wprover wsvs rfl 9 [2]⟩

/-- Claim C9: calling prove() on a freshly constructed prover, before any
mkvole, fails with the message "VOLE must be completed before this step";
the fresh prover holds no secrets (its optional state is still `none`), and
the prove body only reads the state, so nothing is emitted or changed. -/
theorem prove_before_mkvole_errors (col : Collaborators F) (code : RAAACode)
    (witness : List F) (circuit : R1CSWithMetadata F) :
    Prover.prove col (Prover.from_witness_and_circuit_unpadded code witness circuit) =
      Except.error "VOLE must be completed before this step" ∧
    (Prover.from_witness_and_circuit_unpadded code witness circuit).subspace_vole_secrets
      = none ∧
    (Prover.from_witness_and_circuit_unpadded code witness circuit).witness_comm = none ∧
    (Prover.from_witness_and_circuit_unpadded code witness circuit).seed_commitment = none :=
  ⟨rfl, rfl, rfl, rfl⟩

/-- Claim C10: FVec and FMatrix equality compare only the overlapping
prefix: a vector (or matrix) always compares equal to any extension of
itself by extra trailing entries (or rows), in both argument orders, so the
equality does not detect differing lengths. -/
theorem partial_eq_compares_prefix_only (a ext : List F) (A extM : List (List F)) :
    fvec_eq a (a ++ ext) = true ∧ fvec_eq (a ++ ext) a = true ∧
    fmatrix_eq A (A ++ extM) = true ∧ fmatrix_eq (A ++ extM) A = true := by
  refine ⟨?_, ?_, ?_, ?_⟩
  · induction a with
    | nil => rfl
    | cons x xs ih =>
      simp only [List.cons_append, fvec_eq, List.zip_cons_cons, List.all_cons,
        decide_eq_true_eq, Bool.and_eq_true]
      exact ⟨trivial, by simpa [fvec_eq] using ih⟩
  · induction a with
    | nil => cases ext <;> rfl
    | cons x xs ih =>
      simp only [List.cons_append, fvec_eq, List.zip_cons_cons, List.all_cons,
        decide_eq_true_eq, Bool.and_eq_true]
      exact ⟨trivial, by simpa [fvec_eq] using ih⟩
  · induction A with
    | nil => rfl
    | cons r rs ih =>
      simp only [List.cons_append, fmatrix_eq, List.zip_cons_cons, List.all_cons,
        Bool.and_eq_true]
      exact ⟨fvec_eq_of_eq r r rfl, by simpa [fmatrix_eq] using ih⟩
  · induction A with
    | nil => cases extM <;> rfl
    | cons r rs ih =>
      simp only [List.cons_append, fmatrix_eq, List.zip_cons_cons, List.all_cons,
        Bool.and_eq_true]
      exact ⟨fvec_eq_of_eq r r rfl, by simpa [fmatrix_eq] using ih⟩

end EasyClaims

section ActorSpecLemmas

variable {F : Type} [CommRing F] [DecidableEq F]

theorem length_mkvole_u_rows (col : Collaborators F) (p : Prover F)
    (seeds : List (Bytes × Bytes)) :
    (mkvole_u_rows col p seeds).length =
      (transposeM (mkvole_u_cols col p seeds)).length := by
  simp [mkvole_u_rows, get_prover_correction, mul_matrix_by_extended_inverse]

theorem mkvole_eq_ok (col : Collaborators F) (p : Prover F)
    (seeds : List (Bytes × Bytes))
    (h1 : p.num_voles % p.code.q = 0)
    (h2 : (transposeM (mkvole_u_cols col p seeds)).length % 2 = 0)
    (h3 : (transposeM (mkvole_v_cols col p seeds)).length % 2 = 0) :
    Prover.mkvole col p seeds =
      Except.ok (mkvole_commitment col p seeds, mkvole_state col p seeds) := by
  have hn1 : ¬(p.num_voles % p.code.q ≠ 0) := fun h => h h1
  have hn2 : ¬((get_prover_correction p.code (transposeM
      ((seeds.map (fun s =>
        vole_prover_outputs (F := F) col.expand s.1 s.2 p.vole_length)).map
        (fun o => o.u)))).1.length % 2 ≠ 0) := by
    intro h
    apply h
    rw [show (get_prover_correction p.code (transposeM
      ((seeds.map (fun s =>
        vole_prover_outputs (F := F) col.expand s.1 s.2 p.vole_length)).map
        (fun o => o.u)))).1 = mkvole_u_rows col p seeds from rfl]
    rw [length_mkvole_u_rows]
    exact h2
  have hn3 : ¬((transposeM ((seeds.map (fun s =>
      vole_prover_outputs (F := F) col.expand s.1 s.2 p.vole_length)).map
      (fun o => o.v))).length % 2 ≠ 0) := by
    intro h
    exact h h3
  simp only [Prover.mkvole]
  rw [if_neg hn1, if_neg hn2, if_neg hn3]
  rfl

theorem prove_eq_ok (col : Collaborators F) (p : Prover F)
    (svs : SubspaceVOLESecrets F) (sc : Bytes) (wc : List (List F))
    (h1 : p.subspace_vole_secrets = some svs)
    (h2 : p.seed_commitment = some sc)
    (h3 : p.witness_comm = some wc) :
    Prover.prove col p = Except.ok (prove_result col p svs sc wc) := by
  simp only [Prover.prove, h1, h2, h3, Prover.s_matrix_with_consistency_proof]
  rfl

theorem commit_and_prove_eq_ok (col : Collaborators F) (p : Prover F)
    (seeds : List (Bytes × Bytes))
    (h1 : p.num_voles % p.code.q = 0)
    (h2 : (transposeM (mkvole_u_cols col p seeds)).length % 2 = 0)
    (h3 : (transposeM (mkvole_v_cols col p seeds)).length % 2 = 0) :
    Prover.commit_and_prove col p seeds =
      Except.ok
        ({ commitment := mkvole_commitment col p seeds,
           proof := prove_result col (mkvole_state col p seeds)
             (mkvole_secrets col p seeds) (mkvole_seed_comm col seeds)
             (mkvole_witness_comm col p seeds) },
         mkvole_state col p seeds) := by
  simp only [Prover.commit_and_prove, mkvole_eq_ok col p seeds h1 h2 h3,
    prove_eq_ok col (mkvole_state col p seeds) (mkvole_secrets col p seeds)
      (mkvole_seed_comm col seeds) (mkvole_witness_comm col p seeds) rfl rfl rfl]

end ActorSpecLemmas

section ClaimC6C8

variable {F : Type} [CommRing F] [DecidableEq F]

/-- Counterexample to claim C6 as stated: in the commitment emitted by a
concrete honest Prover::mkvole run, the first component of consistency_check
is not h dotted with the columns of V (it is the U hash; the V hash is the
second component). -/
theorem consistency_check_order_counterexample :
    Prover.mkvole wcol wpro wseeds =
      Except.ok (mkvole_commitment wcol wpro wseeds, mkvole_state wcol wpro wseeds) ∧
    (mkvole_commitment wcol wpro wseeds).consistency_check.1 ≠
      vec_times_matrix
        (wcol.challenge_from_seed (mkvole_commitment wcol wpro wseeds).seed_comm
          domain_vole_consistency wpro.vole_length)
        (mkvole_v_cols wcol wpro wseeds) := by
  constructor
  · exact mkvole_eq_ok wcol wpro wseeds (by decide) (by decide) (by decide)
  · decide

/-- Claim C6, amended: the consistency_check pair emitted by Prover::mkvole
is ordered (U_hash, V_hash): its first component is the challenge vector h
dotted with the columns of the corrected U, and its second component is h
dotted with the columns of V. -/
theorem mkvole_consistency_check_order (col : Collaborators F) (p : Prover F)
    (seeds : List (Bytes × Bytes))
    (h1 : p.num_voles % p.code.q = 0)
    (h2 : (transposeM (mkvole_u_cols col p seeds)).length % 2 = 0)
    (h3 : (transposeM (mkvole_v_cols col p seeds)).length % 2 = 0) :
    ∃ comm : ProverCommitment F, ∃ p2 : Prover F,
      Prover.mkvole col p seeds = Except.ok (comm, p2) ∧
      comm.consistency_check.1 =
        vec_times_matrix
          (col.challenge_from_seed comm.seed_comm domain_vole_consistency p.vole_length)
          (transposeM (mkvole_u_rows col p seeds)) ∧
      comm.consistency_check.2 =
        vec_times_matrix
          (col.challenge_from_seed comm.seed_comm domain_vole_consistency p.vole_length)
          (mkvole_v_cols col p seeds) :=
  ⟨mkvole_commitment col p seeds, mkvole_state col p seeds,
    mkvole_eq_ok col p seeds h1 h2 h3, rfl, rfl⟩

theorem mkvole_consistency_check_order_witness :
    wpro.num_voles % wpro.code.q = 0 ∧
    (transposeM (mkvole_u_cols wcol wpro wseeds)).length % 2 = 0 ∧
    (transposeM (mkvole_v_cols wcol wpro wseeds)).length % 2 = 0 ∧
    (∃ comm : ProverCommitment Fw, ∃ p2 : Prover Fw,
      Prover.mkvole wcol wpro wseeds = Except.ok (comm, p2) ∧
      comm.consistency_check.1 =
        vec_times_matrix
          (wcol.challenge_from_seed comm.seed_comm domain_vole_consistency
            wpro.vole_length)
          (transposeM (mkvole_u_rows wcol wpro wseeds)) ∧
      comm.consistency_check.2 =
        vec_times_matrix
          (wcol.challenge_from_seed comm.seed_comm domain_vole_consistency
            wpro.vole_length)
          (mkvole_v_cols wcol wpro wseeds)) :=
  ⟨by decide, by decide, by decide,
   mkvole_consistency_check_order wcol wpro wseeds (by decide) (by decide) (by decide)⟩

/-- Claim C8 (what the code actually does): after a successful
commit_and_prove — mkvole followed by prove — the returned prover state
still holds the full SubspaceVOLESecrets, seeds included; nothing is dropped
or zeroized after proof emission. -/
theorem secrets_retained_after_prove (col : Collaborators F) (p : Prover F)
    (seeds : List (Bytes × Bytes))
    (h1 : p.num_voles % p.code.q = 0)
    (h2 : (transposeM (mkvole_u_cols col p seeds)).length % 2 = 0)
    (h3 : (transposeM (mkvole_v_cols col p seeds)).length % 2 = 0) :
    ∃ cnp : CommitAndProof F, ∃ p2 : Prover F,
      Prover.commit_and_prove col p seeds = Except.ok (cnp, p2) ∧
      p2.subspace_vole_secrets = some (mkvole_secrets col p seeds) ∧
      (mkvole_secrets col p seeds).seeds = seeds :=
  ⟨_, _, commit_and_prove_eq_ok col p seeds h1 h2 h3, rfl, rfl⟩

theorem secrets_retained_after_prove_witness :
    wpro.num_voles % wpro.code.q = 0 ∧
    (transposeM (mkvole_u_cols wcol wpro wseeds)).length % 2 = 0 ∧
    (transposeM (mkvole_v_cols wcol wpro wseeds)).length % 2 = 0 ∧
    (∃ cnp : CommitAndProof Fw, ∃ p2 : Prover Fw,
      Prover.commit_and_prove wcol wpro wseeds = Except.ok (cnp, p2) ∧
      p2.subspace_vole_secrets = some (mkvole_secrets wcol wpro wseeds) ∧
      (mkvole_secrets wcol wpro wseeds).seeds = wseeds) :=
  ⟨by decide, by decide, by decide,
   secrets_retained_after_prove wcol wpro wseeds (by decide) (by decide) (by decide)⟩

end ClaimC6C8

section C1ListHelpers

variable {F : Type} [CommRing F] [DecidableEq F]

theorem getD_take {α : Type} (l : List α) (m i : Nat) (d : α) (h : i < m) :
    (l.take m).getD i d = l.getD i d := by
  rw [List.getD_eq_getElem?_getD, List.getD_eq_getElem?_getD,
    List.getElem?_take_of_lt h]

theorem getD_drop {α : Type} (l : List α) (m i : Nat) (d : α) :
    (l.drop m).getD i d = l.getD (m + i) d := by
  rw [List.getD_eq_getElem?_getD, List.getD_eq_getElem?_getD,
    List.getElem?_drop]

theorem map_range_getD {α β : Type} (l : List α) (d : α) (f : α → β) :
    (List.range l.length).map (fun i => f (l.getD i d)) = l.map f := by
  apply List.ext_getElem
  · simp
  · intro i h1 h2
    simp only [List.getElem_map, List.getElem_range]
    congr 1
    rw [List.getD_eq_getElem _ _ (by simpa using h2)]

theorem length_fNeg (a : List F) : (fNeg a).length = a.length :=
  List.length_map _ _

theorem getD_fNeg (a : List F) (i : Nat) (hi : i < a.length) :
    (fNeg a).getD i 0 = -(a.getD i 0) := by
  rw [fNeg, getD_map_lt _ _ i hi 0 0]

theorem length_transposeM (m : List (List F)) :
    (transposeM m).length = (m.headD []).length := by
  simp [transposeM]

theorem getD_transposeM (m : List (List F)) (j : Nat)
    (hj : j < (m.headD []).length) :
    (transposeM m).getD j [] = m.map (fun row => row.getD j 0) := by
  rw [transposeM, getD_map_range _ _ j hj]

theorem transposeM_row_length (m : List (List F)) :
    ∀ r ∈ transposeM m, r.length = m.length := by
  intro r hr
  rw [transposeM] at hr
  obtain ⟨i, _, rfl⟩ := List.mem_map.mp hr
  simp

theorem length_vec_times_matrix (v : List F) (m : List (List F)) :
    (vec_times_matrix v m).length = m.length :=
  List.length_map _ _

theorem getD_vec_times_matrix (v : List F) (m : List (List F)) (j : Nat)
    (hj : j < m.length) :
    (vec_times_matrix v m).getD j 0 = dot v (m.getD j []) := by
  rw [vec_times_matrix, getD_map_lt _ _ j hj 0 []]

theorem transposeM_col (m : List (List F)) (j : Nat) (hj : j < m.length)
    (hwj : (m.getD j []).length = (m.headD []).length) :
    (transposeM m).map (fun row => row.getD j 0) = m.getD j [] := by
  rw [transposeM, List.map_map]
  have h1 : ((fun (row : List F) => row.getD j 0) ∘
      fun i => m.map (fun row => row.getD i 0)) =
      (fun i => (m.getD j []).getD i 0) := by
    funext i
    show (m.map (fun row => row.getD i 0)).getD j 0 = (m.getD j []).getD i 0
    rw [getD_map_lt _ _ j hj 0 []]
  rw [h1, ← hwj]
  have h2 := map_range_getD (m.getD j []) (0 : F) (fun x => x)
  simpa using h2

theorem vec_times_matrix_transposeM (ch : List F) (M : List (List F)) (w : Nat)
    (h0 : (M.headD []).length = w) (hw : ∀ r ∈ M, r.length = w) :
    vec_times_matrix ch (transposeM M) = lin_comb ch M w := by
  apply list_ext_getD
  · rw [length_vec_times_matrix, length_transposeM, h0,
      length_lin_comb ch M w hw]
  · intro j hj
    rw [length_vec_times_matrix, length_transposeM, h0] at hj
    rw [getD_vec_times_matrix ch _ j (by rw [length_transposeM, h0]; exact hj),
      getD_transposeM M j (by rw [h0]; exact hj),
      getD_lin_comb ch M w j hw hj]

theorem getD_flatten_uniform (M : List (List F)) (k : Nat) (hk : 0 < k)
    (hw : ∀ r ∈ M, r.length = k) (i : Nat) (hi : i < M.length * k) :
    M.flatten.getD i 0 = (M.getD (i / k) []).getD (i % k) 0 := by
  induction M generalizing i with
  | nil => simp at hi
  | cons r rest ih =>
    have hr : r.length = k := hw r (List.mem_cons_self _ _)
    have hrest : ∀ x ∈ rest, x.length = k :=
      fun x hx => hw x (List.mem_cons_of_mem _ hx)
    rw [List.flatten_cons]
    by_cases hik : i < k
    · rw [List.getD_append _ _ _ _ (by rw [hr]; exact hik),
        Nat.div_eq_of_lt hik, Nat.mod_eq_of_lt hik, List.getD_cons_zero]
    · push_neg at hik
      rw [List.getD_append_right _ _ _ _ (by rw [hr]; exact hik), hr,
        Nat.div_eq_sub_div hk hik, Nat.mod_eq_sub_mod hik,
        List.getD_cons_succ]
      apply ih hrest
      have hmul : (rest.length + 1) * k = rest.length * k + k := by
        rw [Nat.add_mul, Nat.one_mul]
      rw [List.length_cons, hmul] at hi
      omega

theorem sum_map_add {α : Type} (l : List α) (f g : α → F) :
    (l.map (fun x => f x + g x)).sum = (l.map f).sum + (l.map g).sum := by
  induction l with
  | nil => simp
  | cons a l ih =>
    simp only [List.map_cons, List.sum_cons, ih]
    ring

theorem sum_map_mul_right {α : Type} (l : List α) (c : F) (f : α → F) :
    (l.map (fun x => f x * c)).sum = (l.map f).sum * c := by
  induction l with
  | nil => simp
  | cons a l ih =>
    simp only [List.map_cons, List.sum_cons, ih]
    ring

theorem geom_weighted_map_range (gamma : F) (n : Nat) (f : Nat → F) :
    geom_weighted gamma ((List.range n).map f) =
      ((List.range n).map (fun j => gamma ^ j * f j)).sum := by
  rw [geom_weighted, List.length_map, List.length_range,
    List.zipWith_map_left, List.zipWith_same]

theorem fAdd_comm (a b : List F) : fAdd a b = fAdd b a := by
  induction a generalizing b with
  | nil => cases b <;> rfl
  | cons x xs ih =>
    cases b with
    | nil => rfl
    | cons y ys =>
      simp only [fAdd, List.zipWith_cons_cons]
      rw [show x + y = y + x by ring]
      have := ih ys
      simp only [fAdd] at this
      rw [this]

theorem scalar_mul_fAdd (a b : List F) (c : F) :
    scalar_mul (fAdd a b) c = fAdd (scalar_mul a c) (scalar_mul b c) := by
  induction a generalizing b with
  | nil => cases b <;> rfl
  | cons x xs ih =>
    cases b with
    | nil => rfl
    | cons y ys =>
      simp only [fAdd, scalar_mul, List.zipWith_cons_cons, List.map_cons]
      rw [show (x + y) * c = x * c + y * c by ring]
      have := ih ys
      simp only [fAdd, scalar_mul] at this
      rw [this]

theorem fAdd_replicate_zero_self (w : Nat) :
    fAdd (List.replicate w (0 : F)) (List.replicate w 0) =
      List.replicate w 0 :=
  fAdd_replicate_zero_right _ _ (by rw [List.length_replicate])

theorem lin_comb_mat_add (ch : List F) (A B : List (List F)) (w : Nat)
    (hlen : A.length = B.length) :
    lin_comb ch (mat_add A B) w =
      fAdd (lin_comb ch A w) (lin_comb ch B w) := by
  induction ch generalizing A B with
  | nil =>
    rw [lin_comb_nil_left, lin_comb_nil_left, lin_comb_nil_left,
      fAdd_replicate_zero_self]
  | cons c0 ch ih =>
    cases A with
    | nil =>
      cases B with
      | nil =>
        rw [show mat_add ([] : List (List F)) [] = [] from rfl,
          lin_comb_nil_right]
        exact (fAdd_replicate_zero_self w).symm
      | cons _ _ => simp at hlen
    | cons a A' =>
      cases B with
      | nil => simp at hlen
      | cons b B' =>
        rw [show mat_add (a :: A') (b :: B') = fAdd a b :: mat_add A' B'
          from rfl, lin_comb_cons, lin_comb_cons, lin_comb_cons,
          scalar_mul_fAdd, ih A' B' (by simpa using hlen), fAdd_interchange]

end C1ListHelpers

section VerifyEqOk

variable {F : Type} [CommRing F] [DecidableEq F]

theorem verify_eq_ok (col : Collaborators F) (v : Verifier F)
    (cnp : CommitAndProof F)
    (h1 : commit_seed_commitments col.H (verify_recs col v cnp) =
      cnp.commitment.seed_comm)
    (h2 : verify_consistency_check v.code
      (col.challenge_from_seed cnp.commitment.seed_comm domain_vole_consistency
        v.vole_length)
      cnp.commitment.consistency_check (verify_deltas col v cnp)
      (transposeM (verify_new_q_rows col v cnp)) = true)
    (h3 : fvec_eq (verify_lhs col v cnp) (verify_rhs col v cnp) = true)
    (h4 : qs_verify (verify_qtags col v cnp)
      (verify_challenges col v cnp).vith_delta v.circuit.r1cs
      (col.calc_quicksilver_challenge cnp.commitment.seed_comm
        cnp.commitment.witness_comm) cnp.proof.zkp = true)
    (h5 : qs_verify_public (verify_qtags col v cnp)
      (verify_challenges col v cnp).vith_delta v.circuit
      cnp.proof.public_openings = true) :
    Verifier.verify col v cnp =
      Except.ok (PublicOpenings.u_values cnp.proof.public_openings) := by
  rw [Verifier.verify, if_neg (fun hne => hne h1),
    if_neg (fun hne => hne h2), if_neg (fun hne => hne h3),
    if_neg (fun hne => hne h4), if_neg (fun hne => hne h5)]

end VerifyEqOk

section HonestRunStructure

variable {F : Type} [CommRing F] [DecidableEq F]

theorem rows_getD_length (M : List (List F)) (w : Nat)
    (h : ∀ r ∈ M, r.length = w) (i : Nat) (hi : i < M.length) :
    (M.getD i []).length = w := by
  apply h
  rw [List.getD_eq_getElem _ _ hi]
  exact List.getElem_mem hi

theorem fromw_num_voles (code : RAAACode) (witness : List F)
    (circuit : R1CSWithMetadata F) :
    (Prover.from_witness_and_circuit_unpadded code witness circuit).num_voles =
      code.n := rfl

theorem fromw_code (code : RAAACode) (witness : List F)
    (circuit : R1CSWithMetadata F) :
    (Prover.from_witness_and_circuit_unpadded code witness circuit).code =
      code := rfl

theorem fromw_vole_length (code : RAAACode) (witness : List F)
    (circuit : R1CSWithMetadata F) :
    (Prover.from_witness_and_circuit_unpadded code witness circuit).vole_length =
      2 * ((circuit.calc_padding_needed code.k).num_padded_wtns_rows + 1) := rfl

theorem fromw_circuit (code : RAAACode) (witness : List F)
    (circuit : R1CSWithMetadata F) :
    (Prover.from_witness_and_circuit_unpadded code witness circuit).circuit =
      circuit := rfl

theorem fromw_witness (code : RAAACode) (witness : List F)
    (circuit : R1CSWithMetadata F) :
    (Prover.from_witness_and_circuit_unpadded code witness circuit).witness =
      (List.range (circuit.calc_padding_needed code.k).num_padded_wtns_rows).map
        (fun i => ((zero_pad witness
          (circuit.calc_padding_needed code.k).pad_len).drop (code.k * i)).take
            code.k) := rfl

theorem fromc_vole_length (code : RAAACode) (circuit : R1CSWithMetadata F) :
    (Verifier.from_circuit code circuit).vole_length =
      2 * ((circuit.calc_padding_needed code.k).num_padded_wtns_rows + 1) := rfl

theorem fromc_num_voles (code : RAAACode) (circuit : R1CSWithMetadata F) :
    (Verifier.from_circuit code circuit).num_voles = code.n := rfl

theorem fromc_code (code : RAAACode) (circuit : R1CSWithMetadata F) :
    (Verifier.from_circuit code circuit).code = code := rfl

theorem fromc_circuit (code : RAAACode) (circuit : R1CSWithMetadata F) :
    (Verifier.from_circuit code circuit).circuit = circuit := rfl

theorem length_mkvole_u_cols (col : Collaborators F) (p : Prover F)
    (seeds : List (Bytes × Bytes)) :
    (mkvole_u_cols col p seeds).length = seeds.length := by
  simp [mkvole_u_cols]

theorem length_mkvole_v_cols (col : Collaborators F) (p : Prover F)
    (seeds : List (Bytes × Bytes)) :
    (mkvole_v_cols col p seeds).length = seeds.length := by
  simp [mkvole_v_cols]

theorem getD_mkvole_u_cols (col : Collaborators F) (p : Prover F)
    (seeds : List (Bytes × Bytes)) (j : Nat) (hj : j < seeds.length) :
    (mkvole_u_cols col p seeds).getD j [] =
      fNeg (fAdd (col.expand (seeds.getD j ([], [])).1 p.vole_length)
        (col.expand (seeds.getD j ([], [])).2 p.vole_length)) := by
  rw [mkvole_u_cols,
    getD_map_lt _ _ j (by simpa using hj) []
      ({ u := [], v := [] } : ProverSmallVOLEOutputs F),
    getD_map_lt _ _ j hj _ ([], [])]
  rfl

theorem getD_mkvole_v_cols (col : Collaborators F) (p : Prover F)
    (seeds : List (Bytes × Bytes)) (j : Nat) (hj : j < seeds.length) :
    (mkvole_v_cols col p seeds).getD j [] =
      col.expand (seeds.getD j ([], [])).1 p.vole_length := by
  rw [mkvole_v_cols,
    getD_map_lt _ _ j (by simpa using hj) []
      ({ u := [], v := [] } : ProverSmallVOLEOutputs F),
    getD_map_lt _ _ j hj _ ([], [])]
  rfl

theorem length_getD_mkvole_u_cols (col : Collaborators F) (p : Prover F)
    (seeds : List (Bytes × Bytes)) (hcol : CollabWF col) (j : Nat)
    (hj : j < seeds.length) :
    ((mkvole_u_cols col p seeds).getD j []).length = p.vole_length := by
  rw [getD_mkvole_u_cols col p seeds j hj, length_fNeg, length_fAdd,
    hcol.1, hcol.1, min_self]

theorem length_getD_mkvole_v_cols (col : Collaborators F) (p : Prover F)
    (seeds : List (Bytes × Bytes)) (hcol : CollabWF col) (j : Nat)
    (hj : j < seeds.length) :
    ((mkvole_v_cols col p seeds).getD j []).length = p.vole_length := by
  rw [getD_mkvole_v_cols col p seeds j hj, hcol.1]

theorem length_transposeM_mkvole_u_cols (col : Collaborators F) (p : Prover F)
    (seeds : List (Bytes × Bytes)) (hcol : CollabWF col)
    (hne : 0 < seeds.length) :
    (transposeM (mkvole_u_cols col p seeds)).length = p.vole_length := by
  rw [length_transposeM, headD_eq_getD]
  exact length_getD_mkvole_u_cols col p seeds hcol 0 hne

theorem length_transposeM_mkvole_v_cols (col : Collaborators F) (p : Prover F)
    (seeds : List (Bytes × Bytes)) (hcol : CollabWF col)
    (hne : 0 < seeds.length) :
    (transposeM (mkvole_v_cols col p seeds)).length = p.vole_length := by
  rw [length_transposeM, headD_eq_getD]
  exact length_getD_mkvole_v_cols col p seeds hcol 0 hne

theorem length_mkvole_u_rows_eq (col : Collaborators F) (p : Prover F)
    (seeds : List (Bytes × Bytes)) (hcol : CollabWF col)
    (hne : 0 < seeds.length) :
    (mkvole_u_rows col p seeds).length = p.vole_length := by
  rw [length_mkvole_u_rows]
  exact length_transposeM_mkvole_u_cols col p seeds hcol hne

theorem mem_mkvole_u_rows_length (col : Collaborators F) (p : Prover F)
    (seeds : List (Bytes × Bytes)) (hc : CodeWF p.code)
    (hs : seeds.length = p.code.n) :
    ∀ r ∈ mkvole_u_rows col p seeds, r.length = p.code.k := by
  intro r hr
  rw [mkvole_u_rows, get_prover_correction] at hr
  simp only [mul_matrix_by_extended_inverse, List.map_map, List.mem_map] at hr
  obtain ⟨r', hr', rfl⟩ := hr
  have h1 : r'.length = p.code.n := by
    rw [transposeM_row_length _ r' hr', length_mkvole_u_cols, hs]
  show ((mul_vec_by_extended_inverse p.code r').take p.code.k).length = p.code.k
  rw [List.length_take, length_mul_vec_by_extended_inverse p.code hc r' h1]
  have : p.code.k ≤ p.code.n := Nat.div_le_self _ _
  omega

theorem mem_mkvole_v_rows_length (col : Collaborators F) (p : Prover F)
    (seeds : List (Bytes × Bytes)) :
    ∀ r ∈ mkvole_v_rows col p seeds, r.length = seeds.length := by
  intro r hr
  rw [mkvole_v_rows] at hr
  rw [transposeM_row_length _ r hr, length_mkvole_v_cols]

end HonestRunStructure

section HonestCnpEquations

variable {F : Type} [CommRing F] [DecidableEq F]

theorem honest_cnp_seed_comm (col : Collaborators F) (code : RAAACode)
    (witness : List F) (circuit : R1CSWithMetadata F)
    (seeds : List (Bytes × Bytes)) :
    (honest_cnp col code witness circuit seeds).commitment.seed_comm =
      mkvole_seed_comm col seeds := rfl

theorem honest_cnp_witness_comm (col : Collaborators F) (code : RAAACode)
    (witness : List F) (circuit : R1CSWithMetadata F)
    (seeds : List (Bytes × Bytes)) :
    (honest_cnp col code witness circuit seeds).commitment.witness_comm =
      mkvole_witness_comm col
        (Prover.from_witness_and_circuit_unpadded code witness circuit) seeds := rfl

theorem honest_cnp_correction (col : Collaborators F) (code : RAAACode)
    (witness : List F) (circuit : R1CSWithMetadata F)
    (seeds : List (Bytes × Bytes)) :
    (honest_cnp col code witness circuit seeds).commitment.subspace_vole_correction =
      mkvole_correction col
        (Prover.from_witness_and_circuit_unpadded code witness circuit) seeds := rfl

theorem honest_cnp_consistency (col : Collaborators F) (code : RAAACode)
    (witness : List F) (circuit : R1CSWithMetadata F)
    (seeds : List (Bytes × Bytes)) :
    (honest_cnp col code witness circuit seeds).commitment.consistency_check =
      calc_consistency_check
        (col.challenge_from_seed (mkvole_seed_comm col seeds)
          domain_vole_consistency
          (Prover.from_witness_and_circuit_unpadded code witness circuit).vole_length)
        (transposeM (mkvole_u_rows col
          (Prover.from_witness_and_circuit_unpadded code witness circuit) seeds))
        (mkvole_v_cols col
          (Prover.from_witness_and_circuit_unpadded code witness circuit) seeds) := rfl

theorem honest_cnp_zkp (col : Collaborators F) (code : RAAACode)
    (witness : List F) (circuit : R1CSWithMetadata F)
    (seeds : List (Bytes × Bytes)) :
    (honest_cnp col code witness circuit seeds).proof.zkp =
      qs_prove
        (Prover.from_witness_and_circuit_unpadded code witness circuit).witness
        (mkvole_secrets col
          (Prover.from_witness_and_circuit_unpadded code witness circuit) seeds).u2
        (Prover.from_witness_and_circuit_unpadded code witness circuit).circuit.r1cs
        (col.calc_quicksilver_challenge (mkvole_seed_comm col seeds)
          (mkvole_witness_comm col
            (Prover.from_witness_and_circuit_unpadded code witness circuit) seeds)) :=
  rfl

theorem honest_cnp_po (col : Collaborators F) (code : RAAACode)
    (witness : List F) (circuit : R1CSWithMetadata F)
    (seeds : List (Bytes × Bytes)) :
    (honest_cnp col code witness circuit seeds).proof.public_openings =
      { public_inputs := qs_open_public
          (Prover.from_witness_and_circuit_unpadded code witness circuit).witness.flatten
          (mkvole_secrets col
            (Prover.from_witness_and_circuit_unpadded code witness circuit) seeds).u2.flatten
          (Prover.from_witness_and_circuit_unpadded code witness circuit).circuit.public_inputs_indices,
        public_outputs := qs_open_public
          (Prover.from_witness_and_circuit_unpadded code witness circuit).witness.flatten
          (mkvole_secrets col
            (Prover.from_witness_and_circuit_unpadded code witness circuit) seeds).u2.flatten
          (Prover.from_witness_and_circuit_unpadded code witness circuit).circuit.public_outputs_indices } :=
  rfl

theorem honest_cnp_smatrix (col : Collaborators F) (code : RAAACode)
    (witness : List F) (circuit : R1CSWithMetadata F)
    (seeds : List (Bytes × Bytes)) :
    (honest_cnp col code witness circuit seeds).proof.s_matrix =
      mat_add
        (mat_scalar_mul
          (mkvole_secrets col
            (Prover.from_witness_and_circuit_unpadded code witness circuit) seeds).u1
          (verify_challenges col (Verifier.from_circuit code circuit)
            (honest_cnp col code witness circuit seeds)).vith_delta)
        (mkvole_secrets col
          (Prover.from_witness_and_circuit_unpadded code witness circuit) seeds).u2 :=
  rfl

theorem honest_cnp_scc (col : Collaborators F) (code : RAAACode)
    (witness : List F) (circuit : R1CSWithMetadata F)
    (seeds : List (Bytes × Bytes)) :
    (honest_cnp col code witness circuit seeds).proof.s_consistency_check =
      vec_times_matrix
        (verify_challenges col (Verifier.from_circuit code circuit)
          (honest_cnp col code witness circuit seeds)).s_challenge
        (transposeM (mat_add
          (mat_scalar_mul
            (mkvole_secrets col
              (Prover.from_witness_and_circuit_unpadded code witness circuit) seeds).v1
            (verify_challenges col (Verifier.from_circuit code circuit)
              (honest_cnp col code witness circuit seeds)).vith_delta)
          (mkvole_secrets col
            (Prover.from_witness_and_circuit_unpadded code witness circuit) seeds).v2)) :=
  rfl

theorem honest_cnp_opens (col : Collaborators F) (code : RAAACode)
    (witness : List F) (circuit : R1CSWithMetadata F)
    (seeds : List (Bytes × Bytes)) :
    (honest_cnp col code witness circuit seeds).proof.seed_openings.seed_opens =
      (List.range seeds.length).map (fun i =>
        pair_get (seeds.getD i ([], []))
          ((verify_challenges col (Verifier.from_circuit code circuit)
            (honest_cnp col code witness circuit seeds)).delta_choices.getD i 0)) :=
  rfl

theorem honest_cnp_proofs (col : Collaborators F) (code : RAAACode)
    (witness : List F) (circuit : R1CSWithMetadata F)
    (seeds : List (Bytes × Bytes)) :
    (honest_cnp col code witness circuit seeds).proof.seed_openings.seed_proofs =
      (List.range seeds.length).map (fun i =>
        proof_for_revealed_seed col.H
          (pair_get (seeds.getD i ([], []))
            (1 - (verify_challenges col (Verifier.from_circuit code circuit)
              (honest_cnp col code witness circuit seeds)).delta_choices.getD i 0))) :=
  rfl

end HonestCnpEquations

section VerifyColumnFacts

variable {F : Type} [CommRing F] [DecidableEq F]

theorem length_verify_vole_outs (col : Collaborators F) (v : Verifier F)
    (cnp : CommitAndProof F) :
    (verify_vole_outs col v cnp).length = v.num_voles := by
  simp [verify_vole_outs]

theorem length_verify_q_cols (col : Collaborators F) (v : Verifier F)
    (cnp : CommitAndProof F) :
    (verify_q_cols col v cnp).length = v.num_voles := by
  simp [verify_q_cols, verify_vole_outs]

theorem length_verify_deltas (col : Collaborators F) (v : Verifier F)
    (cnp : CommitAndProof F) :
    (verify_deltas col v cnp).length = v.num_voles := by
  simp [verify_deltas, verify_vole_outs]

theorem verify_recs_of_honest_openings (col : Collaborators F) (v : Verifier F)
    (cnp : CommitAndProof F) (seeds : List (Bytes × Bytes))
    (hnv : v.num_voles = seeds.length)
    (hopens : cnp.proof.seed_openings.seed_opens =
      (List.range seeds.length).map (fun i =>
        pair_get (seeds.getD i ([], []))
          ((verify_challenges col v cnp).delta_choices.getD i 0)))
    (hproofs : cnp.proof.seed_openings.seed_proofs =
      (List.range seeds.length).map (fun i =>
        proof_for_revealed_seed col.H
          (pair_get (seeds.getD i ([], []))
            (1 - (verify_challenges col v cnp).delta_choices.getD i 0))))
    (hdle : ∀ i, (verify_challenges col v cnp).delta_choices.getD i 0 ≤ 1) :
    verify_recs col v cnp = seeds.map (fun s => commit_seeds col.H s.1 s.2) := by
  rw [verify_recs, hnv]
  have hpt : ∀ i ∈ List.range seeds.length,
      reconstruct_commitment col.H
        (cnp.proof.seed_openings.seed_opens.getD i [])
        (decide ((verify_challenges col v cnp).delta_choices.getD i 0 ≠ 0))
        (cnp.proof.seed_openings.seed_proofs.getD i []) =
      commit_seeds col.H (seeds.getD i ([], [])).1 (seeds.getD i ([], [])).2 := by
    intro i hi
    have hi2 : i < seeds.length := List.mem_range.mp hi
    rw [hopens, hproofs, getD_map_range _ _ i hi2, getD_map_range _ _ i hi2]
    have hdc : (verify_challenges col v cnp).delta_choices.getD i 0 = 0 ∨
        (verify_challenges col v cnp).delta_choices.getD i 0 = 1 := by
      have := hdle i
      omega
    rcases hdc with hdc | hdc <;> rw [hdc] <;> rfl
  rw [List.map_congr_left hpt]
  exact map_range_getD seeds ([], []) (fun s => commit_seeds col.H s.1 s.2)

theorem verify_column_correlation (col : Collaborators F) (v : Verifier F)
    (cnp : CommitAndProof F) (p : Prover F) (seeds : List (Bytes × Bytes))
    (hcol : CollabWF col)
    (hnv : v.num_voles = seeds.length) (hvl : v.vole_length = p.vole_length)
    (hopens : cnp.proof.seed_openings.seed_opens =
      (List.range seeds.length).map (fun i =>
        pair_get (seeds.getD i ([], []))
          ((verify_challenges col v cnp).delta_choices.getD i 0)))
    (hdle : ∀ i, (verify_challenges col v cnp).delta_choices.getD i 0 ≤ 1)
    (j : Nat) (hj : j < seeds.length) :
    ((verify_q_cols col v cnp).getD j []).length = p.vole_length ∧
    ∀ i, i < p.vole_length →
      ((verify_q_cols col v cnp).getD j []).getD i 0 =
        ((mkvole_u_cols col p seeds).getD j []).getD i 0 *
          (verify_deltas col v cnp).getD j 0 +
        ((mkvole_v_cols col p seeds).getD j []).getD i 0 := by
  have hjn : j < v.num_voles := by rw [hnv]; exact hj
  have houts : (verify_vole_outs col v cnp).getD j
      ({ delta := 0, q := [] } : VerifierSmallVOLEOutputs F) =
      vole_verifier_outputs (F := F) col.expand
        (pair_get (seeds.getD j ([], []))
          ((verify_challenges col v cnp).delta_choices.getD j 0))
        (decide ((verify_challenges col v cnp).delta_choices.getD j 0 = 0))
        v.vole_length := by
    rw [verify_vole_outs, getD_map_range _ _ j hjn, hopens,
      getD_map_range _ _ j hj]
  have hq : (verify_q_cols col v cnp).getD j [] =
      (vole_verifier_outputs (F := F) col.expand
        (pair_get (seeds.getD j ([], []))
          ((verify_challenges col v cnp).delta_choices.getD j 0))
        (decide ((verify_challenges col v cnp).delta_choices.getD j 0 = 0))
        v.vole_length).q := by
    rw [verify_q_cols, getD_map_lt _ _ j
      (by rw [length_verify_vole_outs]; exact hjn) []
      ({ delta := 0, q := [] } : VerifierSmallVOLEOutputs F), houts]
  have hdelta : (verify_deltas col v cnp).getD j 0 =
      (vole_verifier_outputs (F := F) col.expand
        (pair_get (seeds.getD j ([], []))
          ((verify_challenges col v cnp).delta_choices.getD j 0))
        (decide ((verify_challenges col v cnp).delta_choices.getD j 0 = 0))
        v.vole_length).delta := by
    rw [verify_deltas, getD_map_lt _ _ j
      (by rw [length_verify_vole_outs]; exact hjn) 0
      ({ delta := 0, q := [] } : VerifierSmallVOLEOutputs F), houts]
  have hdc : (verify_challenges col v cnp).delta_choices.getD j 0 = 0 ∨
      (verify_challenges col v cnp).delta_choices.getD j 0 = 1 := by
    have := hdle j
    omega
  rcases hdc with hdc | hdc
  · rw [hdc] at hq hdelta
    have hred : vole_verifier_outputs (F := F) col.expand
        (pair_get (seeds.getD j ([], [])) 0) (decide ((0 : Nat) = 0))
        v.vole_length =
        { delta := 0, q := col.expand (seeds.getD j ([], [])).1 v.vole_length } :=
      rfl
    rw [hred] at hq hdelta
    constructor
    · rw [hq]
      show (col.expand (seeds.getD j ([], [])).1 v.vole_length).length = _
      rw [hcol.1, hvl]
    · intro i hi
      rw [hq, hdelta, getD_mkvole_v_cols col p seeds j hj]
      show (col.expand (seeds.getD j ([], [])).1 v.vole_length).getD i 0 =
        _ * (0 : F) + (col.expand (seeds.getD j ([], [])).1 p.vole_length).getD i 0
      rw [hvl, mul_zero, zero_add]
  · rw [hdc] at hq hdelta
    have hred : vole_verifier_outputs (F := F) col.expand
        (pair_get (seeds.getD j ([], [])) 1) (decide ((1 : Nat) = 0))
        v.vole_length =
        { delta := 1,
          q := fNeg (col.expand (seeds.getD j ([], [])).2 v.vole_length) } :=
      rfl
    rw [hred] at hq hdelta
    constructor
    · rw [hq]
      show (fNeg (col.expand (seeds.getD j ([], [])).2 v.vole_length)).length = _
      rw [length_fNeg, hcol.1, hvl]
    · intro i hi
      rw [hq, hdelta, getD_mkvole_v_cols col p seeds j hj,
        getD_mkvole_u_cols col p seeds j hj]
      show (fNeg (col.expand (seeds.getD j ([], [])).2 v.vole_length)).getD i 0 =
        (fNeg (fAdd (col.expand (seeds.getD j ([], [])).1 p.vole_length)
          (col.expand (seeds.getD j ([], [])).2 p.vole_length))).getD i 0 *
          (1 : F) +
        (col.expand (seeds.getD j ([], [])).1 p.vole_length).getD i 0
      rw [getD_fNeg _ i (by rw [hcol.1, hvl]; exact hi),
        getD_fNeg _ i (by rw [length_fAdd, hcol.1, hcol.1, min_self]; exact hi),
        getD_fAdd _ _ i (by rw [hcol.1]; exact hi) (by rw [hcol.1]; exact hi),
        hvl]
      ring

end VerifyColumnFacts

section HonestCond1AndCorrelation

variable {F : Type} [CommRing F] [DecidableEq F]

theorem length_correct_verifier_qs (c : RAAACode) (Q : List (List F))
    (deltas : List F) (C : List (List F)) :
    (correct_verifier_qs c Q deltas C).length = Q.length := by
  simp [correct_verifier_qs, batch_encode_extended]

theorem honest_dcs_length (col : Collaborators F) (code : RAAACode)
    (witness : List F) (circuit : R1CSWithMetadata F)
    (seeds : List (Bytes × Bytes)) (hcol : CollabWF col) :
    (verify_challenges col (Verifier.from_circuit code circuit)
      (honest_cnp col code witness circuit seeds)).delta_choices.length =
      code.n :=
  (hcol.2.2 _ _ _ _ _ _).1

theorem honest_dcs_le (col : Collaborators F) (code : RAAACode)
    (witness : List F) (circuit : R1CSWithMetadata F)
    (seeds : List (Bytes × Bytes)) (hcol : CollabWF col) :
    ∀ i, (verify_challenges col (Verifier.from_circuit code circuit)
      (honest_cnp col code witness circuit seeds)).delta_choices.getD i 0 ≤ 1 := by
  intro i
  by_cases hi : i < (verify_challenges col (Verifier.from_circuit code circuit)
      (honest_cnp col code witness circuit seeds)).delta_choices.length
  · rw [List.getD_eq_getElem _ _ hi]
    exact (hcol.2.2 _ _ _ _ _ _).2 _ (List.getElem_mem hi)
  · push_neg at hi
    rw [List.getD_eq_default _ _ hi]
    omega

theorem honest_cond1 (col : Collaborators F) (code : RAAACode)
    (witness : List F) (circuit : R1CSWithMetadata F)
    (seeds : List (Bytes × Bytes)) (hcol : CollabWF col)
    (hs : seeds.length = code.n) :
    commit_seed_commitments col.H
      (verify_recs col (Verifier.from_circuit code circuit)
        (honest_cnp col code witness circuit seeds)) =
      (honest_cnp col code witness circuit seeds).commitment.seed_comm := by
  rw [verify_recs_of_honest_openings col _ _ seeds
      (by rw [fromc_num_voles, hs])
      (honest_cnp_opens col code witness circuit seeds)
      (honest_cnp_proofs col code witness circuit seeds)
      (honest_dcs_le col code witness circuit seeds hcol),
    honest_cnp_seed_comm]
  rfl

theorem verify_new_q_rows_correlation (col : Collaborators F) (v : Verifier F)
    (cnp : CommitAndProof F) (p : Prover F) (seeds : List (Bytes × Bytes))
    (hcol : CollabWF col) (hc : CodeWF p.code)
    (hnv : v.num_voles = seeds.length) (hvl : v.vole_length = p.vole_length)
    (hcode : v.code = p.code)
    (hcorr : cnp.commitment.subspace_vole_correction =
      mkvole_correction col p seeds)
    (hopens : cnp.proof.seed_openings.seed_opens =
      (List.range seeds.length).map (fun i =>
        pair_get (seeds.getD i ([], []))
          ((verify_challenges col v cnp).delta_choices.getD i 0)))
    (hdle : ∀ i, (verify_challenges col v cnp).delta_choices.getD i 0 ≤ 1)
    (hs : seeds.length = p.code.n) (hn0 : 0 < seeds.length) :
    ∀ i, i < p.vole_length →
      (verify_new_q_rows col v cnp).getD i [] =
        fAdd (fMul (encode p.code ((mkvole_u_rows col p seeds).getD i []))
          (verify_deltas col v cnp)) ((mkvole_v_rows col p seeds).getD i []) := by
  have hUlen : (transposeM (mkvole_u_cols col p seeds)).length = p.vole_length :=
    length_transposeM_mkvole_u_cols col p seeds hcol hn0
  have hVlen : (mkvole_v_rows col p seeds).length = p.vole_length := by
    rw [mkvole_v_rows]
    exact length_transposeM_mkvole_v_cols col p seeds hcol hn0
  have hq0len : ∀ j, j < seeds.length →
      ((verify_q_cols col v cnp).getD j []).length = p.vole_length :=
    fun j hj => (verify_column_correlation col v cnp p seeds hcol hnv hvl
      hopens hdle j hj).1
  have hQlen : (transposeM (verify_q_cols col v cnp)).length = p.vole_length := by
    rw [length_transposeM, headD_eq_getD]
    exact hq0len 0 hn0
  have hUw : ∀ r ∈ transposeM (mkvole_u_cols col p seeds), r.length = p.code.n := by
    intro r hr
    rw [transposeM_row_length _ r hr, length_mkvole_u_cols, hs]
  have hVw : ∀ r ∈ mkvole_v_rows col p seeds, r.length = p.code.n := by
    intro r hr
    rw [mem_mkvole_v_rows_length col p seeds r hr, hs]
  have hd : (verify_deltas col v cnp).length = p.code.n := by
    rw [length_verify_deltas, hnv, hs]
  have hQrel : ∀ i, i < (transposeM (mkvole_u_cols col p seeds)).length →
      (transposeM (verify_q_cols col v cnp)).getD i [] =
        fAdd (fMul ((transposeM (mkvole_u_cols col p seeds)).getD i [])
          (verify_deltas col v cnp)) ((mkvole_v_rows col p seeds).getD i []) := by
    intro i hi
    rw [hUlen] at hi
    have hhU : ((mkvole_u_cols col p seeds).headD []).length = p.vole_length := by
      rw [headD_eq_getD]
      exact length_getD_mkvole_u_cols col p seeds hcol 0 hn0
    have hhV : ((mkvole_v_cols col p seeds).headD []).length = p.vole_length := by
      rw [headD_eq_getD]
      exact length_getD_mkvole_v_cols col p seeds hcol 0 hn0
    have hhQ : ((verify_q_cols col v cnp).headD []).length = p.vole_length := by
      rw [headD_eq_getD]
      exact hq0len 0 hn0
    rw [getD_transposeM _ i (by rw [hhQ]; exact hi),
      getD_transposeM _ i (by rw [hhU]; exact hi),
      mkvole_v_rows, getD_transposeM _ i (by rw [hhV]; exact hi)]
    apply list_ext_getD
    · rw [List.length_map, length_fAdd, length_fMul, List.length_map,
        List.length_map, length_verify_q_cols, hnv, length_mkvole_u_cols,
        length_mkvole_v_cols, hd, hs]
      simp
    · intro j hj
      rw [List.length_map, length_verify_q_cols, hnv] at hj
      rw [getD_map_lt _ _ j (by rw [length_verify_q_cols, hnv]; exact hj) 0 [],
        getD_fAdd _ _ j
          (by rw [length_fMul, List.length_map, length_mkvole_u_cols, hd, hs,
            min_self]; exact hs ▸ hj)
          (by rw [List.length_map, length_mkvole_v_cols]; exact hj),
        getD_fMul _ _ j
          (by rw [List.length_map, length_mkvole_u_cols]; exact hj)
          (by rw [hd]; exact hs ▸ hj),
        getD_map_lt _ _ j (by rw [length_mkvole_u_cols]; exact hj) 0 [],
        getD_map_lt _ _ j (by rw [length_mkvole_v_cols]; exact hj) 0 []]
      exact (verify_column_correlation col v cnp p seeds hcol hnv hvl
        hopens hdle j hj).2 i hi
  intro i hi
  have hres := correlation_after_corrections p.code hc
    (transposeM (mkvole_u_cols col p seeds)) (mkvole_v_rows col p seeds)
    (transposeM (verify_q_cols col v cnp)) (verify_deltas col v cnp)
    (by rw [hUlen, hVlen]) (by rw [hUlen, hQlen]) hUw hVw hd hQrel i
    (by rw [hUlen]; exact hi)
  rw [show verify_new_q_rows col v cnp =
      correct_verifier_qs p.code (transposeM (verify_q_cols col v cnp))
        (verify_deltas col v cnp)
        (get_prover_correction p.code
          (transposeM (mkvole_u_cols col p seeds))).2 from by
    rw [verify_new_q_rows, hcode, hcorr]; rfl]
  rw [show mkvole_u_rows col p seeds =
    (get_prover_correction p.code
      (transposeM (mkvole_u_cols col p seeds))).1 from rfl]
  exact hres

end HonestCond1AndCorrelation

section HonestCond2

variable {F : Type} [CommRing F] [DecidableEq F]

theorem verify_cond2_generic (col : Collaborators F) (v : Verifier F)
    (cnp : CommitAndProof F) (p : Prover F) (seeds : List (Bytes × Bytes))
    (hcol : CollabWF col) (hc : CodeWF p.code)
    (hnv : v.num_voles = seeds.length) (hvl : v.vole_length = p.vole_length)
    (hvl0 : 0 < p.vole_length) (hcode : v.code = p.code)
    (hcorr : cnp.commitment.subspace_vole_correction =
      mkvole_correction col p seeds)
    (hopens : cnp.proof.seed_openings.seed_opens =
      (List.range seeds.length).map (fun i =>
        pair_get (seeds.getD i ([], []))
          ((verify_challenges col v cnp).delta_choices.getD i 0)))
    (hdle : ∀ i, (verify_challenges col v cnp).delta_choices.getD i 0 ≤ 1)
    (hs : seeds.length = p.code.n) (hn0 : 0 < seeds.length)
    (hcons : cnp.commitment.consistency_check =
      calc_consistency_check
        (col.challenge_from_seed cnp.commitment.seed_comm
          domain_vole_consistency v.vole_length)
        (transposeM (mkvole_u_rows col p seeds)) (mkvole_v_cols col p seeds)) :
    verify_consistency_check v.code
      (col.challenge_from_seed cnp.commitment.seed_comm domain_vole_consistency
        v.vole_length)
      cnp.commitment.consistency_check (verify_deltas col v cnp)
      (transposeM (verify_new_q_rows col v cnp)) = true := by
  have hkn : p.code.k ≤ p.code.n := Nat.div_le_self _ _
  have hQ' := verify_new_q_rows_correlation col v cnp p seeds hcol hc hnv hvl
    hcode hcorr hopens hdle hs hn0
  have hMlen : (mkvole_u_rows col p seeds).length = p.vole_length :=
    length_mkvole_u_rows_eq col p seeds hcol hn0
  have hMw : ∀ r ∈ mkvole_u_rows col p seeds, r.length = p.code.k :=
    mem_mkvole_u_rows_length col p seeds hc hs
  have hMhead : ((mkvole_u_rows col p seeds).headD []).length = p.code.k := by
    rw [headD_eq_getD]
    exact rows_getD_length _ _ hMw 0 (by rw [hMlen]; exact hvl0)
  have hVrlen : (mkvole_v_rows col p seeds).length = p.vole_length := by
    rw [mkvole_v_rows]
    exact length_transposeM_mkvole_v_cols col p seeds hcol hn0
  have hVrw : ∀ r ∈ mkvole_v_rows col p seeds, r.length = p.code.n := by
    intro r hr
    rw [mem_mkvole_v_rows_length col p seeds r hr, hs]
  have hNQlen : (verify_new_q_rows col v cnp).length = p.vole_length := by
    rw [verify_new_q_rows, length_correct_verifier_qs, length_transposeM,
      headD_eq_getD]
    exact (verify_column_correlation col v cnp p seeds hcol hnv hvl
      hopens hdle 0 hn0).1
  have hencrow : ∀ i, i < p.vole_length →
      (encode p.code ((mkvole_u_rows col p seeds).getD i [])).length =
        p.code.n := by
    intro i hi
    exact length_encode p.code hc _
      (rows_getD_length _ _ hMw i (by rw [hMlen]; exact hi))
  have hd : (verify_deltas col v cnp).length = p.code.n := by
    rw [length_verify_deltas, hnv, hs]
  have hNQrow : ∀ i, i < p.vole_length →
      ((verify_new_q_rows col v cnp).getD i []).length = p.code.n := by
    intro i hi
    rw [hQ' i hi, length_fAdd, length_fMul, hencrow i hi, hd,
      rows_getD_length _ _ hVrw i (by rw [hVrlen]; exact hi)]
    simp
  have huhash : vec_times_matrix
      (col.challenge_from_seed cnp.commitment.seed_comm
        domain_vole_consistency v.vole_length)
      (transposeM (mkvole_u_rows col p seeds)) =
      lin_comb (col.challenge_from_seed cnp.commitment.seed_comm
        domain_vole_consistency v.vole_length)
        (mkvole_u_rows col p seeds) p.code.k :=
    vec_times_matrix_transposeM _ _ _ hMhead hMw
  rw [hcons]
  simp only [verify_consistency_check, calc_consistency_check, hcode]
  apply fvec_eq_of_eq
  apply list_ext_getD
  · rw [length_vec_times_matrix, length_mkvole_v_cols, length_fSub,
      length_vec_times_matrix, length_transposeM, headD_eq_getD,
      hNQrow 0 hvl0, length_fMul, huhash, length_encode p.code hc _
        (by rw [length_lin_comb _ _ _ hMw]), hd, hs]
    simp
  · intro j hj
    rw [length_vec_times_matrix, length_mkvole_v_cols] at hj
    have hjn : j < p.code.n := hs ▸ hj
    have hvcolj : ((mkvole_v_cols col p seeds).getD j []).length =
        p.vole_length := length_getD_mkvole_v_cols col p seeds hcol j hj
    have hvhead : ((mkvole_v_cols col p seeds).headD []).length =
        p.vole_length := by
      rw [headD_eq_getD]
      exact length_getD_mkvole_v_cols col p seeds hcol 0 hn0
    have hrows_enc : ∀ r ∈ (mkvole_u_rows col p seeds).map (encode p.code),
        r.length = p.code.n := by
      intro r hr
      obtain ⟨r', hr', rfl⟩ := List.mem_map.mp hr
      exact length_encode p.code hc r' (hMw r' hr')
    have hencj : (encode p.code (lin_comb
        (col.challenge_from_seed cnp.commitment.seed_comm
          domain_vole_consistency v.vole_length)
        (mkvole_u_rows col p seeds) p.code.k)).getD j 0 =
        dot (col.challenge_from_seed cnp.commitment.seed_comm
          domain_vole_consistency v.vole_length)
          (((mkvole_u_rows col p seeds).map (encode p.code)).map
            (fun row => row.getD j 0)) := by
      rw [encode_lin_comb p.code hc _ _ hMw,
        getD_lin_comb _ _ _ j hrows_enc hjn]
    have hrow : (verify_new_q_rows col v cnp).map (fun row => row.getD j 0) =
        fAdd (scalar_mul (((mkvole_u_rows col p seeds).map
            (encode p.code)).map (fun row => row.getD j 0))
          ((verify_deltas col v cnp).getD j 0))
          ((mkvole_v_rows col p seeds).map (fun row => row.getD j 0)) := by
      apply list_ext_getD
      · rw [List.length_map, hNQlen, length_fAdd, length_scalar_mul,
          List.length_map, List.length_map, hMlen, List.length_map, hVrlen]
        simp
      · intro i hi
        rw [List.length_map, hNQlen] at hi
        have hVri : ((mkvole_v_rows col p seeds).getD i []).length = p.code.n :=
          rows_getD_length _ _ hVrw i (by rw [hVrlen]; exact hi)
        rw [getD_map_lt _ _ i (by rw [hNQlen]; exact hi) 0 [], hQ' i hi,
          getD_fAdd _ _ j
            (by rw [length_fMul, hencrow i hi, hd, min_self]; exact hjn)
            (by rw [hVri]; exact hjn),
          getD_fMul _ _ j (by rw [hencrow i hi]; exact hjn)
            (by rw [hd]; exact hjn),
          getD_fAdd _ _ i
            (by rw [length_scalar_mul, List.length_map, List.length_map,
              hMlen]; exact hi)
            (by rw [List.length_map, hVrlen]; exact hi),
          getD_scalar_mul _ _ i
            (by rw [List.length_map, List.length_map, hMlen]; exact hi),
          getD_map_lt _ _ i (by rw [List.length_map, hMlen]; exact hi) 0 [],
          getD_map_lt _ _ i (by rw [hMlen]; exact hi) [] [],
          getD_map_lt _ _ i (by rw [hVrlen]; exact hi) 0 []]
    rw [getD_vec_times_matrix _ _ j (by rw [length_mkvole_v_cols]; exact hj),
      getD_fSub _ _ j
        (by rw [length_vec_times_matrix, length_transposeM, headD_eq_getD,
          hNQrow 0 hvl0]; exact hjn)
        (by rw [length_fMul, huhash, length_encode p.code hc _
            (by rw [length_lin_comb _ _ _ hMw]), hd, min_self]; exact hjn),
      getD_vec_times_matrix _ _ j
        (by rw [length_transposeM, headD_eq_getD, hNQrow 0 hvl0]; exact hjn),
      getD_transposeM _ j (by rw [headD_eq_getD, hNQrow 0 hvl0]; exact hjn),
      getD_fMul _ _ j
        (by rw [huhash, length_encode p.code hc _
            (by rw [length_lin_comb _ _ _ hMw])]; exact hjn)
        (by rw [hd]; exact hjn),
      huhash, hencj, hrow,
      dot_fAdd_right _ _ _
        (by rw [length_scalar_mul, List.length_map, List.length_map, hMlen,
          List.length_map, hVrlen]),
      dot_scalar_mul_right,
      show mkvole_v_rows col p seeds = transposeM (mkvole_v_cols col p seeds)
        from rfl,
      transposeM_col _ j (by rw [length_mkvole_v_cols]; exact hj)
        (by rw [hvcolj, hvhead])]
    ring

end HonestCond2

section HonestCond3

variable {F : Type} [CommRing F] [DecidableEq F]

theorem rows_length_of_getD (M : List (List F)) (w : Nat)
    (h : ∀ i, i < M.length → (M.getD i []).length = w) :
    ∀ r ∈ M, r.length = w := by
  intro r hr
  obtain ⟨i, hi, rfl⟩ := List.mem_iff_getElem.mp hr
  rw [← List.getD_eq_getElem M [] hi]
  exact h i hi

theorem s_check_row_algebra (w : Nat) (eR eH vR vH D : List F) (t : F)
    (heR : eR.length = w) (heH : eH.length = w) (hvR : vR.length = w)
    (hvH : vH.length = w) (hD : D.length = w) :
    fAdd (scalar_mul (fAdd (fMul eR D) vR) t) (fAdd (fMul eH D) vH) =
      fAdd (fMul (fAdd (scalar_mul eR t) eH) D) (fAdd (scalar_mul vR t) vH) := by
  have lR : (fMul eR D).length = w := by rw [length_fMul, heR, hD, min_self]
  have lH : (fMul eH D).length = w := by rw [length_fMul, heH, hD, min_self]
  have l1 : (fAdd (fMul eR D) vR).length = w := by
    rw [length_fAdd, lR, hvR, min_self]
  have l2 : (fAdd (fMul eH D) vH).length = w := by
    rw [length_fAdd, lH, hvH, min_self]
  have l3 : (scalar_mul (fAdd (fMul eR D) vR) t).length = w := by
    rw [length_scalar_mul, l1]
  have l4 : (fAdd (scalar_mul eR t) eH).length = w := by
    rw [length_fAdd, length_scalar_mul, heR, heH, min_self]
  have l5 : (fMul (fAdd (scalar_mul eR t) eH) D).length = w := by
    rw [length_fMul, l4, hD, min_self]
  have l6 : (fAdd (scalar_mul vR t) vH).length = w := by
    rw [length_fAdd, length_scalar_mul, hvR, hvH, min_self]
  apply list_ext_getD
  · rw [length_fAdd, l3, l2, min_self, length_fAdd, l5, l6, min_self]
  · intro j hj
    rw [length_fAdd, l3, l2, min_self] at hj
    rw [getD_fAdd _ _ j (by rw [l3]; exact hj) (by rw [l2]; exact hj),
      getD_scalar_mul _ _ j (by rw [l1]; exact hj),
      getD_fAdd _ _ j (by rw [lR]; exact hj) (by rw [hvR]; exact hj),
      getD_fMul _ _ j (by rw [heR]; exact hj) (by rw [hD]; exact hj),
      getD_fAdd _ _ j (by rw [lH]; exact hj) (by rw [hvH]; exact hj),
      getD_fMul _ _ j (by rw [heH]; exact hj) (by rw [hD]; exact hj),
      getD_fAdd _ _ j (by rw [l5]; exact hj) (by rw [l6]; exact hj),
      getD_fMul _ _ j (by rw [l4]; exact hj) (by rw [hD]; exact hj),
      getD_fAdd _ _ j (by rw [length_scalar_mul, heR]; exact hj)
        (by rw [heH]; exact hj),
      getD_scalar_mul _ _ j (by rw [heR]; exact hj),
      getD_fAdd _ _ j (by rw [length_scalar_mul, hvR]; exact hj)
        (by rw [hvH]; exact hj),
      getD_scalar_mul _ _ j (by rw [hvR]; exact hj)]
    ring

theorem length_mat_add (A B : List (List F)) :
    (mat_add A B).length = min A.length B.length :=
  List.length_zipWith _ _ _

theorem length_mat_scalar_mul (A : List (List F)) (c : F) :
    (mat_scalar_mul A c).length = A.length :=
  List.length_map _ _

theorem getD_mat_add (A B : List (List F)) (i : Nat) (hA : i < A.length)
    (hB : i < B.length) :
    (mat_add A B).getD i [] = fAdd (A.getD i []) (B.getD i []) := by
  simp only [mat_add]
  exact getD_zipWith_lt fAdd A B i hA hB [] [] []

theorem getD_mat_scalar_mul (A : List (List F)) (c : F) (i : Nat)
    (hA : i < A.length) :
    (mat_scalar_mul A c).getD i [] = scalar_mul (A.getD i []) c := by
  simp only [mat_scalar_mul]
  exact getD_map_lt _ _ i hA [] []

theorem mat_ext_getD {A B : List (List F)} (hl : A.length = B.length)
    (h : ∀ i, i < A.length → A.getD i [] = B.getD i []) : A = B := by
  apply List.ext_getElem hl
  intro i h1 h2
  have h3 := h i h1
  rw [List.getD_eq_getElem A [] h1, List.getD_eq_getElem B [] h2] at h3
  exact h3

theorem verify_cond3_generic (col : Collaborators F) (v : Verifier F)
    (cnp : CommitAndProof F) (p : Prover F) (seeds : List (Bytes × Bytes))
    (hcol : CollabWF col) (hc : CodeWF p.code)
    (hnv : v.num_voles = seeds.length) (hvl : v.vole_length = p.vole_length)
    (hvl0 : 0 < p.vole_length) (heven : p.vole_length % 2 = 0)
    (hcode : v.code = p.code)
    (hcorr : cnp.commitment.subspace_vole_correction =
      mkvole_correction col p seeds)
    (hopens : cnp.proof.seed_openings.seed_opens =
      (List.range seeds.length).map (fun i =>
        pair_get (seeds.getD i ([], []))
          ((verify_challenges col v cnp).delta_choices.getD i 0)))
    (hdle : ∀ i, (verify_challenges col v cnp).delta_choices.getD i 0 ≤ 1)
    (hs : seeds.length = p.code.n) (hn0 : 0 < seeds.length)
    (hsm : cnp.proof.s_matrix = mat_add
      (mat_scalar_mul (mkvole_secrets col p seeds).u1
        (verify_challenges col v cnp).vith_delta)
      (mkvole_secrets col p seeds).u2)
    (hscc : cnp.proof.s_consistency_check = vec_times_matrix
      (verify_challenges col v cnp).s_challenge
      (transposeM (mat_add
        (mat_scalar_mul (mkvole_secrets col p seeds).v1
          (verify_challenges col v cnp).vith_delta)
        (mkvole_secrets col p seeds).v2))) :
    fvec_eq (verify_lhs col v cnp) (verify_rhs col v cnp) = true := by
  have h2 : p.vole_length / 2 + p.vole_length / 2 = p.vole_length := by omega
  have hhalfpos : 0 < p.vole_length / 2 := by omega
  have hQ' := verify_new_q_rows_correlation col v cnp p seeds hcol hc hnv hvl
    hcode hcorr hopens hdle hs hn0
  have hMlen : (mkvole_u_rows col p seeds).length = p.vole_length :=
    length_mkvole_u_rows_eq col p seeds hcol hn0
  have hMw : ∀ r ∈ mkvole_u_rows col p seeds, r.length = p.code.k :=
    mem_mkvole_u_rows_length col p seeds hc hs
  have hMr : ∀ i, i < p.vole_length →
      ((mkvole_u_rows col p seeds).getD i []).length = p.code.k :=
    fun i hi => rows_getD_length _ _ hMw i (by rw [hMlen]; exact hi)
  have hVrlen : (mkvole_v_rows col p seeds).length = p.vole_length := by
    rw [mkvole_v_rows]
    exact length_transposeM_mkvole_v_cols col p seeds hcol hn0
  have hVrw : ∀ r ∈ mkvole_v_rows col p seeds, r.length = p.code.n := by
    intro r hr
    rw [mem_mkvole_v_rows_length col p seeds r hr, hs]
  have hVrr : ∀ i, i < p.vole_length →
      ((mkvole_v_rows col p seeds).getD i []).length = p.code.n :=
    fun i hi => rows_getD_length _ _ hVrw i (by rw [hVrlen]; exact hi)
  have hNQlen : (verify_new_q_rows col v cnp).length = p.vole_length := by
    rw [verify_new_q_rows, length_correct_verifier_qs, length_transposeM,
      headD_eq_getD]
    exact (verify_column_correlation col v cnp p seeds hcol hnv hvl
      hopens hdle 0 hn0).1
  have hd : (verify_deltas col v cnp).length = p.code.n := by
    rw [length_verify_deltas, hnv, hs]
  have hencM : ∀ i, i < p.vole_length →
      (encode p.code ((mkvole_u_rows col p seeds).getD i [])).length =
        p.code.n :=
    fun i hi => length_encode p.code hc _ (hMr i hi)
  have hu1 : (mkvole_secrets col p seeds).u1 =
      (mkvole_u_rows col p seeds).take (p.vole_length / 2) := by
    rw [show (mkvole_secrets col p seeds).u1 =
      (mkvole_u_rows col p seeds).take
        ((mkvole_u_rows col p seeds).length / 2) from rfl, hMlen]
  have hu2 : (mkvole_secrets col p seeds).u2 =
      (mkvole_u_rows col p seeds).drop (p.vole_length / 2) := by
    rw [show (mkvole_secrets col p seeds).u2 =
      ((mkvole_u_rows col p seeds).take
        (mkvole_u_rows col p seeds).length).drop
          ((mkvole_u_rows col p seeds).length / 2) from rfl,
      List.take_length, hMlen]
  have hv1 : (mkvole_secrets col p seeds).v1 =
      (mkvole_v_rows col p seeds).take (p.vole_length / 2) := by
    rw [show (mkvole_secrets col p seeds).v1 =
      (mkvole_v_rows col p seeds).take
        ((mkvole_v_rows col p seeds).length / 2) from rfl, hVrlen]
  have hv2 : (mkvole_secrets col p seeds).v2 =
      (mkvole_v_rows col p seeds).drop (p.vole_length / 2) := by
    rw [show (mkvole_secrets col p seeds).v2 =
      ((mkvole_v_rows col p seeds).take
        (mkvole_v_rows col p seeds).length).drop
          ((mkvole_v_rows col p seeds).length / 2) from rfl,
      List.take_length, hVrlen]
  have hsm2 : cnp.proof.s_matrix = mat_add
      (mat_scalar_mul ((mkvole_u_rows col p seeds).take (p.vole_length / 2))
        (verify_challenges col v cnp).vith_delta)
      ((mkvole_u_rows col p seeds).drop (p.vole_length / 2)) := by
    rw [hsm, hu1, hu2]
  have hsmlen : cnp.proof.s_matrix.length = p.vole_length / 2 := by
    rw [hsm2, length_mat_add, length_mat_scalar_mul, List.length_take,
      List.length_drop, hMlen]
    omega
  have hsmrow : ∀ i, i < p.vole_length / 2 → cnp.proof.s_matrix.getD i [] =
      fAdd (scalar_mul ((mkvole_u_rows col p seeds).getD i [])
        (verify_challenges col v cnp).vith_delta)
        ((mkvole_u_rows col p seeds).getD (p.vole_length / 2 + i) []) := by
    intro i hi
    rw [hsm2, getD_mat_add _ _ i
        (by rw [length_mat_scalar_mul, List.length_take, hMlen]; omega)
        (by rw [List.length_drop, hMlen]; omega),
      getD_mat_scalar_mul _ _ i (by rw [List.length_take, hMlen]; omega),
      getD_take _ _ i [] hi, getD_drop]
  have hsmrlen : ∀ i, i < p.vole_length / 2 →
      (cnp.proof.s_matrix.getD i []).length = p.code.k := by
    intro i hi
    rw [hsmrow i hi, length_fAdd, length_scalar_mul, hMr i (by omega),
      hMr (p.vole_length / 2 + i) (by omega), min_self]
  have hSGdef : batch_encode v.code cnp.proof.s_matrix =
      cnp.proof.s_matrix.map (encode p.code) := by
    rw [hcode]
    rfl
  have hSGlen : ((batch_encode v.code cnp.proof.s_matrix).map
      (fun row => fMul row (verify_deltas col v cnp))).length =
      p.vole_length / 2 := by
    rw [hSGdef, List.length_map, List.length_map, hsmlen]
  have hSGrow : ∀ i, i < p.vole_length / 2 →
      ((batch_encode v.code cnp.proof.s_matrix).map
        (fun row => fMul row (verify_deltas col v cnp))).getD i [] =
      fMul (encode p.code (cnp.proof.s_matrix.getD i []))
        (verify_deltas col v cnp) := by
    intro i hi
    rw [hSGdef, getD_map_lt _ _ i
        (by rw [List.length_map, hsmlen]; exact hi) [] [],
      getD_map_lt _ _ i (by rw [hsmlen]; exact hi) [] []]
  have hSGrlen : ∀ i, i < p.vole_length / 2 →
      (((batch_encode v.code cnp.proof.s_matrix).map
        (fun row => fMul row (verify_deltas col v cnp))).getD i []).length =
      p.code.n := by
    intro i hi
    rw [hSGrow i hi, length_fMul, length_encode p.code hc _ (hsmrlen i hi),
      hd, min_self]
  have hscc2 : cnp.proof.s_consistency_check = vec_times_matrix
      (verify_challenges col v cnp).s_challenge
      (transposeM (mat_add
        (mat_scalar_mul ((mkvole_v_rows col p seeds).take (p.vole_length / 2))
          (verify_challenges col v cnp).vith_delta)
        ((mkvole_v_rows col p seeds).drop (p.vole_length / 2)))) := by
    rw [hscc, hv1, hv2]
  have hBlen : (mat_add
      (mat_scalar_mul ((mkvole_v_rows col p seeds).take (p.vole_length / 2))
        (verify_challenges col v cnp).vith_delta)
      ((mkvole_v_rows col p seeds).drop (p.vole_length / 2))).length =
      p.vole_length / 2 := by
    rw [length_mat_add, length_mat_scalar_mul, List.length_take,
      List.length_drop, hVrlen]
    omega
  have hBrow : ∀ i, i < p.vole_length / 2 → (mat_add
      (mat_scalar_mul ((mkvole_v_rows col p seeds).take (p.vole_length / 2))
        (verify_challenges col v cnp).vith_delta)
      ((mkvole_v_rows col p seeds).drop (p.vole_length / 2))).getD i [] =
      fAdd (scalar_mul ((mkvole_v_rows col p seeds).getD i [])
        (verify_challenges col v cnp).vith_delta)
        ((mkvole_v_rows col p seeds).getD (p.vole_length / 2 + i) []) := by
    intro i hi
    rw [getD_mat_add _ _ i
        (by rw [length_mat_scalar_mul, List.length_take, hVrlen]; omega)
        (by rw [List.length_drop, hVrlen]; omega),
      getD_mat_scalar_mul _ _ i (by rw [List.length_take, hVrlen]; omega),
      getD_take _ _ i [] hi, getD_drop]
  have hBrlen : ∀ i, i < p.vole_length / 2 → ((mat_add
      (mat_scalar_mul ((mkvole_v_rows col p seeds).take (p.vole_length / 2))
        (verify_challenges col v cnp).vith_delta)
      ((mkvole_v_rows col p seeds).drop (p.vole_length / 2))).getD i []).length =
      p.code.n := by
    intro i hi
    rw [hBrow i hi, length_fAdd, length_scalar_mul, hVrr i (by omega),
      hVrr (p.vole_length / 2 + i) (by omega), min_self]
  have hNQfull : (verify_new_q_rows col v cnp).take p.vole_length =
      verify_new_q_rows col v cnp := by
    rw [← hNQlen, List.take_length]
  have hArow : ∀ i, i < p.vole_length / 2 → (mat_add
      (mat_scalar_mul ((verify_new_q_rows col v cnp).take (v.vole_length / 2))
        (verify_challenges col v cnp).vith_delta)
      (((verify_new_q_rows col v cnp).take v.vole_length).drop
        (v.vole_length / 2))).getD i [] =
      fAdd (scalar_mul ((verify_new_q_rows col v cnp).getD i [])
        (verify_challenges col v cnp).vith_delta)
        ((verify_new_q_rows col v cnp).getD (p.vole_length / 2 + i) []) := by
    intro i hi
    rw [hvl, hNQfull, getD_mat_add _ _ i
        (by rw [length_mat_scalar_mul, List.length_take, hNQlen]; omega)
        (by rw [List.length_drop, hNQlen]; omega),
      getD_mat_scalar_mul _ _ i (by rw [List.length_take, hNQlen]; omega),
      getD_take _ _ i [] hi, getD_drop]
  have hAlen : (mat_add
      (mat_scalar_mul ((verify_new_q_rows col v cnp).take (v.vole_length / 2))
        (verify_challenges col v cnp).vith_delta)
      (((verify_new_q_rows col v cnp).take v.vole_length).drop
        (v.vole_length / 2))).length = p.vole_length / 2 := by
    rw [hvl, hNQfull, length_mat_add, length_mat_scalar_mul, List.length_take,
      List.length_drop, hNQlen]
    omega
  have hAB : mat_add
      (mat_scalar_mul ((verify_new_q_rows col v cnp).take (v.vole_length / 2))
        (verify_challenges col v cnp).vith_delta)
      (((verify_new_q_rows col v cnp).take v.vole_length).drop
        (v.vole_length / 2)) =
      mat_add ((batch_encode v.code cnp.proof.s_matrix).map
        (fun row => fMul row (verify_deltas col v cnp)))
        (mat_add (mat_scalar_mul
          ((mkvole_v_rows col p seeds).take (p.vole_length / 2))
          (verify_challenges col v cnp).vith_delta)
        ((mkvole_v_rows col p seeds).drop (p.vole_length / 2))) := by
    apply mat_ext_getD
    · rw [hAlen, length_mat_add, hSGlen, hBlen, min_self]
    · intro i hi
      rw [hAlen] at hi
      rw [hArow i hi, getD_mat_add _ _ i (by rw [hSGlen]; exact hi)
          (by rw [hBlen]; exact hi),
        hSGrow i hi, hBrow i hi, hsmrow i hi,
        encode_fAdd p.code hc _ _
          (by rw [length_scalar_mul]; exact hMr i (by omega))
          (hMr (p.vole_length / 2 + i) (by omega)),
        encode_scalar_mul p.code hc _ _ (hMr i (by omega)),
        hQ' i (by omega), hQ' (p.vole_length / 2 + i) (by omega)]
      exact s_check_row_algebra p.code.n _ _ _ _ _ _
        (hencM i (by omega)) (hencM (p.vole_length / 2 + i) (by omega))
        (hVrr i (by omega)) (hVrr (p.vole_length / 2 + i) (by omega)) hd
  have hSGrows : ∀ r ∈ (batch_encode v.code cnp.proof.s_matrix).map
      (fun row => fMul row (verify_deltas col v cnp)), r.length = p.code.n :=
    rows_length_of_getD _ _ (fun i hi =>
      hSGrlen i (by rw [hSGlen] at hi; exact hi))
  have hBrows : ∀ r ∈ mat_add
      (mat_scalar_mul ((mkvole_v_rows col p seeds).take (p.vole_length / 2))
        (verify_challenges col v cnp).vith_delta)
      ((mkvole_v_rows col p seeds).drop (p.vole_length / 2)),
      r.length = p.code.n :=
    rows_length_of_getD _ _ (fun i hi =>
      hBrlen i (by rw [hBlen] at hi; exact hi))
  have hABrows : ∀ r ∈ mat_add ((batch_encode v.code cnp.proof.s_matrix).map
      (fun row => fMul row (verify_deltas col v cnp)))
      (mat_add (mat_scalar_mul
        ((mkvole_v_rows col p seeds).take (p.vole_length / 2))
        (verify_challenges col v cnp).vith_delta)
      ((mkvole_v_rows col p seeds).drop (p.vole_length / 2))),
      r.length = p.code.n := by
    apply rows_length_of_getD
    intro i hi
    rw [length_mat_add, hSGlen, hBlen, min_self] at hi
    rw [getD_mat_add _ _ i (by rw [hSGlen]; exact hi) (by rw [hBlen]; exact hi),
      length_fAdd, hSGrlen i hi, hBrlen i hi, min_self]
  have hSGhead : (((batch_encode v.code cnp.proof.s_matrix).map
      (fun row => fMul row (verify_deltas col v cnp))).headD []).length =
      p.code.n := by
    rw [headD_eq_getD]
    exact rows_getD_length _ _ hSGrows 0 (by rw [hSGlen]; exact hhalfpos)
  have hBhead : ((mat_add
      (mat_scalar_mul ((mkvole_v_rows col p seeds).take (p.vole_length / 2))
        (verify_challenges col v cnp).vith_delta)
      ((mkvole_v_rows col p seeds).drop (p.vole_length / 2))).headD []).length =
      p.code.n := by
    rw [headD_eq_getD]
    exact rows_getD_length _ _ hBrows 0
      (by rw [hBlen]; exact hhalfpos)
  have hABhead : ((mat_add ((batch_encode v.code cnp.proof.s_matrix).map
      (fun row => fMul row (verify_deltas col v cnp)))
      (mat_add (mat_scalar_mul
        ((mkvole_v_rows col p seeds).take (p.vole_length / 2))
        (verify_challenges col v cnp).vith_delta)
      ((mkvole_v_rows col p seeds).drop (p.vole_length / 2)))).headD []).length =
      p.code.n := by
    rw [headD_eq_getD]
    exact rows_getD_length _ _ hABrows 0
      (by rw [length_mat_add, hSGlen, hBlen, min_self]; exact hhalfpos)
  apply fvec_eq_of_eq
  rw [verify_lhs, verify_rhs, hAB, hscc2,
    vec_times_matrix_transposeM _ _ p.code.n hABhead hABrows,
    vec_times_matrix_transposeM _ _ p.code.n hBhead hBrows,
    vec_times_matrix_transposeM _ _ p.code.n hSGhead hSGrows,
    lin_comb_mat_add _ _ _ p.code.n (by rw [hSGlen, hBlen])]
  exact fAdd_comm _ _

end HonestCond3

section HonestTags

variable {F : Type} [CommRing F] [DecidableEq F]

theorem length_mat_sub (A B : List (List F)) :
    (mat_sub A B).length = min A.length B.length :=
  List.length_zipWith _ _ _

theorem getD_mat_sub (A B : List (List F)) (i : Nat) (hA : i < A.length)
    (hB : i < B.length) :
    (mat_sub A B).getD i [] = fSub (A.getD i []) (B.getD i []) := by
  simp only [mat_sub]
  exact getD_zipWith_lt fSub A B i hA hB [] [] []

theorem verify_qtags_pointwise (col : Collaborators F) (v : Verifier F)
    (cnp : CommitAndProof F) (p : Prover F) (seeds : List (Bytes × Bytes))
    (hcol : CollabWF col) (hc : CodeWF p.code)
    (hvl0 : 0 < p.vole_length) (heven : p.vole_length % 2 = 0)
    (hs : seeds.length = p.code.n) (hn0 : 0 < seeds.length)
    (hwc : cnp.commitment.witness_comm = mkvole_witness_comm col p seeds)
    (hsm : cnp.proof.s_matrix = mat_add
      (mat_scalar_mul (mkvole_secrets col p seeds).u1
        (verify_challenges col v cnp).vith_delta)
      (mkvole_secrets col p seeds).u2)
    (hWw : ∀ r ∈ p.witness, r.length = p.code.k)
    (hWle : p.witness.length ≤ p.vole_length / 2)
    (hk0 : 0 < p.code.k) :
    ∀ i, i < p.witness.length * p.code.k →
      (verify_qtags col v cnp).getD i 0 =
        p.witness.flatten.getD i 0 * (verify_challenges col v cnp).vith_delta +
        (mkvole_secrets col p seeds).u2.flatten.getD i 0 := by
  have h2 : p.vole_length / 2 + p.vole_length / 2 = p.vole_length := by omega
  have hMlen : (mkvole_u_rows col p seeds).length = p.vole_length :=
    length_mkvole_u_rows_eq col p seeds hcol hn0
  have hMw : ∀ r ∈ mkvole_u_rows col p seeds, r.length = p.code.k :=
    mem_mkvole_u_rows_length col p seeds hc hs
  have hMr : ∀ i, i < p.vole_length →
      ((mkvole_u_rows col p seeds).getD i []).length = p.code.k :=
    fun i hi => rows_getD_length _ _ hMw i (by rw [hMlen]; exact hi)
  have hWr : ∀ i, i < p.witness.length →
      (p.witness.getD i []).length = p.code.k :=
    fun i hi => rows_getD_length _ _ hWw i hi
  have hu1 : (mkvole_secrets col p seeds).u1 =
      (mkvole_u_rows col p seeds).take (p.vole_length / 2) := by
    rw [show (mkvole_secrets col p seeds).u1 =
      (mkvole_u_rows col p seeds).take
        ((mkvole_u_rows col p seeds).length / 2) from rfl, hMlen]
  have hu2 : (mkvole_secrets col p seeds).u2 =
      (mkvole_u_rows col p seeds).drop (p.vole_length / 2) := by
    rw [show (mkvole_secrets col p seeds).u2 =
      ((mkvole_u_rows col p seeds).take
        (mkvole_u_rows col p seeds).length).drop
          ((mkvole_u_rows col p seeds).length / 2) from rfl,
      List.take_length, hMlen]
  have hsmlen : cnp.proof.s_matrix.length = p.vole_length / 2 := by
    rw [hsm, hu1, hu2, length_mat_add, length_mat_scalar_mul, List.length_take,
      List.length_drop, hMlen]
    omega
  have hsmrow : ∀ i, i < p.vole_length / 2 → cnp.proof.s_matrix.getD i [] =
      fAdd (scalar_mul ((mkvole_u_rows col p seeds).getD i [])
        (verify_challenges col v cnp).vith_delta)
        ((mkvole_u_rows col p seeds).getD (p.vole_length / 2 + i) []) := by
    intro i hi
    rw [hsm, hu1, hu2, getD_mat_add _ _ i
        (by rw [length_mat_scalar_mul, List.length_take, hMlen]; omega)
        (by rw [List.length_drop, hMlen]; omega),
      getD_mat_scalar_mul _ _ i (by rw [List.length_take, hMlen]; omega),
      getD_take _ _ i [] hi, getD_drop]
  have hwc2 : cnp.commitment.witness_comm =
      mat_sub p.witness
        ((mkvole_u_rows col p seeds).take p.witness.length) := by
    rw [hwc]
    rfl
  have hwclen : cnp.commitment.witness_comm.length = p.witness.length := by
    rw [hwc2, length_mat_sub, List.length_take, hMlen]
    omega
  have hwcrow : ∀ i, i < p.witness.length →
      cnp.commitment.witness_comm.getD i [] =
        fSub (p.witness.getD i []) ((mkvole_u_rows col p seeds).getD i []) := by
    intro i hi
    rw [hwc2, getD_mat_sub _ _ i hi
        (by rw [List.length_take, hMlen]; omega),
      getD_take _ _ i [] hi]
  have hTlen : (List.zipWith
      (fun wc s => fAdd (scalar_mul wc (verify_challenges col v cnp).vith_delta) s)
      cnp.commitment.witness_comm cnp.proof.s_matrix).length =
      p.witness.length := by
    rw [List.length_zipWith, hwclen, hsmlen]
    omega
  have hTrow : ∀ i, i < p.witness.length →
      (List.zipWith
        (fun wc s => fAdd (scalar_mul wc (verify_challenges col v cnp).vith_delta) s)
        cnp.commitment.witness_comm cnp.proof.s_matrix).getD i [] =
      fAdd (scalar_mul (fSub (p.witness.getD i [])
          ((mkvole_u_rows col p seeds).getD i []))
        (verify_challenges col v cnp).vith_delta)
        (fAdd (scalar_mul ((mkvole_u_rows col p seeds).getD i [])
          (verify_challenges col v cnp).vith_delta)
          ((mkvole_u_rows col p seeds).getD (p.vole_length / 2 + i) [])) := by
    intro i hi
    rw [getD_zipWith_lt _ _ _ i (by rw [hwclen]; exact hi)
        (by rw [hsmlen]; omega) [] [] [],
      hwcrow i hi, hsmrow i (by omega)]
  have hTrowlen : ∀ i, i < p.witness.length →
      ((List.zipWith
        (fun wc s => fAdd (scalar_mul wc (verify_challenges col v cnp).vith_delta) s)
        cnp.commitment.witness_comm cnp.proof.s_matrix).getD i []).length =
      p.code.k := by
    intro i hi
    have e1 : (fSub (p.witness.getD i [])
        ((mkvole_u_rows col p seeds).getD i [])).length = p.code.k := by
      rw [length_fSub, hWr i hi, hMr i (by omega), min_self]
    have e2 : (fAdd (scalar_mul ((mkvole_u_rows col p seeds).getD i [])
        (verify_challenges col v cnp).vith_delta)
        ((mkvole_u_rows col p seeds).getD
          (p.vole_length / 2 + i) [])).length = p.code.k := by
      rw [length_fAdd, length_scalar_mul, hMr i (by omega),
        hMr (p.vole_length / 2 + i) (by omega), min_self]
    rw [hTrow i hi, length_fAdd, length_scalar_mul, e1, e2, min_self]
  have hTrows : ∀ r ∈ List.zipWith
      (fun wc s => fAdd (scalar_mul wc (verify_challenges col v cnp).vith_delta) s)
      cnp.commitment.witness_comm cnp.proof.s_matrix, r.length = p.code.k :=
    rows_length_of_getD _ _ (fun i hi =>
      hTrowlen i (by rw [hTlen] at hi; exact hi))
  have hu2len : ((mkvole_secrets col p seeds).u2).length = p.vole_length / 2 := by
    rw [hu2, List.length_drop, hMlen]
    omega
  have hu2rows : ∀ r ∈ (mkvole_secrets col p seeds).u2, r.length = p.code.k := by
    intro r hr
    rw [hu2] at hr
    exact hMw r (List.mem_of_mem_drop hr)
  intro i hi
  have hik : i / p.code.k < p.witness.length :=
    (Nat.div_lt_iff_lt_mul hk0).mpr hi
  have himod : i % p.code.k < p.code.k := Nat.mod_lt _ hk0
  have hiu2 : i < ((mkvole_secrets col p seeds).u2).length * p.code.k := by
    rw [hu2len]
    exact lt_of_lt_of_le hi (Nat.mul_le_mul_right _ hWle)
  rw [verify_qtags, qs_verifier_tags,
    getD_flatten_uniform _ p.code.k hk0 hTrows i (by rw [hTlen]; exact hi),
    getD_flatten_uniform p.witness p.code.k hk0 hWw i hi,
    getD_flatten_uniform ((mkvole_secrets col p seeds).u2) p.code.k hk0
      hu2rows i hiu2,
    hTrow (i / p.code.k) hik]
  rw [hu2, getD_drop]
  have hb1 : i % p.code.k < (p.witness.getD (i / p.code.k) []).length := by
    rw [hWr _ hik]; exact himod
  have hb2 : i % p.code.k <
      ((mkvole_u_rows col p seeds).getD (i / p.code.k) []).length := by
    rw [hMr _ (by omega)]; exact himod
  have hb3 : i % p.code.k <
      ((mkvole_u_rows col p seeds).getD
        (p.vole_length / 2 + i / p.code.k) []).length := by
    rw [hMr _ (by omega)]; exact himod
  have e3 : (fSub (p.witness.getD (i / p.code.k) [])
      ((mkvole_u_rows col p seeds).getD (i / p.code.k) [])).length =
      p.code.k := by
    rw [length_fSub, hWr _ hik, hMr _ (by omega), min_self]
  have e4 : (fAdd (scalar_mul
      ((mkvole_u_rows col p seeds).getD (i / p.code.k) [])
      (verify_challenges col v cnp).vith_delta)
      ((mkvole_u_rows col p seeds).getD
        (p.vole_length / 2 + i / p.code.k) [])).length = p.code.k := by
    rw [length_fAdd, length_scalar_mul, hMr _ (by omega), hMr _ (by omega),
      min_self]
  rw [getD_fAdd _ _ (i % p.code.k)
      (by rw [length_scalar_mul, e3]; exact himod)
      (by rw [e4]; exact himod),
    getD_scalar_mul _ _ (i % p.code.k) (by rw [e3]; exact himod),
    getD_fSub _ _ (i % p.code.k) hb1 hb2,
    getD_fAdd _ _ (i % p.code.k)
      (by rw [length_scalar_mul]; exact hb2) hb3,
    getD_scalar_mul _ _ (i % p.code.k) hb2]
  ring

end HonestTags

section HonestCond4

variable {F : Type} [CommRing F] [DecidableEq F]

theorem foldl_add_eq_sum (r : List (Nat × F)) (f : Nat × F → F) (init : F) :
    r.foldl (fun acc pr => acc + f pr) init = init + (r.map f).sum := by
  induction r generalizing init with
  | nil => simp
  | cons a r ih =>
    simp only [List.foldl_cons, List.map_cons, List.sum_cons, ih]
    ring

theorem sparse_dot_eq_sum (a : List F) (r : List (Nat × F)) :
    sparse_dot a r = (r.map (fun pr => a.getD pr.1 0 * pr.2)).sum := by
  rw [sparse_dot, foldl_add_eq_sum r (fun pr => a.getD pr.1 0 * pr.2) 0,
    zero_add]

theorem sparse_dot_congr (a b : List F) (r : List (Nat × F))
    (h : ∀ pr ∈ r, a.getD pr.1 0 = b.getD pr.1 0) :
    sparse_dot a r = sparse_dot b r := by
  rw [sparse_dot_eq_sum, sparse_dot_eq_sum]
  congr 1
  apply List.map_congr_left
  intro pr hpr
  rw [h pr hpr]

theorem sparse_dot_zero_pad (a : List F) (l : Nat) (r : List (Nat × F)) :
    sparse_dot (zero_pad a l) r = sparse_dot a r := by
  apply sparse_dot_congr
  intro pr _
  by_cases h1 : pr.1 < a.length
  · rw [zero_pad, List.getD_append _ _ _ _ h1]
  · push_neg at h1
    rw [List.getD_eq_default _ _ h1, zero_pad]
    by_cases h2 : pr.1 < a.length + l
    · rw [List.getD_append_right _ _ _ _ h1,
        List.getD_eq_getElem _ _ (by rw [List.length_replicate]; omega),
        List.getElem_replicate]
    · push_neg at h2
      rw [List.getD_eq_default _ _
        (by rw [List.length_append, List.length_replicate]; omega)]

theorem getD_rows_bound (rows : List (List (Nat × F))) (bound : Nat)
    (h : ∀ row ∈ rows, ∀ pr ∈ row, pr.1 < bound) (j : Nat) :
    ∀ pr ∈ rows.getD j [], pr.1 < bound := by
  intro pr hpr
  by_cases hj : j < rows.length
  · apply h (rows.getD j []) _ pr hpr
    rw [List.getD_eq_getElem _ _ hj]
    exact List.getElem_mem hj
  · rw [List.getD_eq_default _ _ (by omega)] at hpr
    simp at hpr

theorem verify_cond4_generic (col : Collaborators F) (v : Verifier F)
    (cnp : CommitAndProof F) (p : Prover F) (seeds : List (Bytes × Bytes))
    (hcol : CollabWF col) (hc : CodeWF p.code)
    (hvl0 : 0 < p.vole_length) (heven : p.vole_length % 2 = 0)
    (hs : seeds.length = p.code.n) (hn0 : 0 < seeds.length)
    (hcirc : v.circuit = p.circuit)
    (hwc : cnp.commitment.witness_comm = mkvole_witness_comm col p seeds)
    (hsm : cnp.proof.s_matrix = mat_add
      (mat_scalar_mul (mkvole_secrets col p seeds).u1
        (verify_challenges col v cnp).vith_delta)
      (mkvole_secrets col p seeds).u2)
    (hzkp : cnp.proof.zkp = qs_prove p.witness (mkvole_secrets col p seeds).u2
      p.circuit.r1cs
      (col.calc_quicksilver_challenge cnp.commitment.seed_comm
        cnp.commitment.witness_comm))
    (hWw : ∀ r ∈ p.witness, r.length = p.code.k)
    (hWle : p.witness.length ≤ p.vole_length / 2)
    (hk0 : 0 < p.code.k)
    (hidx : ∀ row ∈ p.circuit.r1cs.a_rows ++ p.circuit.r1cs.b_rows ++
      p.circuit.r1cs.c_rows, ∀ pr ∈ row,
      pr.1 < p.witness.length * p.code.k)
    (hsat : ∀ j, j < p.circuit.r1cs.a_rows.length →
      sparse_dot p.witness.flatten (p.circuit.r1cs.a_rows.getD j []) *
        sparse_dot p.witness.flatten (p.circuit.r1cs.b_rows.getD j []) =
      sparse_dot p.witness.flatten (p.circuit.r1cs.c_rows.getD j [])) :
    qs_verify (verify_qtags col v cnp)
      (verify_challenges col v cnp).vith_delta v.circuit.r1cs
      (col.calc_quicksilver_challenge cnp.commitment.seed_comm
        cnp.commitment.witness_comm) cnp.proof.zkp = true := by
  have htag := verify_qtags_pointwise col v cnp p seeds hcol hc hvl0 heven
    hs hn0 hwc hsm hWw hWle hk0
  have hidxa : ∀ row ∈ p.circuit.r1cs.a_rows, ∀ pr ∈ row,
      pr.1 < p.witness.length * p.code.k := by
    intro row hrow
    exact hidx row (by simp [hrow])
  have hidxb : ∀ row ∈ p.circuit.r1cs.b_rows, ∀ pr ∈ row,
      pr.1 < p.witness.length * p.code.k := by
    intro row hrow
    exact hidx row (by simp [hrow])
  have hidxc : ∀ row ∈ p.circuit.r1cs.c_rows, ∀ pr ∈ row,
      pr.1 < p.witness.length * p.code.k := by
    intro row hrow
    exact hidx row (by simp [hrow])
  have hmac : ∀ (row : List (Nat × F)),
      (∀ pr ∈ row, pr.1 < p.witness.length * p.code.k) →
      sparse_dot (verify_qtags col v cnp) row =
        sparse_dot p.witness.flatten row *
          (verify_challenges col v cnp).vith_delta +
        sparse_dot ((mkvole_secrets col p seeds).u2.flatten) row := by
    intro row hrow
    rw [sparse_dot_eq_sum, sparse_dot_eq_sum, sparse_dot_eq_sum]
    have hcg : ∀ pr ∈ row, (verify_qtags col v cnp).getD pr.1 0 * pr.2 =
        (p.witness.flatten.getD pr.1 0 * pr.2) *
          (verify_challenges col v cnp).vith_delta +
        ((mkvole_secrets col p seeds).u2.flatten.getD pr.1 0 * pr.2) := by
      intro pr hpr
      rw [htag pr.1 (hrow pr hpr)]
      ring
    rw [List.map_congr_left hcg, sum_map_add, sum_map_mul_right]
  rw [hzkp, hcirc, qs_verify, qs_prove, qs_terms]
  simp only [List.map_map, decide_eq_true_eq]
  rw [geom_weighted_map_range, geom_weighted_map_range,
    geom_weighted_map_range, ← sum_map_mul_right, ← sum_map_add]
  congr 1
  apply List.map_congr_left
  intro j hj
  have hja := getD_rows_bound p.circuit.r1cs.a_rows _ hidxa j
  have hjb := getD_rows_bound p.circuit.r1cs.b_rows _ hidxb j
  have hjc := getD_rows_bound p.circuit.r1cs.c_rows _ hidxc j
  show (col.calc_quicksilver_challenge cnp.commitment.seed_comm
        cnp.commitment.witness_comm) ^ j *
      (sparse_dot (verify_qtags col v cnp)
          (p.circuit.r1cs.a_rows.getD j []) *
        sparse_dot (verify_qtags col v cnp)
          (p.circuit.r1cs.b_rows.getD j []) -
        (verify_challenges col v cnp).vith_delta *
        sparse_dot (verify_qtags col v cnp)
          (p.circuit.r1cs.c_rows.getD j [])) =
      (col.calc_quicksilver_challenge cnp.commitment.seed_comm
        cnp.commitment.witness_comm) ^ j *
      (sparse_dot p.witness.flatten (p.circuit.r1cs.a_rows.getD j []) *
        sparse_dot ((mkvole_secrets col p seeds).u2.flatten)
          (p.circuit.r1cs.b_rows.getD j []) +
       sparse_dot p.witness.flatten (p.circuit.r1cs.b_rows.getD j []) *
        sparse_dot ((mkvole_secrets col p seeds).u2.flatten)
          (p.circuit.r1cs.a_rows.getD j []) -
       sparse_dot ((mkvole_secrets col p seeds).u2.flatten)
          (p.circuit.r1cs.c_rows.getD j [])) *
      (verify_challenges col v cnp).vith_delta +
      (col.calc_quicksilver_challenge cnp.commitment.seed_comm
        cnp.commitment.witness_comm) ^ j *
      (sparse_dot ((mkvole_secrets col p seeds).u2.flatten)
          (p.circuit.r1cs.a_rows.getD j []) *
        sparse_dot ((mkvole_secrets col p seeds).u2.flatten)
          (p.circuit.r1cs.b_rows.getD j []))
  rw [hmac _ hja, hmac _ hjb, hmac _ hjc,
    ← hsat j (List.mem_range.mp hj)]
  ring

end HonestCond4

section HonestCond5

variable {F : Type} [CommRing F] [DecidableEq F]

theorem all_zip_map {α β : Type} (idx : List α) (g : α → β)
    (P : α × β → Bool) :
    ((idx.zip (idx.map g)).all P) = idx.all (fun i => P (i, g i)) := by
  induction idx with
  | nil => rfl
  | cons a idx ih =>
    simp only [List.map_cons, List.zip_cons_cons, List.all_cons, ih]

theorem verify_cond5_generic (col : Collaborators F) (v : Verifier F)
    (cnp : CommitAndProof F) (p : Prover F) (seeds : List (Bytes × Bytes))
    (hcol : CollabWF col) (hc : CodeWF p.code)
    (hvl0 : 0 < p.vole_length) (heven : p.vole_length % 2 = 0)
    (hs : seeds.length = p.code.n) (hn0 : 0 < seeds.length)
    (hcirc : v.circuit = p.circuit)
    (hwc : cnp.commitment.witness_comm = mkvole_witness_comm col p seeds)
    (hsm : cnp.proof.s_matrix = mat_add
      (mat_scalar_mul (mkvole_secrets col p seeds).u1
        (verify_challenges col v cnp).vith_delta)
      (mkvole_secrets col p seeds).u2)
    (hpo : cnp.proof.public_openings =
      { public_inputs := qs_open_public p.witness.flatten
          (mkvole_secrets col p seeds).u2.flatten
          p.circuit.public_inputs_indices,
        public_outputs := qs_open_public p.witness.flatten
          (mkvole_secrets col p seeds).u2.flatten
          p.circuit.public_outputs_indices })
    (hWw : ∀ r ∈ p.witness, r.length = p.code.k)
    (hWle : p.witness.length ≤ p.vole_length / 2)
    (hk0 : 0 < p.code.k)
    (hpub : ∀ i ∈ p.circuit.public_inputs_indices ++
      p.circuit.public_outputs_indices, i < p.witness.length * p.code.k) :
    qs_verify_public (verify_qtags col v cnp)
      (verify_challenges col v cnp).vith_delta v.circuit
      cnp.proof.public_openings = true := by
  have htag := verify_qtags_pointwise col v cnp p seeds hcol hc hvl0 heven
    hs hn0 hwc hsm hWw hWle hk0
  rw [hpo, hcirc, qs_verify_public, qs_open_public, qs_open_public,
    all_zip_map, all_zip_map, Bool.and_eq_true]
  constructor
  · rw [List.all_eq_true]
    intro i hi
    simp only [decide_eq_true_eq]
    exact (htag i (hpub i (List.mem_append_left _ hi))).symm
  · rw [List.all_eq_true]
    intro i hi
    simp only [decide_eq_true_eq]
    exact (htag i (hpub i (List.mem_append_right _ hi))).symm

end HonestCond5

section ClaimC1

variable {F : Type} [CommRing F] [DecidableEq F]

/-- Claim C1: for every circuit and satisfying witness, an honest run
succeeds end to end: commit_and_prove on the prover built from the witness
and circuit returns Ok, and Verifier::verify applied to its output returns
Ok with exactly the u-values of the public openings carried by the proof. -/
theorem honest_run_verifies (col : Collaborators F) (code : RAAACode)
    (witness : List F) (circuit : R1CSWithMetadata F)
    (seeds : List (Bytes × Bytes))
    (hc : CodeWF code) (hcol : CollabWF col)
    (hn0 : 0 < code.n) (hk0 : 0 < code.k)
    (hs : seeds.length = code.n)
    (hw : witness.length = circuit.unpadded_wtns_len)
    (hsat : ∀ j, j < circuit.r1cs.a_rows.length →
      sparse_dot witness (circuit.r1cs.a_rows.getD j []) *
        sparse_dot witness (circuit.r1cs.b_rows.getD j []) =
      sparse_dot witness (circuit.r1cs.c_rows.getD j []))
    (hidx : ∀ row ∈ circuit.r1cs.a_rows ++ circuit.r1cs.b_rows ++
      circuit.r1cs.c_rows, ∀ pr ∈ row, pr.1 < circuit.unpadded_wtns_len)
    (hpub : ∀ i ∈ circuit.public_inputs_indices ++
      circuit.public_outputs_indices, i < circuit.unpadded_wtns_len) :
    ∃ r : CommitAndProof F × Prover F,
      Prover.commit_and_prove col
        (Prover.from_witness_and_circuit_unpadded code witness circuit) seeds =
        Except.ok r ∧
      Verifier.verify col (Verifier.from_circuit code circuit) r.1 =
        Except.ok (PublicOpenings.u_values r.1.proof.public_openings) := by
  have hn0' : 0 < seeds.length := by rw [hs]; exact hn0
  have hvl0 : 0 < (Prover.from_witness_and_circuit_unpadded code witness
      circuit).vole_length := by
    rw [fromw_vole_length]
    omega
  have heven : (Prover.from_witness_and_circuit_unpadded code witness
      circuit).vole_length % 2 = 0 := by
    rw [fromw_vole_length]
    omega
  have hcP : CodeWF (Prover.from_witness_and_circuit_unpadded code witness
      circuit).code := hc
  have hsP : seeds.length = (Prover.from_witness_and_circuit_unpadded code
      witness circuit).code.n := hs
  have hk0' : 0 < (Prover.from_witness_and_circuit_unpadded code witness
      circuit).code.k := hk0
  have hurk : circuit.unpadded_wtns_len ≤
      (circuit.calc_padding_needed code.k).num_padded_wtns_rows * code.k := by
    show circuit.unpadded_wtns_len ≤
      ((circuit.unpadded_wtns_len + code.k - 1) / code.k) * code.k
    rcases Nat.eq_zero_or_pos circuit.unpadded_wtns_len with hu | hu
    · rw [hu]
      exact Nat.zero_le _
    · have he : circuit.unpadded_wtns_len + code.k - 1 =
        (circuit.unpadded_wtns_len - 1) + code.k := by omega
      rw [he, Nat.add_div_right _ hk0]
      have hlt : circuit.unpadded_wtns_len - 1 <
          ((circuit.unpadded_wtns_len - 1) / code.k + 1) * code.k :=
        (Nat.div_lt_iff_lt_mul hk0).mp
          (Nat.lt_succ_self ((circuit.unpadded_wtns_len - 1) / code.k))
      omega
  have hwp_len : (zero_pad witness
      (circuit.calc_padding_needed code.k).pad_len).length =
      (circuit.calc_padding_needed code.k).num_padded_wtns_rows * code.k := by
    rw [zero_pad, List.length_append, List.length_replicate, hw]
    show circuit.unpadded_wtns_len +
      ((circuit.calc_padding_needed code.k).num_padded_wtns_rows * code.k -
        circuit.unpadded_wtns_len) = _
    omega
  have hWlen : (Prover.from_witness_and_circuit_unpadded code witness
      circuit).witness.length =
      (circuit.calc_padding_needed code.k).num_padded_wtns_rows := by
    rw [fromw_witness, List.length_map, List.length_range]
  have hWw : ∀ r ∈ (Prover.from_witness_and_circuit_unpadded code witness
      circuit).witness, r.length =
      (Prover.from_witness_and_circuit_unpadded code witness
        circuit).code.k := by
    intro r hr
    rw [fromw_witness] at hr
    obtain ⟨i, hi, rfl⟩ := List.mem_map.mp hr
    have hi2 : i < (circuit.calc_padding_needed code.k).num_padded_wtns_rows :=
      List.mem_range.mp hi
    show (((zero_pad witness (circuit.calc_padding_needed code.k).pad_len).drop
      (code.k * i)).take code.k).length = code.k
    have h5 : code.k * i + code.k = (i + 1) * code.k := by ring
    have h6 : (i + 1) * code.k ≤
        (circuit.calc_padding_needed code.k).num_padded_wtns_rows * code.k :=
      Nat.mul_le_mul_right _ (by omega)
    rw [List.length_take, List.length_drop, hwp_len]
    omega
  have hWle : (Prover.from_witness_and_circuit_unpadded code witness
      circuit).witness.length ≤
      (Prover.from_witness_and_circuit_unpadded code witness
        circuit).vole_length / 2 := by
    rw [hWlen, fromw_vole_length]
    omega
  have hflatten : (Prover.from_witness_and_circuit_unpadded code witness
      circuit).witness.flatten =
      zero_pad witness (circuit.calc_padding_needed code.k).pad_len := by
    rw [fromw_witness]
    have hfn : (fun i => ((zero_pad witness
        (circuit.calc_padding_needed code.k).pad_len).drop
          (code.k * i)).take code.k) =
        sectionOf (zero_pad witness
          (circuit.calc_padding_needed code.k).pad_len) code.k := rfl
    rw [hfn]
    exact flatten_sections _ _ _ hwp_len
  have hidxP : ∀ row ∈ (Prover.from_witness_and_circuit_unpadded code witness
      circuit).circuit.r1cs.a_rows ++
      (Prover.from_witness_and_circuit_unpadded code witness
        circuit).circuit.r1cs.b_rows ++
      (Prover.from_witness_and_circuit_unpadded code witness
        circuit).circuit.r1cs.c_rows, ∀ pr ∈ row,
      pr.1 < (Prover.from_witness_and_circuit_unpadded code witness
        circuit).witness.length *
        (Prover.from_witness_and_circuit_unpadded code witness
          circuit).code.k := by
    intro row hrow pr hpr
    have h7 := hidx row hrow pr hpr
    have h8 : circuit.unpadded_wtns_len ≤
        (Prover.from_witness_and_circuit_unpadded code witness
          circuit).witness.length *
        (Prover.from_witness_and_circuit_unpadded code witness
          circuit).code.k := by
      rw [hWlen]
      exact hurk
    omega
  have hsatP : ∀ j, j < (Prover.from_witness_and_circuit_unpadded code
      witness circuit).circuit.r1cs.a_rows.length →
      sparse_dot (Prover.from_witness_and_circuit_unpadded code witness
        circuit).witness.flatten
        ((Prover.from_witness_and_circuit_unpadded code witness
          circuit).circuit.r1cs.a_rows.getD j []) *
      sparse_dot (Prover.from_witness_and_circuit_unpadded code witness
        circuit).witness.flatten
        ((Prover.from_witness_and_circuit_unpadded code witness
          circuit).circuit.r1cs.b_rows.getD j []) =
      sparse_dot (Prover.from_witness_and_circuit_unpadded code witness
        circuit).witness.flatten
        ((Prover.from_witness_and_circuit_unpadded code witness
          circuit).circuit.r1cs.c_rows.getD j []) := by
    intro j hj
    rw [hflatten, sparse_dot_zero_pad, sparse_dot_zero_pad,
      sparse_dot_zero_pad]
    exact hsat j hj
  have hpubP : ∀ i ∈ (Prover.from_witness_and_circuit_unpadded code witness
      circuit).circuit.public_inputs_indices ++
      (Prover.from_witness_and_circuit_unpadded code witness
        circuit).circuit.public_outputs_indices,
      i < (Prover.from_witness_and_circuit_unpadded code witness
        circuit).witness.length *
        (Prover.from_witness_and_circuit_unpadded code witness
          circuit).code.k := by
    intro i hi
    have h7 := hpub i hi
    have h8 : circuit.unpadded_wtns_len ≤
        (Prover.from_witness_and_circuit_unpadded code witness
          circuit).witness.length *
        (Prover.from_witness_and_circuit_unpadded code witness
          circuit).code.k := by
      rw [hWlen]
      exact hurk
    omega
  have g1 : (Prover.from_witness_and_circuit_unpadded code witness
      circuit).num_voles %
      (Prover.from_witness_and_circuit_unpadded code witness
        circuit).code.q = 0 := hc.2.2.1
  have g2 : (transposeM (mkvole_u_cols col
      (Prover.from_witness_and_circuit_unpadded code witness circuit)
      seeds)).length % 2 = 0 := by
    rw [length_transposeM_mkvole_u_cols col _ seeds hcol hn0',
      fromw_vole_length]
    omega
  have g3 : (transposeM (mkvole_v_cols col
      (Prover.from_witness_and_circuit_unpadded code witness circuit)
      seeds)).length % 2 = 0 := by
    rw [length_transposeM_mkvole_v_cols col _ seeds hcol hn0',
      fromw_vole_length]
    omega
  refine ⟨(honest_cnp col code witness circuit seeds,
    mkvole_state col (Prover.from_witness_and_circuit_unpadded code witness
      circuit) seeds), ?_, ?_⟩
  · exact commit_and_prove_eq_ok col _ seeds g1 g2 g3
  · apply verify_eq_ok
    · exact honest_cond1 col code witness circuit seeds hcol hs
    · exact verify_cond2_generic col _ _
        (Prover.from_witness_and_circuit_unpadded code witness circuit) seeds
        hcol hcP (by rw [fromc_num_voles, hs]) rfl hvl0 rfl rfl rfl
        (honest_dcs_le col code witness circuit seeds hcol) hsP hn0' rfl
    · exact verify_cond3_generic col _ _
        (Prover.from_witness_and_circuit_unpadded code witness circuit) seeds
        hcol hcP (by rw [fromc_num_voles, hs]) rfl hvl0 heven rfl rfl rfl
        (honest_dcs_le col code witness circuit seeds hcol) hsP hn0' rfl rfl
    · exact verify_cond4_generic col _ _
        (Prover.from_witness_and_circuit_unpadded code witness circuit) seeds
        hcol hcP hvl0 heven hsP hn0' rfl rfl rfl rfl hWw hWle hk0' hidxP hsatP
    · exact verify_cond5_generic col _ _
        (Prover.from_witness_and_circuit_unpadded code witness circuit) seeds
        hcol hcP hvl0 heven hsP hn0' rfl rfl rfl rfl hWw hWle hk0' hpubP

end ClaimC1

theorem wcol_collabWF : CollabWF wcol := by
  refine ⟨fun s m => by simp [wcol], fun s d m => by simp [wcol],
    fun sc wc z vl nv po => ⟨by simp [wcol], ?_⟩⟩
  intro d hd
  simp only [wcol, List.mem_map, List.mem_range] at hd
  obtain ⟨i, _, rfl⟩ := hd
  omega

theorem honest_run_verifies_witness :
    CodeWF wcode ∧ CollabWF wcol ∧ 0 < wcode.n ∧ 0 < wcode.k ∧
    wseeds.length = wcode.n ∧ wwit.length = wcirc.unpadded_wtns_len ∧
    (∀ j, j < wcirc.r1cs.a_rows.length →
      sparse_dot wwit (wcirc.r1cs.a_rows.getD j []) *
        sparse_dot wwit (wcirc.r1cs.b_rows.getD j []) =
      sparse_dot wwit (wcirc.r1cs.c_rows.getD j [])) ∧
    (∀ row ∈ wcirc.r1cs.a_rows ++ wcirc.r1cs.b_rows ++ wcirc.r1cs.c_rows,
      ∀ pr ∈ row, pr.1 < wcirc.unpadded_wtns_len) ∧
    (∀ i ∈ wcirc.public_inputs_indices ++ wcirc.public_outputs_indices,
      i < wcirc.unpadded_wtns_len) ∧
    (∃ r : CommitAndProof Fw × Prover Fw,
      Prover.commit_and_prove wcol
        (Prover.from_witness_and_circuit_unpadded wcode wwit wcirc) wseeds =
        Except.ok r ∧
      Verifier.verify wcol (Verifier.from_circuit wcode wcirc) r.1 =
        Except.ok (PublicOpenings.u_values r.1.proof.public_openings)) :=
  ⟨by decide, wcol_collabWF, by decide, by decide, by decide, by decide,
   by decide, by decide, by decide,
   honest_run_verifies wcol wcode wwit wcirc wseeds (by decide) wcol_collabWF
     (by decide) (by decide) (by decide) (by decide) (by decide) (by decide)
     (by decide)⟩
